import Mathlib

/-!
Verification of the ML-KEM-768 (Kyber) Python reference model.

The definitions below are shallow embeddings of `src/ref/kyber_math.py` and
`src/ref/kyber_acvp.py`: Python integers become `Nat` (or `Int` where the
source relies on signed arithmetic), Python lists become `List Nat`,
imperative loops become folds over the concrete iteration spaces, and the
external `hashlib` primitives become explicit function parameters.

The file is organized as definitions first, then theorems.
-/

set_option maxRecDepth 100000

namespace Kyber

/-! ## Definitions -/

/-- q = 3329, the Kyber modulus. -/
def KYBER_Q : Nat := 3329

/-- N = 256, the polynomial degree. -/
def KYBER_N : Nat := 256

/-- 128⁻¹ mod 3329, the INTT scaling factor. -/
def KYBER_N_INV : Nat := 3303

/-- Barrett constant ⌊2²⁶ / 3329⌋. -/
def BARRETT_V : Nat := 20158

/-- Barrett shift amount. -/
def BARRETT_SHIFT : Nat := 26

/-- (q−1)/2 = 1664, rounding constant for compress. -/
def HALF_Q : Nat := 1664

/-- Primitive 256th root of unity mod 3329. -/
def ZETA : Nat := 17

/-- `mod_q`: canonical modular reduction, `a % 3329`. -/
def mod_q (a : Nat) : Nat := a % KYBER_Q

/-- `cond_sub_q`: reduce `[0, 2q-1]` to `[0, q-1]` by conditional subtraction.
The source asserts `0 ≤ a < 2q`; that precondition appears as a hypothesis in
the theorems below. -/
def cond_sub_q (a : Nat) : Nat := if a ≥ KYBER_Q then a - KYBER_Q else a

/-- `barrett_reduce`: Barrett reduction matching the hardware implementation.
`t = (a * V) >> 26`, `r = a - t * q`, result `cond_sub_q r`.
Subtraction `a - t*q` is non-negative (proved below), so Nat subtraction is
faithful to the Python source. -/
def barrett_reduce (a : Nat) : Nat :=
  let t := (a * BARRETT_V) >>> BARRETT_SHIFT
  let r := a - t * KYBER_Q
  cond_sub_q r

/-- `cond_add_q`: conditional addition of q for subtraction underflow
correction on a 13-bit borrow pattern. -/
def cond_add_q (a : Nat) : Nat :=
  if a &&& 0x1000 ≠ 0 then ((a &&& 0xFFF) + KYBER_Q) &&& 0xFFF
  else a &&& 0xFFF

/-- `mod_add`: modular addition of two canonical operands. -/
def mod_add (a b : Nat) : Nat := cond_sub_q (a + b)

/-- `mod_sub`: modular subtraction via 13-bit unsigned subtraction and
`cond_add_q`.  The Python source computes
`diff = ((1 << 13) + a - b) if a < b else (a - b)` and then
`cond_add_q (diff &&& 0x1FFF)`. -/
def mod_sub (a b : Nat) : Nat :=
  let diff := if a < b then (1 <<< 13) + a - b else a - b
  cond_add_q (diff &&& 0x1FFF)

/-- `bitrev7`: reverse the bottom 7 bits of `x`. -/
def bitrev7 (x : Nat) : Nat :=
  (List.range 7).foldl (fun result i => result ||| (((x >>> i) &&& 1) <<< (6 - i))) 0

/-- Twiddle factor table: `ZETAS[k] = 17^(bitrev7 k) mod 3329` for `k = 0..127`. -/
def ZETAS : List Nat := (List.range 128).map (fun k => ZETA ^ bitrev7 k % KYBER_Q)

/-- `compress_q`: `⌊((x << d) + 1664) / q⌋ mod 2^d` (FIPS 203 §4.2.1). -/
def compress_q (x d : Nat) : Nat := (((x <<< d) + HALF_Q) / KYBER_Q) % (1 <<< d)

/-- `decompress_q`: `(q * y + (1 << (d-1))) >> d` (FIPS 203 §4.2.1). -/
def decompress_q (y d : Nat) : Nat := (KYBER_Q * y + (1 <<< (d - 1))) >>> d

/-- Wrapped (circular) distance between two residues mod q. -/
def wrapped_dist (a b : Nat) : Nat :=
  min ((a + (KYBER_Q - b)) % KYBER_Q) ((b + (KYBER_Q - a)) % KYBER_Q)

/-- The C6 property at a single point. -/
def C6_prop (x : Nat) : Prop :=
  ∀ d ∈ [1, 4, 5, 10, 11],
    wrapped_dist (decompress_q (compress_q x d) d) x
      ≤ (KYBER_Q + (2 ^ (d + 1) - 1)) / 2 ^ (d + 1)

instance (x : Nat) : Decidable (C6_prop x) := by
  unfold C6_prop
  infer_instance

/-- One nibble of the CBD η=2 sampler: `(b0+b1) - (b2+b3) mod q`.
The Python subtraction can be negative, so it is embedded over `Int`
(`Int.emod` matches Python's `%` on a positive modulus). -/
def cbd_nibble_coeff (nib : Nat) : Nat :=
  let a := (nib &&& 1) + ((nib >>> 1) &&& 1)
  let b := ((nib >>> 2) &&& 1) + ((nib >>> 3) &&& 1)
  (((a : Int) - (b : Int)) % (KYBER_Q : Int)).toNat

/-- `cbd_sample_eta2`: 128 bytes to 256 coefficients, low nibble then high
nibble of each byte. -/
def cbd_sample_eta2 (input_bytes : List Nat) : List Nat :=
  input_bytes.flatMap (fun byte_val =>
    [0, 4].map (fun shift => cbd_nibble_coeff ((byte_val >>> shift) &&& 0xF)))

/-- The d LSB-first bits of a coefficient: `[(c >> j) & 1 for j in range(d)]`. -/
def toBitsLSB (d c : Nat) : List Nat := (List.range d).map (fun j => (c >>> j) &&& 1)

/-- One step of the source's bit-packing loop
`out[i >> 3] |= b << (i & 7)` for an enumerated bit `(i, b)`. -/
def packStep (out : List Nat) (ib : Nat × Nat) : List Nat :=
  out.set (ib.1 >>> 3) (out.getD (ib.1 >>> 3) 0 ||| (ib.2 <<< (ib.1 &&& 7)))

/-- `byte_encode d coeffs`: 256 d-bit coefficients to 32*d bytes,
LSB-first contiguous bit packing (FIPS 203 Algorithm 4). -/
def byte_encode (d : Nat) (coeffs : List Nat) : List Nat :=
  let bits := coeffs.flatMap (toBitsLSB d)
  bits.enum.foldl packStep (List.replicate (32 * d) 0)

/-- `byte_encode` including the source's only assert (input length 256);
`none` models an `AssertionError`. -/
def byte_encode_checked (d : Nat) (coeffs : List Nat) : Option (List Nat) :=
  if coeffs.length = 256 then some (byte_encode d coeffs) else none

/-- `byte_decode d data`: 32*d bytes to 256 d-bit coefficients
(FIPS 203 Algorithm 5); for d = 12 each field is reduced mod q. -/
def byte_decode (d : Nat) (data : List Nat) : List Nat :=
  let bits := data.flatMap (toBitsLSB 8)
  (List.range 256).map (fun i =>
    let val := (List.range d).foldl (fun val j => val ||| (bits.getD (i * d + j) 0 <<< j)) 0
    if d = 12 then val % KYBER_Q else val)

/-- OR-accumulation of bits into a byte, starting from `v` at bit position `j`:
the per-byte effect of the packing loop. -/
def orAccum (v j : Nat) : List Nat → Nat
  | [] => v
  | b :: bs => orAccum (v ||| (b <<< j)) (j + 1) bs

/-- A packed byte: OR of its 8 bits, LSB first. -/
def packByte (c : List Nat) : Nat := orAccum 0 0 c

/-- Split a bit list into byte-sized groups of 8 (leftover bits dropped). -/
def chunk8 : List Nat → List (List Nat)
  | b0 :: b1 :: b2 :: b3 :: b4 :: b5 :: b6 :: b7 :: rest =>
      [b0, b1, b2, b3, b4, b5, b6, b7] :: chunk8 rest
  | _ => []

/-- The bit-reassembly fold of `byte_decode` applied to the bits of a single
coefficient `c`. -/
def reassembleFold (d c : Nat) : Nat :=
  (List.range d).foldl (fun val j => val ||| (((c >>> j) &&& 1) <<< j)) 0

/-- Coefficient-wise polynomial addition in Z_q (source asserts both lengths
are 256). -/
def poly_add (a b : List Nat) : List Nat := List.zipWith mod_add a b

/-- Coefficient-wise polynomial subtraction in Z_q. -/
def poly_sub (a b : List Nat) : List Nat := List.zipWith mod_sub a b

/-- Single 2x2 basemul in `Z_q[X]/(X^2 - zeta)` with the source's Barrett
reduction strategy. -/
def basemul (a0 a1 b0 b1 zeta : Nat) : Nat × Nat :=
  let t1 := barrett_reduce (a1 * b1)
  let acc0 := a0 * b0 + t1 * zeta
  let c0 := barrett_reduce acc0
  let acc1 := a0 * b1 + a1 * b0
  let c1 := barrett_reduce acc1
  (c0, c1)

/-- `poly_basemul`: pointwise NTT-domain multiplication, 64 groups of two 2x2
basemuls (twiddle `ZETAS[64+i]`, then its negation). -/
def poly_basemul (a b : List Nat) : List Nat :=
  (List.range 64).foldl (fun r i =>
    let zeta := ZETAS.getD (64 + i) 0
    let neg_zeta := KYBER_Q - zeta
    let c1 := basemul (a.getD (4 * i) 0) (a.getD (4 * i + 1) 0)
      (b.getD (4 * i) 0) (b.getD (4 * i + 1) 0) zeta
    let c2 := basemul (a.getD (4 * i + 2) 0) (a.getD (4 * i + 3) 0)
      (b.getD (4 * i + 2) 0) (b.getD (4 * i + 3) 0) neg_zeta
    (((r.set (4 * i) c1.1).set (4 * i + 1) c1.2).set (4 * i + 2) c2.1).set (4 * i + 3) c2.2)
    (List.replicate KYBER_N 0)

/-- `schoolbook_mul`: O(N²) multiplication mod (X^256 + 1).  The accumulator
and the wrap-around difference are over `Int` because the Python source's
`c[i] - c[i + 256]` can be negative (`%` is Python's non-negative modulus). -/
def schoolbook_mul (a b : List Nat) : List Nat :=
  let c : List Int := (List.range KYBER_N).foldl (fun c i =>
      (List.range KYBER_N).foldl (fun c j =>
        c.set (i + j) (c.getD (i + j) 0 + (a.getD i 0 : Int) * (b.getD j 0 : Int))) c)
    (List.replicate (2 * KYBER_N) (0 : Int))
  (List.range KYBER_N).map (fun i =>
    ((c.getD i 0 - c.getD (i + KYBER_N) 0) % (KYBER_Q : Int)).toNat)

/-- One block of the forward NTT layer: Cooley-Tukey butterflies at positions
`(j, j + len)` for `j ∈ [start, start + len)`, with a fixed twiddle. -/
def nttBlock (zeta len : Nat) (f : List Nat) (start : Nat) : List Nat :=
  (List.range' start len).foldl (fun g j =>
    let t := barrett_reduce (zeta * g.getD (j + len) 0)
    let gj := g.getD j 0
    (g.set (j + len) (mod_sub gj t)).set j (mod_add gj t)) f

/-- One forward NTT layer: blocks at `start = 0, 2*len, ...`, consuming
twiddle indices `k, k+1, ...` (the pair is the source's `(f, k)` state). -/
def nttLayer (len : Nat) (fk : List Nat × Nat) : List Nat × Nat :=
  (List.range (KYBER_N / (2 * len))).foldl (fun fk b =>
    (nttBlock (ZETAS.getD fk.2 0) len fk.1 (2 * len * b), fk.2 + 1)) fk

/-- `ntt_forward`: 7 Cooley-Tukey layers, block length 128 down to 2,
twiddle index starting at 1. -/
def ntt_forward (coeffs : List Nat) : List Nat :=
  ([128, 64, 32, 16, 8, 4, 2].foldl (fun fk len => nttLayer len fk)
    (coeffs.map (· % KYBER_Q), 1)).1

/-- One block of the inverse NTT layer: Gentleman-Sande butterflies.
The source sets `f[j]` first and then reads `f[j + len]` (unchanged). -/
def inttBlock (zeta len : Nat) (f : List Nat) (start : Nat) : List Nat :=
  (List.range' start len).foldl (fun g j =>
    let t := g.getD j 0
    let g1 := g.set j (mod_add t (g.getD (j + len) 0))
    g1.set (j + len) (barrett_reduce (zeta * mod_sub (g1.getD (j + len) 0) t))) f

/-- One inverse NTT layer: blocks at `start = 0, 2*len, ...`, consuming
twiddle indices `k, k-1, ...` downward. -/
def inttLayer (len : Nat) (fk : List Nat × Nat) : List Nat × Nat :=
  (List.range (KYBER_N / (2 * len))).foldl (fun fk b =>
    (inttBlock (ZETAS.getD fk.2 0) len fk.1 (2 * len * b), fk.2 - 1)) fk

/-- `ntt_inverse`: 7 Gentleman-Sande layers, block length 2 up to 128,
twiddle index starting at 127 and decreasing, then scaling by 128⁻¹. -/
def ntt_inverse (coeffs : List Nat) : List Nat :=
  let f := ([2, 4, 8, 16, 32, 64, 128].foldl (fun fk len => inttLayer len fk)
    (coeffs.map (· % KYBER_Q), 127)).1
  f.map (fun x => barrett_reduce (x * KYBER_N_INV))

/-- `keygen_inner` (kyber_math): `t_hat = A_hat * NTT(s) + NTT(e)` in the NTT
domain, row access `A_hat[i][j]`. -/
def keygen_inner (A_hat : List (List (List Nat))) (s_noise e_noise : List (List Nat)) :
    List (List Nat) × List (List Nat) :=
  let s_hat := (List.range 3).map (fun i => ntt_forward (s_noise.getD i []))
  let e_hat := (List.range 3).map (fun i => ntt_forward (e_noise.getD i []))
  let t_hat := (List.range 3).map (fun i =>
    let acc := poly_basemul ((A_hat.getD i []).getD 0 []) (s_hat.getD 0 [])
    let acc := (List.range' 1 2).foldl (fun acc j =>
      poly_add acc (poly_basemul ((A_hat.getD i []).getD j []) (s_hat.getD j []))) acc
    poly_add acc (e_hat.getD i []))
  (t_hat, s_hat)

/-- `encaps_inner` (kyber_math): `u = INTT(A_hat^T r_hat) + e1`,
`v = INTT(t_hat^T r_hat) + e2 + m`, column access `A_hat[j][i]`. -/
def encaps_inner (A_hat : List (List (List Nat))) (t_hat : List (List Nat))
    (r e1 : List (List Nat)) (e2 m : List Nat) :
    List (List Nat) × List Nat :=
  let r_hat := (List.range 3).map (fun i => ntt_forward (r.getD i []))
  let u := (List.range 3).map (fun i =>
    let acc := poly_basemul ((A_hat.getD 0 []).getD i []) (r_hat.getD 0 [])
    let acc := (List.range' 1 2).foldl (fun acc j =>
      poly_add acc (poly_basemul ((A_hat.getD j []).getD i []) (r_hat.getD j []))) acc
    poly_add (ntt_inverse acc) (e1.getD i []))
  let v_acc := poly_basemul (t_hat.getD 0 []) (r_hat.getD 0 [])
  let v_acc := (List.range' 1 2).foldl (fun acc j =>
    poly_add acc (poly_basemul (t_hat.getD j []) (r_hat.getD j []))) v_acc
  let v := poly_add (poly_add (ntt_inverse v_acc) e2) m
  (u, v)

/-! ### kyber_acvp: parameters, hashes, K-PKE and ML-KEM layers -/

/-- Module rank for ML-KEM-768. -/
def K : Nat := 3

/-- CBD parameter for secret/noise. -/
def ETA1 : Nat := 2

/-- CBD parameter for encryption noise. -/
def ETA2 : Nat := 2

/-- Ciphertext compression parameter for u. -/
def DU : Nat := 10

/-- Ciphertext compression parameter for v. -/
def DV : Nat := 4

/-- Encapsulation key length: 384*K + 32 = 1184 bytes. -/
def EK_LEN : Nat := 384 * K + 32

/-- K-PKE decryption key length: 384*K = 1152 bytes. -/
def DK_PKE_LEN : Nat := 384 * K

/-- Ciphertext length: 32*DU*K + 32*DV = 1088 bytes. -/
def CT_LEN : Nat := 32 * DU * K + 32 * DV

/-- The external `hashlib` primitives, modelled as function parameters:
`sha3_512`, `sha3_256` (fixed output) and `shake_256`, `shake_128`
(extendable output, second argument is the requested length). -/
structure Hashes where
  sha3_512 : List Nat → List Nat
  sha3_256 : List Nat → List Nat
  shake_256 : List Nat → Nat → List Nat
  shake_128 : List Nat → Nat → List Nat

/-- `G`: SHA3-512 split into two 32-byte halves. -/
def g_hash (H : Hashes) (data : List Nat) : List Nat × List Nat :=
  let h := H.sha3_512 data
  (h.take 32, h.drop 32)

/-- `H`: SHA3-256. -/
def h_hash (H : Hashes) (data : List Nat) : List Nat := H.sha3_256 data

/-- `J`: SHAKE-256, protocol length 32. -/
def j_hash (H : Hashes) (data : List Nat) : List Nat := H.shake_256 data 32

/-- `PRF_eta`: SHAKE-256(seed ‖ nonce) with 64*eta output bytes. -/
def prf (H : Hashes) (eta : Nat) (seed : List Nat) (nonce : Nat) : List Nat :=
  H.shake_256 (seed ++ [nonce]) (64 * eta)

/-- `XOF`: SHAKE-128. -/
def xof (H : Hashes) (seed : List Nat) (len : Nat) : List Nat :=
  H.shake_128 seed len

/-- The rejection-sampling loop of `sample_ntt`: consume 3 bytes at a time,
extract two 12-bit candidates, accept those `< q`, until 256 accepted.
(On buffer exhaustion the Python source would raise; here the accumulated
coefficients are returned, a case never reached by the protocol.) -/
def sample_ntt_loop : List Nat → List Nat → List Nat
  | b0 :: b1 :: b2 :: rest, coeffs =>
      if coeffs.length ≥ 256 then coeffs
      else
        let d1 := b0 + 256 * (b1 &&& 0x0F)
        let d2 := (b1 >>> 4) + 16 * b2
        let coeffs1 := if d1 < KYBER_Q then coeffs ++ [d1] else coeffs
        let coeffs2 := if coeffs1.length < 256 ∧ d2 < KYBER_Q then coeffs1 ++ [d2] else coeffs1
        sample_ntt_loop rest coeffs2
  | _, coeffs => coeffs

/-- `sample_ntt`: rejection sampling from `SHAKE-128(rho ‖ j ‖ i)`,
column index byte first. -/
def sample_ntt (H : Hashes) (rho : List Nat) (j i : Nat) : List Nat :=
  let seed := rho ++ [j, i]
  let buf := xof H seed 4096
  sample_ntt_loop buf []

/-- `expand_a`: `A_hat[i][j] = sample_ntt(rho, j, i)`. -/
def expand_a (H : Hashes) (rho : List Nat) : List (List (List Nat)) :=
  (List.range K).map (fun i => (List.range K).map (fun j => sample_ntt H rho j i))

/-- `k_pke_keygen` (FIPS 203, Algorithm 13): returns `(ek_pke, dk_pke)`. -/
def k_pke_keygen (H : Hashes) (d : List Nat) : List Nat × List Nat :=
  let rs := g_hash H (d ++ [K])
  let rho := rs.1
  let sigma := rs.2
  let A_hat := expand_a H rho
  let s := (List.range K).map (fun i => cbd_sample_eta2 (prf H ETA1 sigma i))
  let e := (List.range K).map (fun i => cbd_sample_eta2 (prf H ETA1 sigma (K + i)))
  let s_hat := (List.range K).map (fun i => ntt_forward (s.getD i []))
  let e_hat := (List.range K).map (fun i => ntt_forward (e.getD i []))
  let t_hat := (List.range K).map (fun i =>
    let acc := poly_basemul ((A_hat.getD i []).getD 0 []) (s_hat.getD 0 [])
    let acc := (List.range' 1 (K - 1)).foldl (fun acc j =>
      poly_add acc (poly_basemul ((A_hat.getD i []).getD j []) (s_hat.getD j []))) acc
    poly_add acc (e_hat.getD i []))
  let ek_pke := (List.range K).flatMap (fun i => byte_encode 12 (t_hat.getD i [])) ++ rho
  let dk_pke := (List.range K).flatMap (fun i => byte_encode 12 (s_hat.getD i []))
  (ek_pke, dk_pke)

/-- The uncompressed `(u, v)` computed inside `k_pke_encrypt` (source lines
197-239), before compression and encoding. -/
def k_pke_encrypt_uv (H : Hashes) (ek m_bytes r_seed : List Nat) :
    List (List Nat) × List Nat :=
  let t_hat := (List.range K).map (fun i => byte_decode 12 ((ek.drop (384 * i)).take 384))
  let rho := ek.drop (384 * K)
  let A_hat := expand_a H rho
  let y := (List.range K).map (fun i => cbd_sample_eta2 (prf H ETA1 r_seed i))
  let e1 := (List.range K).map (fun i => cbd_sample_eta2 (prf H ETA2 r_seed (K + i)))
  let e2 := cbd_sample_eta2 (prf H ETA2 r_seed (2 * K))
  let r_hat := (List.range K).map (fun i => ntt_forward (y.getD i []))
  let u := (List.range K).map (fun i =>
    let acc := poly_basemul ((A_hat.getD 0 []).getD i []) (r_hat.getD 0 [])
    let acc := (List.range' 1 (K - 1)).foldl (fun acc j =>
      poly_add acc (poly_basemul ((A_hat.getD j []).getD i []) (r_hat.getD j []))) acc
    poly_add (ntt_inverse acc) (e1.getD i []))
  let mu_coeffs := byte_decode 1 m_bytes
  let mu := mu_coeffs.map (fun c => decompress_q c 1)
  let v_acc := poly_basemul (t_hat.getD 0 []) (r_hat.getD 0 [])
  let v_acc := (List.range' 1 (K - 1)).foldl (fun acc j =>
    poly_add acc (poly_basemul (t_hat.getD j []) (r_hat.getD j []))) v_acc
  let v := poly_add (poly_add (ntt_inverse v_acc) e2) mu
  (u, v)

/-- `k_pke_encrypt` (FIPS 203, Algorithm 14): compress and encode the
internal `(u, v)`. -/
def k_pke_encrypt (H : Hashes) (ek m_bytes r_seed : List Nat) : List Nat :=
  let uv := k_pke_encrypt_uv H ek m_bytes r_seed
  let c1 := (List.range K).flatMap (fun i =>
    byte_encode DU ((uv.1.getD i []).map (fun c => compress_q c DU)))
  let c2 := byte_encode DV (uv.2.map (fun c => compress_q c DV))
  c1 ++ c2

/-- `k_pke_decrypt` (FIPS 203, Algorithm 15). -/
def k_pke_decrypt (dk_pke c : List Nat) : List Nat :=
  let c1 := c.take (32 * DU * K)
  let c2 := c.drop (32 * DU * K)
  let u := (List.range K).map (fun i =>
    (byte_decode DU ((c1.drop (32 * DU * i)).take (32 * DU))).map
      (fun coeff => decompress_q coeff DU))
  let v := (byte_decode DV c2).map (fun coeff => decompress_q coeff DV)
  let s_hat := (List.range K).map (fun i => byte_decode 12 ((dk_pke.drop (384 * i)).take 384))
  let u_hat := (List.range K).map (fun i => ntt_forward (u.getD i []))
  let acc := poly_basemul (s_hat.getD 0 []) (u_hat.getD 0 [])
  let acc := (List.range' 1 (K - 1)).foldl (fun acc j =>
    poly_add acc (poly_basemul (s_hat.getD j []) (u_hat.getD j []))) acc
  let w := ntt_inverse acc
  let diff := poly_sub v w
  byte_encode 1 (diff.map (fun c => compress_q c 1))

/-- `keygen_full` (ML-KEM.KeyGen, FIPS 203 Algorithm 16):
`dk = dk_pke ‖ ek ‖ H(ek) ‖ z`. -/
def keygen_full (H : Hashes) (d z : List Nat) : List Nat × List Nat :=
  let kp := k_pke_keygen H d
  let ek := kp.1
  (ek, kp.2 ++ ek ++ h_hash H ek ++ z)

/-- `encaps_full` (ML-KEM.Encaps_internal, FIPS 203 Algorithm 17):
`(K, r) = G(m ‖ H(ek))`, `c = K-PKE.Encrypt(ek, m, r)`. -/
def encaps_full (H : Hashes) (ek m : List Nat) : List Nat × List Nat :=
  let h := h_hash H ek
  let Kr := g_hash H (m ++ h)
  (Kr.1, k_pke_encrypt H ek m Kr.2)

/-- `decaps_full` (ML-KEM.Decaps_internal, FIPS 203 Algorithm 18), with the
implicit-rejection branch. -/
def decaps_full (H : Hashes) (dk c : List Nat) : List Nat :=
  let dk_pke := dk.take DK_PKE_LEN
  let ek := (dk.drop DK_PKE_LEN).take EK_LEN
  let h := (dk.drop (DK_PKE_LEN + EK_LEN)).take 32
  let z := dk.drop (DK_PKE_LEN + EK_LEN + 32)
  let m_prime := k_pke_decrypt dk_pke c
  let Kr := g_hash H (m_prime ++ h)
  let K_bar := j_hash H (z ++ c)
  let c_prime := k_pke_encrypt H ek m_prime Kr.2
  if c = c_prime then Kr.1 else K_bar

/-! Derived forms used to verify the NTT: a generic butterfly step, per-layer
chunked reformulations over `Nat`, and their images over `ZMod 3329`. -/

/-- A generic two-point butterfly update at positions `(j, j+L)`: both reads
are from the original state, as in the source loops. -/
def stepAt (φ ψ : Nat → Nat → Nat) (L : Nat) (g : List Nat) (j : Nat) : List Nat :=
  (g.set (j + L) (ψ (g.getD j 0) (g.getD (j + L) 0))).set j
    (φ (g.getD j 0) (g.getD (j + L) 0))

/-- Chunked form of one forward NTT layer over `Nat`: each chunk of size
`2*len` splits into the Cooley-Tukey (+) and (−) halves, with the twiddle
index incrementing per chunk. -/
def ctChunkOut (k len : Nat) : List (List Nat) → List (List Nat)
  | [] => []
  | c :: cs =>
      List.zipWith (fun a b => mod_add a (barrett_reduce (ZETAS.getD k 0 * b)))
          (c.take len) (c.drop len)
        :: List.zipWith (fun a b => mod_sub a (barrett_reduce (ZETAS.getD k 0 * b)))
          (c.take len) (c.drop len)
        :: ctChunkOut (k + 1) len cs

/-- Chunked form of one inverse NTT layer over `Nat`: adjacent chunk pairs
merge Gentleman-Sande style, with the twiddle index decrementing per pair. -/
def gsChunkOut (k : Nat) : List (List Nat) → List (List Nat)
  | u :: v :: cs =>
      (List.zipWith mod_add u v
        ++ List.zipWith (fun a b => barrett_reduce (ZETAS.getD k 0 * mod_sub b a)) u v)
        :: gsChunkOut (k - 1) cs
  | _ => []

/-- The coefficient field Z_q. -/
abbrev Zq := ZMod 3329

/-- Twiddle factor as an element of Z_q. -/
def zetaZ (k : Nat) : Zq := ((ZETAS.getD k 0 : Nat) : Zq)

/-- Cast a coefficient list into Z_q. -/
def castP (l : List Nat) : List Zq := l.map (fun x => ((x : Nat) : Zq))

/-- Cast a chunk list into Z_q. -/
def castPP (st : List (List Nat)) : List (List Zq) := st.map castP

/-- One forward NTT layer on Z_q chunk lists. -/
def ctChunkZ (k len : Nat) : List (List Zq) → List (List Zq)
  | [] => []
  | c :: cs =>
      List.zipWith (fun e o => e + zetaZ k * o) (c.take len) (c.drop len)
        :: List.zipWith (fun e o => e - zetaZ k * o) (c.take len) (c.drop len)
        :: ctChunkZ (k + 1) len cs

/-- One inverse NTT layer on Z_q chunk lists. -/
def gsChunkZ (k : Nat) : List (List Zq) → List (List Zq)
  | u :: v :: cs =>
      (List.zipWith (· + ·) u v ++ List.zipWith (fun a b => zetaZ k * (b - a)) u v)
        :: gsChunkZ (k - 1) cs
  | _ => []

/-- The forward NTT on Z_q as the 7-stage chunk pipeline. -/
def nttZst (x : List Zq) : List (List Zq) :=
  ctChunkZ 64 2 (ctChunkZ 32 4 (ctChunkZ 16 8 (ctChunkZ 8 16 (ctChunkZ 4 32
    (ctChunkZ 2 64 (ctChunkZ 1 128 [x]))))))

/-- The forward NTT on Z_q, flattened. -/
def nttZ (x : List Zq) : List Zq := (nttZst x).flatten

/-- The inverse NTT on Z_q before the final scaling. -/
def inttZpre (st : List (List Zq)) : List Zq :=
  (gsChunkZ 1 (gsChunkZ 3 (gsChunkZ 7 (gsChunkZ 15 (gsChunkZ 31 (gsChunkZ 63
    (gsChunkZ 127 st))))))).flatten

/-- The inverse NTT on Z_q including the 128⁻¹ = 3303 scaling. -/
def inttZ (st : List (List Zq)) : List Zq :=
  (inttZpre st).map (fun x => (3303 : Zq) * x)

/-- A degenerate all-zero hash instance, used to instantiate the KEM layer
theorems at concrete inputs. -/
def chunksOf : Nat → Nat → List Nat → List (List Nat)
  | 0, _, _ => []
  | _, _, [] => []
  | fuel + 1, len, x :: xs => (x :: xs).take len :: chunksOf fuel len ((x :: xs).drop len)

def H0 : Hashes :=
  ⟨fun _ => List.replicate 64 0, fun _ => List.replicate 32 0,
   fun _ n => List.replicate n 0, fun _ n => List.replicate n 0⟩

/-! ## Theorems -/

/-! ### Arithmetic facts about the reduction primitives -/

theorem cond_sub_q_eq_mod (a : Nat) (h : a < 2 * KYBER_Q) :
    cond_sub_q a = a % KYBER_Q := by
  unfold cond_sub_q KYBER_Q at *
  split <;> omega

theorem cond_sub_q_lt (a : Nat) (h : a < 2 * KYBER_Q) : cond_sub_q a < KYBER_Q := by
  unfold cond_sub_q KYBER_Q at *
  split <;> omega

/-- The Barrett quotient estimate: bounds on `t = (a * V) >> 26`. -/
theorem barrett_t_bounds (a : Nat) (h : a < 77517490) :
    KYBER_Q * ((a * BARRETT_V) >>> BARRETT_SHIFT) ≤ a ∧
    a < KYBER_Q * ((a * BARRETT_V) >>> BARRETT_SHIFT) + 2 * KYBER_Q := by
  unfold KYBER_Q BARRETT_V BARRETT_SHIFT
  rw [Nat.shiftRight_eq_div_pow]
  norm_num
  omega

/-- The Barrett intermediate remainder lies in `[0, 2q)`. -/
theorem barrett_remainder_range (a : Nat) (h : a < 77517490) :
    a - ((a * BARRETT_V) >>> BARRETT_SHIFT) * KYBER_Q < 2 * KYBER_Q := by
  have hb := barrett_t_bounds a h
  unfold KYBER_Q at *
  omega

/-- `barrett_reduce a = a % 3329` in the safe input range. -/
theorem barrett_reduce_eq_mod (a : Nat) (h : a < 77517490) :
    barrett_reduce a = a % KYBER_Q := by
  have hb := barrett_t_bounds a h
  unfold barrett_reduce
  rw [cond_sub_q_eq_mod _ (by unfold KYBER_Q at *; omega)]
  set t := (a * BARRETT_V) >>> BARRETT_SHIFT with ht
  unfold KYBER_Q at *
  omega

theorem barrett_reduce_lt (a : Nat) (h : a < 77517490) : barrett_reduce a < KYBER_Q := by
  rw [barrett_reduce_eq_mod a h]
  exact Nat.mod_lt _ (by unfold KYBER_Q; omega)

/-- C5: for every `a < 77,517,490`, the Barrett intermediate remainder
`r = a - ((a*20158) >> 26)*3329` lies in `[0, 2*3329)` (so the source's
assertion on `r` and the precondition of the final `cond_sub_q` hold), and
`barrett_reduce a = a mod 3329`. -/
theorem C5_barrett_reduce_safe (a : Nat) (h : a < 77517490) :
    ((a * BARRETT_V) >>> BARRETT_SHIFT) * KYBER_Q ≤ a ∧
    a - ((a * BARRETT_V) >>> BARRETT_SHIFT) * KYBER_Q < 2 * KYBER_Q ∧
    barrett_reduce a = a % 3329 := by
  have hb := barrett_t_bounds a h
  refine ⟨by unfold KYBER_Q at *; omega, barrett_remainder_range a h, ?_⟩
  simpa [KYBER_Q] using barrett_reduce_eq_mod a h

/-- Witness for C5 at the largest safe input `a = 77517489`. -/
theorem C5_barrett_reduce_safe_witness :
    (77517489 : Nat) < 77517490 ∧
    ((77517489 * BARRETT_V) >>> BARRETT_SHIFT) * KYBER_Q ≤ 77517489 ∧
    77517489 - ((77517489 * BARRETT_V) >>> BARRETT_SHIFT) * KYBER_Q < 2 * KYBER_Q ∧
    barrett_reduce 77517489 = 77517489 % 3329 :=
  ⟨by norm_num, C5_barrett_reduce_safe 77517489 (by norm_num)⟩

theorem and_8191_eq (x : Nat) : x &&& 8191 = x % 8192 := by
  have := Nat.and_pow_two_sub_one_eq_mod x 13
  norm_num at this
  exact this

theorem and_4095_eq (x : Nat) : x &&& 4095 = x % 4096 := by
  have := Nat.and_pow_two_sub_one_eq_mod x 12
  norm_num at this
  exact this

theorem and_4096_eq (x : Nat) (h : x < 8192) :
    x &&& 4096 = if x < 4096 then 0 else 4096 := by
  have h1 : x &&& 2 ^ 12 = (x.testBit 12).toNat * 2 ^ 12 := Nat.and_two_pow x 12
  rw [Nat.testBit_to_div_mod] at h1
  norm_num at h1
  by_cases hd : x / 4096 % 2 = 1
  · simp [hd] at h1
    rw [h1]
    have : ¬ x < 4096 := by omega
    simp [this]
  · simp [hd] at h1
    rw [h1]
    have : x < 4096 := by omega
    simp [this]

/-- `mod_add` computes canonical modular addition. -/
theorem mod_add_eq (a b : Nat) (ha : a < KYBER_Q) (hb : b < KYBER_Q) :
    mod_add a b = (a + b) % KYBER_Q := by
  unfold mod_add
  exact cond_sub_q_eq_mod _ (by unfold KYBER_Q at *; omega)

theorem mod_add_lt (a b : Nat) (ha : a < KYBER_Q) (hb : b < KYBER_Q) :
    mod_add a b < KYBER_Q := by
  rw [mod_add_eq a b ha hb]
  exact Nat.mod_lt _ (by unfold KYBER_Q; omega)

/-- `mod_sub` computes canonical modular subtraction `(a - b) mod q`,
expressed over `Nat` as `(a + (q - b)) % q`. -/
theorem mod_sub_eq (a b : Nat) (ha : a < KYBER_Q) (hb : b < KYBER_Q) :
    mod_sub a b = (a + (KYBER_Q - b)) % KYBER_Q := by
  simp only [mod_sub, cond_add_q]
  unfold KYBER_Q at *
  rcases Nat.lt_or_ge a b with hab | hab
  · have hdiff : (if a < b then 1 <<< 13 + a - b else a - b) = 8192 + a - b := by
      simp [hab]
    rw [hdiff, and_8191_eq, Nat.mod_eq_of_lt (by omega)]
    rw [and_4096_eq _ (by omega)]
    rw [if_neg (by omega : ¬ 8192 + a - b < 4096)]
    rw [if_pos (by omega : (4096 : Nat) ≠ 0)]
    rw [and_4095_eq, and_4095_eq]
    omega
  · have hdiff : (if a < b then 1 <<< 13 + a - b else a - b) = a - b := by
      simp [Nat.not_lt_of_ge hab]
    rw [hdiff, and_8191_eq, Nat.mod_eq_of_lt (by omega)]
    rw [and_4096_eq _ (by omega)]
    rw [if_pos (by omega : a - b < 4096)]
    rw [if_neg (by omega : ¬ (0 : Nat) ≠ 0)]
    rw [and_4095_eq]
    omega

theorem mod_sub_lt (a b : Nat) (ha : a < KYBER_Q) (hb : b < KYBER_Q) :
    mod_sub a b < KYBER_Q := by
  rw [mod_sub_eq a b ha hb]
  exact Nat.mod_lt _ (by unfold KYBER_Q; omega)

/-! ### Compress / decompress round trip (C6) -/

theorem C6_chunk : ∀ i < 833,
    C6_prop i ∧ C6_prop (833 + i) ∧ C6_prop (1666 + i) ∧
    (2499 + i < KYBER_Q → C6_prop (2499 + i)) := by decide

/-- C6: for every canonical `x` and every supported `d`, the wrapped distance
mod q between `decompress_q (compress_q x d) d` and `x` is at most
`⌈3329 / 2^(d+1)⌉`. -/
theorem C6_compress_roundtrip_bound (x d : Nat) (hx : x < KYBER_Q)
    (hd : d ∈ [1, 4, 5, 10, 11]) :
    wrapped_dist (decompress_q (compress_q x d) d) x
      ≤ (KYBER_Q + (2 ^ (d + 1) - 1)) / 2 ^ (d + 1) := by
  have hq : KYBER_Q = 3329 := rfl
  rcases Nat.lt_or_ge x 833 with h1 | h1
  · exact (C6_chunk x h1).1 d hd
  rcases Nat.lt_or_ge x 1666 with h2 | h2
  · obtain ⟨i, rfl⟩ : ∃ i, x = 833 + i := ⟨x - 833, by omega⟩
    exact (C6_chunk i (by omega)).2.1 d hd
  rcases Nat.lt_or_ge x 2499 with h3 | h3
  · obtain ⟨i, rfl⟩ : ∃ i, x = 1666 + i := ⟨x - 1666, by omega⟩
    exact (C6_chunk i (by omega)).2.2.1 d hd
  · obtain ⟨i, rfl⟩ : ∃ i, x = 2499 + i := ⟨x - 2499, by omega⟩
    exact (C6_chunk i (by omega)).2.2.2 (by omega) d hd

/-- Witness for C6 at `x = 1000`, `d = 4`. -/
theorem C6_compress_roundtrip_bound_witness :
    (1000 : Nat) < KYBER_Q ∧ (4 : Nat) ∈ [1, 4, 5, 10, 11] ∧
    wrapped_dist (decompress_q (compress_q 1000 4) 4) 1000
      ≤ (KYBER_Q + (2 ^ (4 + 1) - 1)) / 2 ^ (4 + 1) :=
  ⟨by decide, by decide, C6_compress_roundtrip_bound 1000 4 (by decide) (by decide)⟩

/-! ### CBD sampler vectors (C8) -/

/-- The CBD sampler on a constant byte list: each byte contributes the pair
(low-nibble coefficient, high-nibble coefficient). -/
theorem cbd_replicate (n b : Nat) :
    cbd_sample_eta2 (List.replicate n b)
      = (List.replicate n
          [cbd_nibble_coeff (b &&& 0xF), cbd_nibble_coeff ((b >>> 4) &&& 0xF)]).flatten := by
  induction n with
  | zero => rfl
  | succ k ih =>
    have step : cbd_sample_eta2 (List.replicate (k + 1) b)
        = [cbd_nibble_coeff (b &&& 0xF), cbd_nibble_coeff ((b >>> 4) &&& 0xF)]
          ++ cbd_sample_eta2 (List.replicate k b) := by
      simp only [cbd_sample_eta2, List.replicate_succ, List.flatMap_cons, List.map_cons,
        List.map_nil, Nat.shiftRight_zero]
    rw [step, ih, List.replicate_succ, List.flatten_cons]

theorem flatten_replicate_pair (n v : Nat) :
    (List.replicate n [v, v]).flatten = List.replicate (2 * n) v := by
  induction n with
  | zero => rfl
  | succ k ih =>
    rw [List.replicate_succ, List.flatten_cons, ih,
      show 2 * (k + 1) = 2 * k + 1 + 1 by omega, List.replicate_succ, List.replicate_succ]
    rfl

/-- Counterexample for C8 as stated: the all-0x03 input does NOT yield the
all-2 output (the high nibble of 0x03 is 0, so odd-indexed coefficients are 0). -/
theorem C8_cbd_all03_not_all_two :
    cbd_sample_eta2 (List.replicate 128 0x03) ≠ List.replicate 256 2 := by
  rw [cbd_replicate]
  intro h
  have h1 := congrArg (fun l => l.getD 1 0) h
  simp only [List.replicate_succ, List.flatten_cons] at h1
  revert h1
  decide

/-- C8 (amended): the all-0x00 and all-0xFF inputs yield the all-zero output;
the all-0x03 input yields coefficients alternating 2 (low nibble) and 0
(high nibble).  (Determinism is inherent: `cbd_sample_eta2` is a pure
function of its input.) -/
theorem C8_cbd_known_vectors :
    cbd_sample_eta2 (List.replicate 128 0x00) = List.replicate 256 0 ∧
    cbd_sample_eta2 (List.replicate 128 0xFF) = List.replicate 256 0 ∧
    cbd_sample_eta2 (List.replicate 128 0x03) = (List.replicate 128 [2, 0]).flatten := by
  refine ⟨?_, ?_, ?_⟩
  · rw [cbd_replicate, show cbd_nibble_coeff (0x00 &&& 0xF) = 0 by decide,
      show cbd_nibble_coeff ((0x00 >>> 4) &&& 0xF) = 0 by decide, flatten_replicate_pair]
  · rw [cbd_replicate, show cbd_nibble_coeff (0xFF &&& 0xF) = 0 by decide,
      show cbd_nibble_coeff ((0xFF >>> 4) &&& 0xF) = 0 by decide, flatten_replicate_pair]
  · rw [cbd_replicate, show cbd_nibble_coeff (0x03 &&& 0xF) = 2 by decide,
      show cbd_nibble_coeff ((0x03 >>> 4) &&& 0xF) = 0 by decide]

/-! ### Byte codec round trip (C7, C9) -/

theorem toBitsLSB_length (d c : Nat) : (toBitsLSB d c).length = d := by
  simp [toBitsLSB]

theorem toBitsLSB_le_one (d c : Nat) : ∀ b ∈ toBitsLSB d c, b ≤ 1 := by
  intro b hb
  simp only [toBitsLSB, List.mem_map] at hb
  obtain ⟨j, _, rfl⟩ := hb
  exact Nat.and_le_right

theorem flatMap_toBits_length (d : Nat) (coeffs : List Nat) :
    (coeffs.flatMap (toBitsLSB d)).length = coeffs.length * d := by
  rw [List.length_flatMap]
  have : List.map (List.length ∘ toBitsLSB d) coeffs = List.replicate coeffs.length d := by
    rw [List.eq_replicate_iff]
    refine ⟨by simp, ?_⟩
    intro b hb
    simp only [List.mem_map, Function.comp] at hb
    obtain ⟨c, _, rfl⟩ := hb
    exact toBitsLSB_length d c
  rw [this, List.sum_replicate, smul_eq_mul]

/-- Processing the enumerated bits of one byte: the packing fold OR-accumulates
them into position `p = done.length`. -/
theorem pack_fold_byte (c : List Nat) (j p v : Nat) (done rest : List Nat)
    (hp : done.length = p) (hj : j + c.length ≤ 8) :
    (List.enumFrom (8 * p + j) c).foldl packStep (done ++ v :: rest)
      = done ++ orAccum v j c :: rest := by
  induction c generalizing j v with
  | nil => simp [orAccum]
  | cons b bs ih =>
    rw [List.enumFrom_cons, List.foldl_cons]
    have hj8 : j < 8 := by
      simp only [List.length_cons] at hj
      omega
    have hidx_div : (8 * p + j) >>> 3 = p := by
      rw [Nat.shiftRight_eq_div_pow]
      norm_num
      omega
    have hidx_mod : (8 * p + j) &&& 7 = j := by
      have h3 := Nat.and_pow_two_sub_one_eq_mod (8 * p + j) 3
      norm_num at h3
      rw [h3]
      omega
    have hstep : packStep (done ++ v :: rest) (8 * p + j, b)
        = done ++ (v ||| (b <<< j)) :: rest := by
      unfold packStep
      simp only [hidx_div, hidx_mod]
      rw [List.getD_append_right _ _ _ _ (le_of_eq hp)]
      rw [List.set_append_right _ _ (le_of_eq hp)]
      simp [hp]
    rw [hstep, show 8 * p + j + 1 = 8 * p + (j + 1) from by omega]
    rw [ih (j + 1) (v ||| (b <<< j)) (by simp only [List.length_cons] at hj; omega)]
    rfl

/-- Processing whole bytes: the packing fold turns byte-sized bit chunks into
packed bytes, one output byte per chunk. -/
theorem pack_fold_bytes (cs : List (List Nat)) (done : List Nat) (p : Nat)
    (hp : done.length = p) (hc : ∀ c ∈ cs, c.length = 8) :
    (List.enumFrom (8 * p) cs.flatten).foldl packStep
        (done ++ List.replicate cs.length 0)
      = done ++ cs.map packByte := by
  induction cs generalizing done p with
  | nil => simp
  | cons c cs ih =>
    rw [List.flatten_cons, List.enumFrom_append, List.foldl_append]
    rw [List.length_cons, List.replicate_succ]
    have hcl : c.length = 8 := hc c (List.mem_cons_self c cs)
    have h1 : (List.enumFrom (8 * p) c).foldl packStep
        (done ++ 0 :: List.replicate cs.length 0)
        = done ++ packByte c :: List.replicate cs.length 0 := by
      have := pack_fold_byte c 0 p 0 done (List.replicate cs.length 0) hp (by omega)
      simpa [packByte] using this
    rw [h1]
    have h2 : done ++ packByte c :: List.replicate cs.length 0
        = (done ++ [packByte c]) ++ List.replicate cs.length 0 := by
      simp
    rw [h2, hcl, show 8 * p + 8 = 8 * (p + 1) from by omega]
    rw [ih (done ++ [packByte c]) (p + 1) (by simp [hp])
      (fun c' hc' => hc c' (List.mem_cons_of_mem c hc'))]
    simp

theorem chunk8_flatten : ∀ (bs : List Nat), bs.length % 8 = 0 → (chunk8 bs).flatten = bs
  | [], _ => rfl
  | [_], h => by simp at h
  | [_, _], h => by simp at h
  | [_, _, _], h => by simp at h
  | [_, _, _, _], h => by simp at h
  | [_, _, _, _, _], h => by simp at h
  | [_, _, _, _, _, _], h => by simp at h
  | [_, _, _, _, _, _, _], h => by simp at h
  | b0 :: b1 :: b2 :: b3 :: b4 :: b5 :: b6 :: b7 :: rest, h => by
      rw [show chunk8 (b0 :: b1 :: b2 :: b3 :: b4 :: b5 :: b6 :: b7 :: rest)
          = [b0, b1, b2, b3, b4, b5, b6, b7] :: chunk8 rest from rfl]
      rw [List.flatten_cons, chunk8_flatten rest (by simp at h; omega)]
      rfl

theorem chunk8_length : ∀ (bs : List Nat), bs.length % 8 = 0 →
    (chunk8 bs).length = bs.length / 8
  | [], _ => rfl
  | [_], h => by simp at h
  | [_, _], h => by simp at h
  | [_, _, _], h => by simp at h
  | [_, _, _, _], h => by simp at h
  | [_, _, _, _, _], h => by simp at h
  | [_, _, _, _, _, _], h => by simp at h
  | [_, _, _, _, _, _, _], h => by simp at h
  | b0 :: b1 :: b2 :: b3 :: b4 :: b5 :: b6 :: b7 :: rest, h => by
      rw [show chunk8 (b0 :: b1 :: b2 :: b3 :: b4 :: b5 :: b6 :: b7 :: rest)
          = [b0, b1, b2, b3, b4, b5, b6, b7] :: chunk8 rest from rfl]
      rw [List.length_cons, chunk8_length rest (by simp at h; omega)]
      simp
      omega

theorem chunk8_mem_length : ∀ (bs : List Nat), ∀ c ∈ chunk8 bs, c.length = 8
  | b0 :: b1 :: b2 :: b3 :: b4 :: b5 :: b6 :: b7 :: rest => by
      intro c hc
      rw [show chunk8 (b0 :: b1 :: b2 :: b3 :: b4 :: b5 :: b6 :: b7 :: rest)
          = [b0, b1, b2, b3, b4, b5, b6, b7] :: chunk8 rest from rfl] at hc
      rcases List.mem_cons.mp hc with rfl | hmem
      · rfl
      · exact chunk8_mem_length rest c hmem
  | [] => by intro c hc; simp [chunk8] at hc
  | [_] => by intro c hc; simp [chunk8] at hc
  | [_, _] => by intro c hc; simp [chunk8] at hc
  | [_, _, _] => by intro c hc; simp [chunk8] at hc
  | [_, _, _, _] => by intro c hc; simp [chunk8] at hc
  | [_, _, _, _, _] => by intro c hc; simp [chunk8] at hc
  | [_, _, _, _, _, _] => by intro c hc; simp [chunk8] at hc
  | [_, _, _, _, _, _, _] => by intro c hc; simp [chunk8] at hc

theorem chunk8_mem_subset : ∀ (bs : List Nat), ∀ c ∈ chunk8 bs, ∀ x ∈ c, x ∈ bs
  | b0 :: b1 :: b2 :: b3 :: b4 :: b5 :: b6 :: b7 :: rest => by
      intro c hc x hx
      rw [show chunk8 (b0 :: b1 :: b2 :: b3 :: b4 :: b5 :: b6 :: b7 :: rest)
          = [b0, b1, b2, b3, b4, b5, b6, b7] :: chunk8 rest from rfl] at hc
      rcases List.mem_cons.mp hc with rfl | hmem
      · simp only [List.mem_cons] at hx ⊢
        tauto
      · have := chunk8_mem_subset rest c hmem x hx
        simp only [List.mem_cons]
        tauto
  | [] => by intro c hc; simp [chunk8] at hc
  | [_] => by intro c hc; simp [chunk8] at hc
  | [_, _] => by intro c hc; simp [chunk8] at hc
  | [_, _, _] => by intro c hc; simp [chunk8] at hc
  | [_, _, _, _] => by intro c hc; simp [chunk8] at hc
  | [_, _, _, _, _] => by intro c hc; simp [chunk8] at hc
  | [_, _, _, _, _, _] => by intro c hc; simp [chunk8] at hc
  | [_, _, _, _, _, _, _] => by intro c hc; simp [chunk8] at hc

/-- `byte_encode` equals per-byte packing of the chunked bit list. -/
theorem byte_encode_eq_chunks (d : Nat) (coeffs : List Nat) (hlen : coeffs.length = 256) :
    byte_encode d coeffs = (chunk8 (coeffs.flatMap (toBitsLSB d))).map packByte := by
  simp only [byte_encode]
  have hbl : (coeffs.flatMap (toBitsLSB d)).length = 256 * d := by
    rw [flatMap_toBits_length, hlen]
  have h8 : (coeffs.flatMap (toBitsLSB d)).length % 8 = 0 := by omega
  have hrep : (32 : Nat) * d = (chunk8 (coeffs.flatMap (toBitsLSB d))).length := by
    rw [chunk8_length _ h8, hbl]
    omega
  rw [hrep]
  have henum : (coeffs.flatMap (toBitsLSB d)).enum
      = List.enumFrom (8 * 0) (chunk8 (coeffs.flatMap (toBitsLSB d))).flatten := by
    rw [chunk8_flatten _ h8]
    rfl
  rw [henum]
  have := pack_fold_bytes (chunk8 (coeffs.flatMap (toBitsLSB d))) [] 0 rfl
    (chunk8_mem_length _)
  simpa using this

theorem length_eight_exists (c : List Nat) (h : c.length = 8) :
    ∃ b0 b1 b2 b3 b4 b5 b6 b7, c = [b0, b1, b2, b3, b4, b5, b6, b7] := by
  rcases c with _ | ⟨b0, c⟩; · simp at h
  rcases c with _ | ⟨b1, c⟩; · simp at h
  rcases c with _ | ⟨b2, c⟩; · simp at h
  rcases c with _ | ⟨b3, c⟩; · simp at h
  rcases c with _ | ⟨b4, c⟩; · simp at h
  rcases c with _ | ⟨b5, c⟩; · simp at h
  rcases c with _ | ⟨b6, c⟩; · simp at h
  rcases c with _ | ⟨b7, c⟩; · simp at h
  rcases c with _ | ⟨b8, c⟩
  · exact ⟨b0, b1, b2, b3, b4, b5, b6, b7, rfl⟩
  · simp at h

set_option synthInstance.maxSize 4000 in
theorem unpack_byte_decide : ∀ b0 < 2, ∀ b1 < 2, ∀ b2 < 2, ∀ b3 < 2, ∀ b4 < 2,
    ∀ b5 < 2, ∀ b6 < 2, ∀ b7 < 2,
    toBitsLSB 8 (packByte [b0, b1, b2, b3, b4, b5, b6, b7])
      = [b0, b1, b2, b3, b4, b5, b6, b7] := by decide

/-- Unpacking a packed byte recovers its 8 bits. -/
theorem unpack_byte (c : List Nat) (hlen : c.length = 8) (hbool : ∀ b ∈ c, b ≤ 1) :
    toBitsLSB 8 (packByte c) = c := by
  obtain ⟨b0, b1, b2, b3, b4, b5, b6, b7, rfl⟩ := length_eight_exists c hlen
  have h := fun b (hb : b ∈ [b0, b1, b2, b3, b4, b5, b6, b7]) =>
    Nat.lt_succ_of_le (hbool b hb)
  exact unpack_byte_decide b0 (h b0 (by simp)) b1 (h b1 (by simp)) b2 (h b2 (by simp))
    b3 (h b3 (by simp)) b4 (h b4 (by simp)) b5 (h b5 (by simp)) b6 (h b6 (by simp))
    b7 (h b7 (by simp))

/-- The bits recovered by `byte_decode` from `byte_encode`'s output are exactly
the bits of the input coefficients. -/
theorem bits_roundtrip (d : Nat) (coeffs : List Nat) (hlen : coeffs.length = 256) :
    (byte_encode d coeffs).flatMap (toBitsLSB 8) = coeffs.flatMap (toBitsLSB d) := by
  rw [byte_encode_eq_chunks d coeffs hlen]
  set bits := coeffs.flatMap (toBitsLSB d) with hbits
  have hbl : bits.length = 256 * d := by rw [hbits, flatMap_toBits_length, hlen]
  have h8 : bits.length % 8 = 0 := by omega
  rw [List.flatMap_def, List.map_map]
  have hmap : List.map (toBitsLSB 8 ∘ packByte) (chunk8 bits) = chunk8 bits := by
    have := List.map_congr_left (l := chunk8 bits)
      (f := toBitsLSB 8 ∘ packByte) (g := id) ?_
    · simpa using this
    · intro c hc
      exact unpack_byte c (chunk8_mem_length bits c hc)
        (fun b hb => by
          have hxb : b ∈ bits := chunk8_mem_subset bits c hc b hb
          rw [hbits] at hxb
          obtain ⟨x, _, hxm⟩ := List.mem_flatMap.mp hxb
          exact toBitsLSB_le_one d x b hxm)
  rw [hmap, chunk8_flatten _ h8]

/-- Indexing into a flatMap with uniform group size `d`. -/
theorem flatMap_uniform_getD (f : Nat → List Nat) (d : Nat)
    (hf : ∀ c, (f c).length = d) (l : List Nat) (i j : Nat)
    (hi : i < l.length) (hj : j < d) :
    (l.flatMap f).getD (i * d + j) 0 = (f (l.getD i 0)).getD j 0 := by
  induction l generalizing i with
  | nil => simp at hi
  | cons a l ih =>
    rw [List.flatMap_cons]
    rcases Nat.eq_zero_or_pos i with rfl | hpos
    · simp only [Nat.zero_mul, Nat.zero_add]
      rw [List.getD_append _ _ _ _ (by rw [hf]; exact hj)]
      rfl
    · obtain ⟨i', rfl⟩ : ∃ i', i = i' + 1 := ⟨i - 1, by omega⟩
      rw [List.getD_append_right _ _ _ _ (by rw [hf]; nlinarith)]
      rw [hf, show (i' + 1) * d + j - d = i' * d + j from by ring_nf; omega]
      rw [ih i' (by simpa using hi)]
      rfl

theorem toBitsLSB_getD (d c j : Nat) (hj : j < d) :
    (toBitsLSB d c).getD j 0 = (c >>> j) &&& 1 := by
  unfold toBitsLSB
  rw [List.getD_eq_getElem _ _ (by simpa using hj), List.getElem_map, List.getElem_range]

theorem reassemble_small : ∀ d < 11, ∀ c < 1024, c < 2 ^ d → reassembleFold d c = c := by
  decide

theorem reassemble_11_12 : ∀ c < 1024,
    reassembleFold 11 c = c ∧ reassembleFold 11 (1024 + c) = 1024 + c ∧
    reassembleFold 12 c = c ∧ reassembleFold 12 (1024 + c) = 1024 + c ∧
    reassembleFold 12 (2048 + c) = 2048 + c ∧
    reassembleFold 12 (3072 + c) = 3072 + c := by decide

/-- Reassembling the d LSB-first bits of a d-bit value recovers the value. -/
theorem reassemble_eq (d c : Nat) (hd : d ≤ 12) (hc : c < 2 ^ d) :
    reassembleFold d c = c := by
  rcases Nat.lt_or_ge d 11 with h | h
  · refine reassemble_small d h c (lt_of_lt_of_le hc ?_) hc
    calc (2 : Nat) ^ d ≤ 2 ^ 10 := Nat.pow_le_pow_right (by norm_num) (by omega)
    _ = 1024 := by norm_num
  · have hd' : d = 11 ∨ d = 12 := by omega
    rcases hd' with rfl | rfl
    · norm_num at hc
      rcases Nat.lt_or_ge c 1024 with h1 | h1
      · exact (reassemble_11_12 c h1).1
      · obtain ⟨i, rfl⟩ : ∃ i, c = 1024 + i := ⟨c - 1024, by omega⟩
        exact (reassemble_11_12 i (by omega)).2.1
    · norm_num at hc
      rcases Nat.lt_or_ge c 1024 with h1 | h1
      · exact (reassemble_11_12 c h1).2.2.1
      rcases Nat.lt_or_ge c 2048 with h2 | h2
      · obtain ⟨i, rfl⟩ : ∃ i, c = 1024 + i := ⟨c - 1024, by omega⟩
        exact (reassemble_11_12 i (by omega)).2.2.2.1
      rcases Nat.lt_or_ge c 3072 with h3 | h3
      · obtain ⟨i, rfl⟩ : ∃ i, c = 2048 + i := ⟨c - 2048, by omega⟩
        exact (reassemble_11_12 i (by omega)).2.2.2.2.1
      · obtain ⟨i, rfl⟩ : ∃ i, c = 3072 + i := ⟨c - 3072, by omega⟩
        exact (reassemble_11_12 i (by omega)).2.2.2.2.2

/-- Master round-trip: decoding the encoding of 256 d-bit coefficients
recovers them, up to the d = 12 mod-q reduction applied by the decoder. -/
theorem byte_decode_encode (d : Nat) (coeffs : List Nat)
    (hd2 : d ≤ 12) (hlen : coeffs.length = 256)
    (hrange : ∀ c ∈ coeffs, c < 2 ^ d) :
    byte_decode d (byte_encode d coeffs)
      = coeffs.map (fun c => if d = 12 then c % KYBER_Q else c) := by
  simp only [byte_decode]
  rw [bits_roundtrip d coeffs hlen]
  apply List.ext_getElem
  · simp [hlen]
  intro n h1 h2
  rw [List.getElem_map]
  have hn : n < 256 := by simpa using h1
  have hn' : n < coeffs.length := by omega
  rw [List.getElem_map, List.getElem_range]
  have hcmem : coeffs[n] ∈ coeffs := List.getElem_mem hn'
  have hfold : (List.range d).foldl
      (fun val j => val ||| ((coeffs.flatMap (toBitsLSB d)).getD (n * d + j) 0 <<< j)) 0
      = reassembleFold d coeffs[n] := by
    unfold reassembleFold
    apply List.foldl_ext
    intro acc j hjmem
    have hj : j < d := by simpa using hjmem
    rw [flatMap_uniform_getD (toBitsLSB d) d (toBitsLSB_length d) coeffs n j hn' hj]
    rw [List.getD_eq_getElem _ _ hn', toBitsLSB_getD d _ j hj]
  rw [hfold, reassemble_eq d coeffs[n] hd2 (hrange _ hcmem)]

/-- Counterexample for C7 as stated: with d = 12 and the (12-bit) coefficient
value 3329 everywhere, the round trip returns the all-zero list (the decoder
reduces each field mod q), not the original list. -/
theorem C7_roundtrip_counterexample :
    byte_decode 12 (byte_encode 12 (List.replicate 256 3329))
      = List.replicate 256 0 ∧
    byte_decode 12 (byte_encode 12 (List.replicate 256 3329))
      ≠ List.replicate 256 3329 := by
  have h := byte_decode_encode 12 (List.replicate 256 3329) (le_refl 12)
    (by simp) (by intro c hc; rw [List.eq_of_mem_replicate hc]; norm_num)
  rw [List.map_replicate, show (3329 : Nat) % KYBER_Q = 0 from by decide] at h
  refine ⟨h, ?_⟩
  rw [h]
  intro heq
  have := congrArg (fun l => l.getD 0 0) heq
  simp [List.replicate_succ] at this

/-- C7 (amended): for every supported width `d ≤ 12` and every list of 256
coefficients that fit in `d` bits (and, as forced by the d = 12 mod-q
reduction, are below q), `byte_decode d (byte_encode d coeffs) = coeffs`. -/
theorem C7_byte_codec_roundtrip (d : Nat) (coeffs : List Nat)
    (hd2 : d ≤ 12) (hlen : coeffs.length = 256)
    (hrange : ∀ c ∈ coeffs, c < 2 ^ d ∧ c < KYBER_Q) :
    byte_decode d (byte_encode d coeffs) = coeffs := by
  rw [byte_decode_encode d coeffs hd2 hlen (fun c hc => (hrange c hc).1)]
  have : coeffs.map (fun c => if d = 12 then c % KYBER_Q else c) = coeffs.map id := by
    apply List.map_congr_left
    intro c hc
    simp only [id]
    split
    · exact Nat.mod_eq_of_lt (hrange c hc).2
    · rfl
  rw [this, List.map_id]

/-- Witness for C7 at `d = 12` with all coefficients 3328 (= q - 1). -/
theorem C7_byte_codec_roundtrip_witness :
    (12 : Nat) ≤ 12 ∧ (List.replicate 256 3328).length = 256 ∧
    (∀ c ∈ List.replicate 256 3328, c < 2 ^ 12 ∧ c < KYBER_Q) ∧
    byte_decode 12 (byte_encode 12 (List.replicate 256 3328))
      = List.replicate 256 3328 := by
  refine ⟨le_refl 12, by simp, ?_, ?_⟩
  · intro c hc
    rw [List.eq_of_mem_replicate hc]
    exact ⟨by norm_num, by norm_num [KYBER_Q]⟩
  · exact C7_byte_codec_roundtrip 12 (List.replicate 256 3328) (le_refl 12) (by simp)
      (fun c hc => by
        rw [List.eq_of_mem_replicate hc]
        exact ⟨by norm_num, by norm_num [KYBER_Q]⟩)

/-- C9: evaluation of `byte_encode` at an out-of-range coefficient (2 does not
fit in d = 1 bit).  The source's only assert is the length check, which
passes, and the function silently truncates 2 to its low bit: the call
succeeds and returns the same bytes as the all-zero input, instead of
failing. -/
theorem C9_byte_encode_silently_truncates :
    byte_encode_checked 1 (2 :: List.replicate 255 0)
      = some (byte_encode 1 (List.replicate 256 0)) ∧
    byte_encode_checked 1 (2 :: List.replicate 255 0) ≠ none := by
  constructor
  · decide
  · decide

/-! ### ML-KEM layer structure (C4, C10, C1) -/

/-- C4: `decaps_full` splits `dk` at offsets 1152/2336/2368, recomputes
`m' = k_pke_decrypt`, `(K', r') = G(m' ‖ h)`, `c' = k_pke_encrypt ek m' r'`,
returns `K'` exactly when `c = c'` and the implicit-rejection value
`J(z ‖ c)` otherwise — an ordinary output, not an error path. -/
theorem C4_decaps_structure (H : Hashes) (dk c : List Nat)
    (hdk : dk.length = 2400) (hc : c.length = 1088) :
    decaps_full H dk c =
      (if c = k_pke_encrypt H ((dk.drop 1152).take 1184)
              (k_pke_decrypt (dk.take 1152) c)
              (g_hash H (k_pke_decrypt (dk.take 1152) c ++ (dk.drop 2336).take 32)).2
       then (g_hash H (k_pke_decrypt (dk.take 1152) c ++ (dk.drop 2336).take 32)).1
       else j_hash H (dk.drop 2368 ++ c)) := rfl

/-- Witness for C4 at the all-zero 2400-byte `dk` and 1088-byte `c` with the
all-zero hash instance. -/
theorem C4_decaps_structure_witness :
    (List.replicate 2400 0).length = 2400 ∧ (List.replicate 1088 0).length = 1088 ∧
    (decaps_full ⟨fun _ => List.replicate 64 0, fun _ => List.replicate 32 0,
        fun _ n => List.replicate n 0, fun _ n => List.replicate n 0⟩
        (List.replicate 2400 0) (List.replicate 1088 0) =
      (if List.replicate 1088 0 = k_pke_encrypt ⟨fun _ => List.replicate 64 0,
              fun _ => List.replicate 32 0, fun _ n => List.replicate n 0,
              fun _ n => List.replicate n 0⟩
              (((List.replicate 2400 0).drop 1152).take 1184)
              (k_pke_decrypt ((List.replicate 2400 0).take 1152) (List.replicate 1088 0))
              (g_hash ⟨fun _ => List.replicate 64 0, fun _ => List.replicate 32 0,
                  fun _ n => List.replicate n 0, fun _ n => List.replicate n 0⟩
                (k_pke_decrypt ((List.replicate 2400 0).take 1152) (List.replicate 1088 0)
                  ++ ((List.replicate 2400 0).drop 2336).take 32)).2
       then (g_hash ⟨fun _ => List.replicate 64 0, fun _ => List.replicate 32 0,
                fun _ n => List.replicate n 0, fun _ n => List.replicate n 0⟩
              (k_pke_decrypt ((List.replicate 2400 0).take 1152) (List.replicate 1088 0)
                ++ ((List.replicate 2400 0).drop 2336).take 32)).1
       else j_hash ⟨fun _ => List.replicate 64 0, fun _ => List.replicate 32 0,
              fun _ n => List.replicate n 0, fun _ n => List.replicate n 0⟩
              ((List.replicate 2400 0).drop 2368 ++ List.replicate 1088 0))) :=
  ⟨by simp, by simp,
    C4_decaps_structure _ (List.replicate 2400 0) (List.replicate 1088 0)
      (by simp) (by simp)⟩

/-- C10: the standalone oracles in kyber_math agree with the full-algorithm
path in kyber_acvp: `k_pke_keygen` factors through `keygen_inner` applied to
the expanded matrix and sampled noise, and the uncompressed `(u, v)` of
`k_pke_encrypt` equals `encaps_inner` applied to the parsed key material and
sampled noise. -/
theorem C10_inner_oracles_agree (H : Hashes) (d ek m_bytes r_seed : List Nat) :
    (k_pke_keygen H d =
      ((List.range K).flatMap (fun i =>
          byte_encode 12 ((keygen_inner (expand_a H (g_hash H (d ++ [K])).1)
            ((List.range K).map (fun i =>
              cbd_sample_eta2 (prf H ETA1 (g_hash H (d ++ [K])).2 i)))
            ((List.range K).map (fun i =>
              cbd_sample_eta2 (prf H ETA1 (g_hash H (d ++ [K])).2 (K + i))))).1.getD i []))
        ++ (g_hash H (d ++ [K])).1,
       (List.range K).flatMap (fun i =>
          byte_encode 12 ((keygen_inner (expand_a H (g_hash H (d ++ [K])).1)
            ((List.range K).map (fun i =>
              cbd_sample_eta2 (prf H ETA1 (g_hash H (d ++ [K])).2 i)))
            ((List.range K).map (fun i =>
              cbd_sample_eta2 (prf H ETA1 (g_hash H (d ++ [K])).2 (K + i))))).2.getD i [])))) ∧
    (k_pke_encrypt_uv H ek m_bytes r_seed =
      encaps_inner (expand_a H (ek.drop (384 * K)))
        ((List.range K).map (fun i => byte_decode 12 ((ek.drop (384 * i)).take 384)))
        ((List.range K).map (fun i => cbd_sample_eta2 (prf H ETA1 r_seed i)))
        ((List.range K).map (fun i => cbd_sample_eta2 (prf H ETA2 r_seed (K + i))))
        (cbd_sample_eta2 (prf H ETA2 r_seed (2 * K)))
        ((byte_decode 1 m_bytes).map (fun c => decompress_q c 1))) :=
  ⟨rfl, rfl⟩

/-! ### Length bookkeeping for the KEM layer -/

theorem foldl_packStep_length (l : List (Nat × Nat)) (init : List Nat) :
    (l.foldl packStep init).length = init.length := by
  induction l generalizing init with
  | nil => rfl
  | cons x l ih =>
    rw [List.foldl_cons, ih]
    simp [packStep]

theorem byte_encode_length (d : Nat) (coeffs : List Nat) :
    (byte_encode d coeffs).length = 32 * d := by
  simp only [byte_encode]
  rw [foldl_packStep_length]
  simp

theorem length_flatMap_encode (n dd : Nat) (g : Nat → List Nat) :
    ((List.range n).flatMap (fun i => byte_encode dd (g i))).length = n * (32 * dd) := by
  rw [List.length_flatMap]
  have h : List.map (List.length ∘ fun i => byte_encode dd (g i)) (List.range n)
      = List.replicate n (32 * dd) := by
    rw [List.eq_replicate_iff]
    refine ⟨by simp, ?_⟩
    intro b hb
    simp only [List.mem_map, Function.comp] at hb
    obtain ⟨i, _, rfl⟩ := hb
    exact byte_encode_length dd (g i)
  rw [h, List.sum_replicate, smul_eq_mul]

theorem g_hash_fst_length (H : Hashes) (h512 : ∀ x, (H.sha3_512 x).length = 64)
    (x : List Nat) : (g_hash H x).1.length = 32 := by
  simp [g_hash, h512 x]

theorem k_pke_keygen_snd_length (H : Hashes) (d : List Nat) :
    (k_pke_keygen H d).2.length = 1152 := by
  simp only [k_pke_keygen]
  rw [length_flatMap_encode]
  rfl

theorem k_pke_keygen_fst_length (H : Hashes) (h512 : ∀ x, (H.sha3_512 x).length = 64)
    (d : List Nat) : (k_pke_keygen H d).1.length = 1184 := by
  simp only [k_pke_keygen]
  rw [List.length_append, length_flatMap_encode, g_hash_fst_length H h512]
  rfl

/-- Core of C1: when K-PKE decryption recovers the encapsulated message, the
decapsulation of a well-formed key re-derives the same `(K', r')` and
re-encrypts to the same ciphertext, hence returns the encapsulation key
share `K'`. -/
theorem decaps_encaps_of_decrypt (H : Hashes) (dkp ek hh z m : List Nat)
    (hlen_dkp : dkp.length = 1152) (hlen_ek : ek.length = 1184)
    (hlen_h : hh.length = 32)
    (hdec : k_pke_decrypt dkp (k_pke_encrypt H ek m (g_hash H (m ++ hh)).2) = m) :
    decaps_full H (dkp ++ ek ++ hh ++ z)
        (k_pke_encrypt H ek m (g_hash H (m ++ hh)).2)
      = (g_hash H (m ++ hh)).1 := by
  have hassoc : dkp ++ ek ++ hh ++ z = dkp ++ (ek ++ (hh ++ z)) := by
    simp [List.append_assoc]
  have e1 : (dkp ++ ek ++ hh ++ z).take DK_PKE_LEN = dkp := by
    rw [hassoc, show DK_PKE_LEN = dkp.length from by rw [hlen_dkp]; rfl]
    exact List.take_left dkp _
  have e2 : ((dkp ++ ek ++ hh ++ z).drop DK_PKE_LEN).take EK_LEN = ek := by
    rw [hassoc, show DK_PKE_LEN = dkp.length from by rw [hlen_dkp]; rfl]
    rw [List.drop_left dkp _, show EK_LEN = ek.length from by rw [hlen_ek]; rfl]
    exact List.take_left ek _
  have e3 : ((dkp ++ ek ++ hh ++ z).drop (DK_PKE_LEN + EK_LEN)).take 32 = hh := by
    rw [show dkp ++ ek ++ hh ++ z = (dkp ++ ek) ++ (hh ++ z) from by
      simp [List.append_assoc]]
    rw [show DK_PKE_LEN + EK_LEN = (dkp ++ ek).length from by
      simp [hlen_dkp, hlen_ek]; rfl]
    rw [List.drop_left (dkp ++ ek) _, show (32 : Nat) = hh.length from hlen_h.symm]
    exact List.take_left hh _
  simp only [decaps_full]
  rw [e1, e2, e3, hdec, if_pos rfl]

/-- C1: end-to-end KEM correctness.  For 32-byte seeds `d`, `z` and a 32-byte
message `m`, with `(ek, dk) = keygen_full d z` and `(K, c) = encaps_full ek m`,
if K-PKE decryption recovers `m` from `c` (true except for the negligible
decryption-failure event the spec allows), then `decaps_full dk c = K`. -/
theorem C1_kem_roundtrip (H : Hashes) (d z m : List Nat)
    (h512 : ∀ x, (H.sha3_512 x).length = 64)
    (h256 : ∀ x, (H.sha3_256 x).length = 32)
    (hd : d.length = 32) (hz : z.length = 32) (hm : m.length = 32)
    (hdec : k_pke_decrypt ((keygen_full H d z).2.take 1152)
        (encaps_full H (keygen_full H d z).1 m).2 = m) :
    decaps_full H (keygen_full H d z).2 (encaps_full H (keygen_full H d z).1 m).2
      = (encaps_full H (keygen_full H d z).1 m).1 := by
  have h1 : (keygen_full H d z).2
      = (k_pke_keygen H d).2 ++ (k_pke_keygen H d).1
        ++ h_hash H (k_pke_keygen H d).1 ++ z := rfl
  have h2 : (keygen_full H d z).1 = (k_pke_keygen H d).1 := rfl
  have h3 : (encaps_full H (k_pke_keygen H d).1 m).2
      = k_pke_encrypt H (k_pke_keygen H d).1 m
          (g_hash H (m ++ h_hash H (k_pke_keygen H d).1)).2 := rfl
  have h4 : (encaps_full H (k_pke_keygen H d).1 m).1
      = (g_hash H (m ++ h_hash H (k_pke_keygen H d).1)).1 := rfl
  rw [h2] at hdec ⊢
  rw [h1] at hdec ⊢
  rw [h3] at hdec ⊢
  rw [h4]
  have htake : ((k_pke_keygen H d).2 ++ (k_pke_keygen H d).1
      ++ h_hash H (k_pke_keygen H d).1 ++ z).take 1152 = (k_pke_keygen H d).2 := by
    rw [show ((k_pke_keygen H d).2 ++ (k_pke_keygen H d).1
        ++ h_hash H (k_pke_keygen H d).1 ++ z)
      = (k_pke_keygen H d).2 ++ ((k_pke_keygen H d).1
        ++ (h_hash H (k_pke_keygen H d).1 ++ z)) from by simp [List.append_assoc]]
    rw [show (1152 : Nat) = (k_pke_keygen H d).2.length from
      (k_pke_keygen_snd_length H d).symm]
    exact List.take_left _ _
  rw [htake] at hdec
  exact decaps_encaps_of_decrypt H (k_pke_keygen H d).2 (k_pke_keygen H d).1
    (h_hash H (k_pke_keygen H d).1) z m (k_pke_keygen_snd_length H d)
    (k_pke_keygen_fst_length H h512 d) (h256 _) hdec

/-! ### Zero-pipeline evaluation lemmas (for the C1 witness) -/

theorem getD_replicate_self {α : Type} (n i : Nat) (a : α) :
    (List.replicate n a).getD i a = a := by
  induction n generalizing i with
  | zero => simp
  | succ k ih =>
    cases i with
    | zero => simp [List.replicate_succ]
    | succ j => simpa [List.replicate_succ] using ih j

theorem foldl_fixed_mem {α β : Type} (f : α → β → α) (x : α) (l : List β)
    (h : ∀ b ∈ l, f x b = x) : l.foldl f x = x := by
  induction l with
  | nil => rfl
  | cons b bs ih =>
    rw [List.foldl_cons, h b (List.mem_cons_self b bs)]
    exact ih (fun b' hb' => h b' (List.mem_cons_of_mem b hb'))

theorem foldl_inv {α β : Type} (P : α → Prop) (f : α → β → α) (l : List β) (x : α)
    (hx : P x) (hstep : ∀ a b, P a → P (f a b)) : P (l.foldl f x) := by
  induction l generalizing x with
  | nil => exact hx
  | cons b bs ih => exact ih (f x b) (hstep x b hx)

theorem flatten_replicate_replicate (n m : Nat) :
    (List.replicate n (List.replicate m (0 : Nat))).flatten = List.replicate (n * m) 0 := by
  induction n with
  | zero => simp
  | succ k ih =>
    rw [List.replicate_succ, List.flatten_cons, ih,
      show (k + 1) * m = m + k * m from by ring, List.replicate_add]

theorem toBitsLSB_zero (d : Nat) : toBitsLSB d 0 = List.replicate d 0 := by
  unfold toBitsLSB
  have : (fun j => (0 >>> j) &&& 1) = fun _ : Nat => (0 : Nat) := by
    funext j
    simp [Nat.zero_shiftRight]
  rw [this, List.map_const']
  simp

theorem flatMap_toBits_zero (d n : Nat) :
    (List.replicate n (0 : Nat)).flatMap (toBitsLSB d) = List.replicate (n * d) 0 := by
  rw [List.flatMap_def, List.map_replicate, toBitsLSB_zero, flatten_replicate_replicate]

theorem byte_encode_zero (d : Nat) :
    byte_encode d (List.replicate 256 0) = List.replicate (32 * d) 0 := by
  simp only [byte_encode]
  rw [flatMap_toBits_zero]
  apply foldl_fixed_mem
  intro b hb
  obtain ⟨i, bv⟩ := b
  have hb2 : bv ∈ List.replicate (256 * d) (0 : Nat) := List.snd_mem_of_mem_enum hb
  have hbv : bv = 0 := List.eq_of_mem_replicate hb2
  subst hbv
  unfold packStep
  simp only [Nat.zero_shiftLeft, Nat.or_zero]
  rw [show ((List.replicate (32 * d) 0).getD (i >>> 3) 0) = 0 from
    getD_replicate_self _ _ 0]
  exact List.set_replicate_self

theorem byte_decode_zero (d n : Nat) :
    byte_decode d (List.replicate n 0) = List.replicate 256 (0 : Nat) := by
  simp only [byte_decode]
  rw [flatMap_toBits_zero (d := 8)]
  have hfold : ∀ i : Nat, (List.range d).foldl
      (fun val j => val ||| ((List.replicate (n * 8) (0 : Nat)).getD (i * d + j) 0 <<< j)) 0
      = 0 := by
    intro i
    apply foldl_fixed_mem
    intro j _
    rw [getD_replicate_self]
    simp
  have : (fun i => (if d = 12 then
        ((List.range d).foldl (fun val j =>
          val ||| ((List.replicate (n * 8) (0 : Nat)).getD (i * d + j) 0 <<< j)) 0) % KYBER_Q
      else
        (List.range d).foldl (fun val j =>
          val ||| ((List.replicate (n * 8) (0 : Nat)).getD (i * d + j) 0 <<< j)) 0))
      = fun _ : Nat => (0 : Nat) := by
    funext i
    rw [hfold i]
    split <;> rfl
  rw [this, List.map_const']
  simp

theorem mod_add_zero_zero : mod_add 0 0 = 0 := rfl

theorem mod_sub_zero_zero : mod_sub 0 0 = 0 := rfl

theorem barrett_reduce_zero : barrett_reduce 0 = 0 := rfl

theorem basemul_zero (z : Nat) : basemul 0 0 0 0 z = (0, 0) := by
  simp [basemul, barrett_reduce, cond_sub_q, KYBER_Q]

theorem poly_add_zero : poly_add (List.replicate 256 0) (List.replicate 256 0)
    = List.replicate 256 0 := by
  unfold poly_add
  rw [List.zipWith_replicate]
  rfl

theorem poly_sub_zero : poly_sub (List.replicate 256 0) (List.replicate 256 0)
    = List.replicate 256 0 := by
  unfold poly_sub
  rw [List.zipWith_replicate]
  rfl

theorem poly_basemul_zero :
    poly_basemul (List.replicate 256 0) (List.replicate 256 0)
      = List.replicate 256 0 := by
  unfold poly_basemul
  rw [show KYBER_N = 256 from rfl]
  apply foldl_fixed_mem
  intro i _
  simp only [getD_replicate_self, basemul_zero, List.set_replicate_self]

theorem nttBlock_zero (zeta len start : Nat) :
    nttBlock zeta len (List.replicate 256 0) start = List.replicate 256 0 := by
  unfold nttBlock
  apply foldl_fixed_mem
  intro j _
  simp only [getD_replicate_self, Nat.mul_zero, barrett_reduce_zero,
    mod_add_zero_zero, mod_sub_zero_zero, List.set_replicate_self]

theorem inttBlock_zero (zeta len start : Nat) :
    inttBlock zeta len (List.replicate 256 0) start = List.replicate 256 0 := by
  unfold inttBlock
  apply foldl_fixed_mem
  intro j _
  simp only [getD_replicate_self, List.set_replicate_self, mod_add_zero_zero,
    mod_sub_zero_zero, Nat.mul_zero, barrett_reduce_zero]

theorem nttLayer_zero (len : Nat) (fk : List Nat × Nat)
    (h : fk.1 = List.replicate 256 0) : (nttLayer len fk).1 = List.replicate 256 0 := by
  unfold nttLayer
  exact foldl_inv (fun fk : List Nat × Nat => fk.1 = List.replicate 256 0)
    _ _ fk h (fun a' b ha' => by simp only [ha', nttBlock_zero])

theorem inttLayer_zero (len : Nat) (fk : List Nat × Nat)
    (h : fk.1 = List.replicate 256 0) : (inttLayer len fk).1 = List.replicate 256 0 := by
  unfold inttLayer
  exact foldl_inv (fun fk : List Nat × Nat => fk.1 = List.replicate 256 0)
    _ _ fk h (fun a' b ha' => by simp only [ha', inttBlock_zero])

theorem map_modq_zero : (List.replicate 256 (0 : Nat)).map (· % KYBER_Q)
    = List.replicate 256 0 := by
  rw [List.map_replicate]
  rfl

theorem ntt_forward_zero : ntt_forward (List.replicate 256 0) = List.replicate 256 0 := by
  unfold ntt_forward
  rw [map_modq_zero]
  exact foldl_inv (fun fk : List Nat × Nat => fk.1 = List.replicate 256 0)
    (fun fk len => nttLayer len fk) [128, 64, 32, 16, 8, 4, 2]
    (List.replicate 256 0, 1) rfl (fun a len ha => nttLayer_zero len a ha)

theorem ntt_inverse_zero : ntt_inverse (List.replicate 256 0) = List.replicate 256 0 := by
  unfold ntt_inverse
  rw [map_modq_zero]
  have hfold := foldl_inv (fun fk : List Nat × Nat => fk.1 = List.replicate 256 0)
    (fun fk len => inttLayer len fk) [2, 4, 8, 16, 32, 64, 128]
    (List.replicate 256 0, 127) rfl (fun a len ha => inttLayer_zero len a ha)
  rw [hfold, List.map_replicate]
  rfl

theorem cbd_zero : cbd_sample_eta2 (List.replicate 128 0) = List.replicate 256 0 := by
  rw [cbd_replicate, show cbd_nibble_coeff (0 &&& 0xF) = 0 from by decide,
    show cbd_nibble_coeff ((0 >>> 4) &&& 0xF) = 0 from by decide, flatten_replicate_pair]

theorem g_hash_H0 (x : List Nat) :
    g_hash H0 x = (List.replicate 32 0, List.replicate 32 0) := by
  simp [g_hash, H0, List.take_replicate, List.drop_replicate]

theorem cbd_prf_H0 (eta : Nat) (heta : eta = 2) (s : List Nat) (n : Nat) :
    cbd_sample_eta2 (prf H0 eta s n) = List.replicate 256 0 := by
  subst heta
  rw [show prf H0 2 s n = List.replicate 128 0 from rfl, cbd_zero]

theorem sample_loop_full (tail cs : List Nat) (h : cs.length = 256) :
    sample_ntt_loop tail cs = cs := by
  rcases tail with _ | ⟨b0, _ | ⟨b1, _ | ⟨b2, rest⟩⟩⟩
  · rfl
  · rfl
  · rfl
  · rw [sample_ntt_loop]
    rw [if_pos (by omega)]

theorem sample_loop_zero : ∀ (n : Nat) (tail cs : List Nat),
    cs.length + 2 * n = 256 →
    sample_ntt_loop (List.replicate (3 * n) 0 ++ tail) cs
      = cs ++ List.replicate (2 * n) 0 := by
  intro n
  induction n with
  | zero =>
    intro tail cs h
    simp only [Nat.mul_zero, List.replicate_zero, List.nil_append, List.append_nil]
    exact sample_loop_full tail cs (by omega)
  | succ k ih =>
    intro tail cs h
    rw [show 3 * (k + 1) = 3 + 3 * k from by ring, List.replicate_add]
    rw [show List.replicate 3 (0 : Nat) ++ List.replicate (3 * k) 0 ++ tail
      = 0 :: 0 :: 0 :: (List.replicate (3 * k) 0 ++ tail) from rfl]
    rw [sample_ntt_loop]
    rw [if_neg (by omega)]
    simp only [Nat.zero_and, Nat.mul_zero, Nat.add_zero, Nat.zero_shiftRight, Nat.zero_add]
    rw [if_pos (by decide : (0 : Nat) < KYBER_Q)]
    rw [if_pos (by
      constructor
      · simp only [List.length_append, List.length_cons, List.length_nil]
        omega
      · decide)]
    rw [ih tail (cs ++ [0] ++ [0]) (by
      simp only [List.length_append, List.length_cons, List.length_nil]
      omega)]
    rw [show 2 * (k + 1) = 2 + 2 * k from by ring, List.replicate_add]
    simp

theorem sample_ntt_H0 (rho : List Nat) (j i : Nat) :
    sample_ntt H0 rho j i = List.replicate 256 0 := by
  unfold sample_ntt xof H0
  simp only
  rw [show List.replicate 4096 (0 : Nat)
    = List.replicate (3 * 128) 0 ++ List.replicate 3712 0 from by
      rw [← List.replicate_add]]
  rw [sample_loop_zero 128 (List.replicate 3712 0) [] (by simp)]
  rfl

theorem expand_a_H0 (rho : List Nat) :
    expand_a H0 rho
      = [[List.replicate 256 0, List.replicate 256 0, List.replicate 256 0],
         [List.replicate 256 0, List.replicate 256 0, List.replicate 256 0],
         [List.replicate 256 0, List.replicate 256 0, List.replicate 256 0]] := by
  unfold expand_a
  rw [show List.range K = [0, 1, 2] from rfl]
  simp only [List.map_cons, List.map_nil, sample_ntt_H0]

theorem k_pke_keygen_H0 :
    k_pke_keygen H0 (List.replicate 32 0)
      = (List.replicate 1184 0, List.replicate 1152 0) := by
  have hc : ∀ n, cbd_sample_eta2 (prf H0 ETA1 (List.replicate 32 0) n)
      = List.replicate 256 0 := fun n => cbd_prf_H0 ETA1 rfl _ n
  simp only [k_pke_keygen, g_hash_H0, expand_a_H0]
  rw [show List.range K = [0, 1, 2] from rfl]
  simp only [List.map_cons, List.map_nil, hc]
  simp only [List.getD_cons_zero, List.getD_cons_succ, ntt_forward_zero]
  rw [show List.range' 1 (K - 1) = [1, 2] from rfl]
  simp only [List.foldl_cons, List.foldl_nil, List.getD_cons_zero, List.getD_cons_succ,
    poly_basemul_zero, poly_add_zero]
  simp only [List.flatMap_cons, List.flatMap_nil, byte_encode_zero, List.append_nil]
  simp only [← List.replicate_add, List.append_assoc]
  norm_num
  refine ⟨?_, ?_⟩ <;> simp only [byte_encode_zero] <;>
    simp only [← List.replicate_add, List.append_assoc] <;> norm_num

theorem compress_q_zero (dd : Nat) : compress_q 0 dd = 0 := by
  simp [compress_q, HALF_Q, KYBER_Q, Nat.zero_shiftLeft]

theorem decompress_q_zero (dd : Nat) (h : 1 ≤ dd) : decompress_q 0 dd = 0 := by
  simp only [decompress_q, Nat.mul_zero, Nat.zero_add, Nat.shiftLeft_eq,
    Nat.shiftRight_eq_div_pow, Nat.one_mul]
  exact Nat.div_eq_of_lt (Nat.pow_lt_pow_right (by norm_num) (by omega))

theorem k_pke_encrypt_uv_H0 :
    k_pke_encrypt_uv H0 (List.replicate 1184 0) (List.replicate 32 0)
        (List.replicate 32 0)
      = ([List.replicate 256 0, List.replicate 256 0, List.replicate 256 0],
         List.replicate 256 0) := by
  have hc1 : ∀ n, cbd_sample_eta2 (prf H0 ETA1 (List.replicate 32 0) n)
      = List.replicate 256 0 := fun n => cbd_prf_H0 ETA1 rfl _ n
  have hc2 : ∀ n, cbd_sample_eta2 (prf H0 ETA2 (List.replicate 32 0) n)
      = List.replicate 256 0 := fun n => cbd_prf_H0 ETA2 rfl _ n
  simp only [k_pke_encrypt_uv, List.drop_replicate, List.take_replicate,
    byte_decode_zero, expand_a_H0, hc1, hc2]
  rw [show List.range K = [0, 1, 2] from rfl,
    show List.range' 1 (K - 1) = [1, 2] from rfl]
  simp only [List.map_cons, List.map_nil, List.getD_cons_zero, List.getD_cons_succ,
    ntt_forward_zero, List.map_replicate, decompress_q_zero 1 (by norm_num)]
  simp only [List.foldl_cons, List.foldl_nil, List.getD_cons_zero, List.getD_cons_succ,
    poly_basemul_zero, poly_add_zero, ntt_inverse_zero]

theorem k_pke_encrypt_H0 :
    k_pke_encrypt H0 (List.replicate 1184 0) (List.replicate 32 0)
        (List.replicate 32 0)
      = List.replicate 1088 0 := by
  simp only [k_pke_encrypt, k_pke_encrypt_uv_H0]
  rw [show List.range K = [0, 1, 2] from rfl]
  simp only [List.flatMap_cons, List.flatMap_nil, List.getD_cons_zero,
    List.getD_cons_succ, List.map_replicate, compress_q_zero, byte_encode_zero,
    List.append_nil]
  simp only [← List.replicate_add, List.append_assoc]
  norm_num [DU, DV]

theorem k_pke_decrypt_H0 :
    k_pke_decrypt (List.replicate 1152 0) (List.replicate 1088 0)
      = List.replicate 32 0 := by
  simp only [k_pke_decrypt, List.take_replicate, List.drop_replicate, byte_decode_zero]
  rw [show List.range K = [0, 1, 2] from rfl,
    show List.range' 1 (K - 1) = [1, 2] from rfl]
  simp only [List.map_cons, List.map_nil, List.map_replicate,
    decompress_q_zero DU (by norm_num [DU]), decompress_q_zero DV (by norm_num [DV]),
    List.getD_cons_zero, List.getD_cons_succ, ntt_forward_zero]
  simp only [List.foldl_cons, List.foldl_nil, List.getD_cons_zero, List.getD_cons_succ,
    poly_basemul_zero, poly_add_zero, ntt_inverse_zero, poly_sub_zero]
  simp only [List.map_replicate, compress_q_zero, byte_encode_zero]

theorem keygen_full_H0 :
    keygen_full H0 (List.replicate 32 0) (List.replicate 32 0)
      = (List.replicate 1184 0, List.replicate 2400 0) := by
  simp only [keygen_full, k_pke_keygen_H0]
  rw [show h_hash H0 (List.replicate 1184 0) = List.replicate 32 0 from rfl]
  simp only [← List.replicate_add, List.append_assoc]

theorem encaps_full_H0 :
    encaps_full H0 (List.replicate 1184 0) (List.replicate 32 0)
      = (List.replicate 32 0, List.replicate 1088 0) := by
  simp only [encaps_full, g_hash_H0, k_pke_encrypt_H0]

/-- Witness for C1 at the all-zero hash instance and all-zero seeds: the
decryption-correctness hypothesis holds and decapsulation returns the
encapsulated shared secret. -/
theorem C1_kem_roundtrip_witness :
    (∀ x, (H0.sha3_512 x).length = 64) ∧ (∀ x, (H0.sha3_256 x).length = 32) ∧
    (List.replicate 32 (0 : Nat)).length = 32 ∧
    k_pke_decrypt
        ((keygen_full H0 (List.replicate 32 0) (List.replicate 32 0)).2.take 1152)
        (encaps_full H0 (keygen_full H0 (List.replicate 32 0) (List.replicate 32 0)).1
          (List.replicate 32 0)).2
      = List.replicate 32 0 ∧
    decaps_full H0 (keygen_full H0 (List.replicate 32 0) (List.replicate 32 0)).2
        (encaps_full H0 (keygen_full H0 (List.replicate 32 0) (List.replicate 32 0)).1
          (List.replicate 32 0)).2
      = (encaps_full H0 (keygen_full H0 (List.replicate 32 0) (List.replicate 32 0)).1
          (List.replicate 32 0)).1 := by
  have hdec : k_pke_decrypt
      ((keygen_full H0 (List.replicate 32 0) (List.replicate 32 0)).2.take 1152)
      (encaps_full H0 (keygen_full H0 (List.replicate 32 0) (List.replicate 32 0)).1
        (List.replicate 32 0)).2
      = List.replicate 32 0 := by
    rw [keygen_full_H0]
    simp only [encaps_full_H0]
    rw [List.take_replicate]
    norm_num
    exact k_pke_decrypt_H0
  refine ⟨fun x => by simp [H0], fun x => by simp [H0], by simp, hdec, ?_⟩
  exact C1_kem_roundtrip H0 (List.replicate 32 0) (List.replicate 32 0)
    (List.replicate 32 0) (fun x => by simp [H0]) (fun x => by simp [H0])
    (by simp) (by simp) (by simp) hdec

/-! ### NTT round trip (C3): layer structure, transfer to ZMod 3329, cancellation -/

theorem getD_at_append (l1 l2 : List Nat) (x : Nat) :
    (l1 ++ x :: l2).getD l1.length 0 = x := by
  rw [List.getD_append_right _ _ _ _ (le_refl _)]
  simp

theorem set_at_append (l1 l2 : List Nat) (x y : Nat) :
    (l1 ++ x :: l2).set l1.length y = l1 ++ y :: l2 := by
  rw [List.set_append_right _ _ (le_refl _)]
  simp

/-- Invariant form of a full butterfly block: processing the remaining
`lo2`/`hi2` positions, with `a`/`bdone` already processed. -/

theorem fold_bf_aux (φ ψ : Nat → Nat → Nat) :
    ∀ (lo2 hi2 : List Nat), lo2.length = hi2.length →
    ∀ (pre a bdone post : List Nat), a.length = bdone.length →
    (List.range' (pre.length + a.length) lo2.length 1).foldl
        (stepAt φ ψ (a.length + lo2.length))
        (pre ++ a ++ lo2 ++ bdone ++ hi2 ++ post)
      = pre ++ (a ++ List.zipWith φ lo2 hi2) ++ (bdone ++ List.zipWith ψ lo2 hi2) ++ post := by
  intro lo2
  induction lo2 with
  | nil =>
    intro hi2 hlen pre a bdone post hab
    rcases hi2 with _ | ⟨y, t⟩
    · simp
    · simp at hlen
  | cons x lo2' ih =>
    intro hi2 hlen pre a bdone post hab
    obtain ⟨y, hi2', rfl⟩ : ∃ y hi2', hi2 = y :: hi2' := by
      cases hi2 with
      | nil => simp at hlen
      | cons y t => exact ⟨y, t, rfl⟩
    rw [show List.range' (pre.length + a.length) (x :: lo2').length 1
      = (pre.length + a.length) :: List.range' (pre.length + a.length + 1) lo2'.length 1 from by
        rw [List.length_cons, List.range'_succ]]
    rw [List.foldl_cons]
    have hstep : stepAt φ ψ (a.length + (x :: lo2').length)
        (pre ++ a ++ x :: lo2' ++ bdone ++ y :: hi2' ++ post)
        (pre.length + a.length)
        = pre ++ a ++ φ x y :: lo2' ++ bdone ++ ψ x y :: hi2' ++ post := by
      have hx : (pre ++ a ++ x :: lo2' ++ bdone ++ y :: hi2' ++ post).getD
          (pre.length + a.length) 0 = x := by
        rw [show pre ++ a ++ x :: lo2' ++ bdone ++ y :: hi2' ++ post
          = (pre ++ a) ++ x :: (lo2' ++ bdone ++ y :: hi2' ++ post) from by simp]
        rw [show pre.length + a.length = (pre ++ a).length from by simp]
        exact getD_at_append _ _ x
      have hyidx : pre.length + a.length + (a.length + (x :: lo2').length)
          = ((pre ++ a) ++ x :: lo2' ++ bdone).length := by
        simp [List.length_append, List.length_cons]
        omega
      have hy : (pre ++ a ++ x :: lo2' ++ bdone ++ y :: hi2' ++ post).getD
          (pre.length + a.length + (a.length + (x :: lo2').length)) 0 = y := by
        rw [show pre ++ a ++ x :: lo2' ++ bdone ++ y :: hi2' ++ post
          = ((pre ++ a) ++ x :: lo2' ++ bdone) ++ y :: (hi2' ++ post) from by simp]
        rw [hyidx]
        exact getD_at_append _ _ y
      unfold stepAt
      rw [hx, hy]
      rw [show pre ++ a ++ x :: lo2' ++ bdone ++ y :: hi2' ++ post
        = ((pre ++ a) ++ x :: lo2' ++ bdone) ++ y :: (hi2' ++ post) from by simp]
      rw [hyidx, set_at_append]
      rw [show ((pre ++ a) ++ x :: lo2' ++ bdone) ++ ψ x y :: (hi2' ++ post)
        = (pre ++ a) ++ x :: (lo2' ++ bdone ++ ψ x y :: hi2' ++ post) from by simp]
      rw [show pre.length + a.length = (pre ++ a).length from by simp]
      rw [set_at_append]
      simp
    rw [hstep]
    have hL : a.length + (x :: lo2').length = (a ++ [φ x y]).length + lo2'.length := by
      simp
      omega
    have hs : pre.length + a.length + 1 = pre.length + (a ++ [φ x y]).length := by
      simp
      omega
    have hre : pre ++ a ++ φ x y :: lo2' ++ bdone ++ ψ x y :: hi2' ++ post
        = pre ++ (a ++ [φ x y]) ++ lo2' ++ (bdone ++ [ψ x y]) ++ hi2' ++ post := by
      simp
    rw [hL, hs, hre, ih hi2' (by simpa using hlen) pre (a ++ [φ x y]) (bdone ++ [ψ x y])
      post (by simp [hab])]
    simp

/-- A full butterfly block in slice form. -/

theorem block_slices (φ ψ : Nat → Nat → Nat) (pre lo hi post : List Nat)
    (h : lo.length = hi.length) :
    (List.range' pre.length lo.length 1).foldl (stepAt φ ψ lo.length)
        (pre ++ lo ++ hi ++ post)
      = pre ++ List.zipWith φ lo hi ++ List.zipWith ψ lo hi ++ post := by
  have := fold_bf_aux φ ψ lo hi h pre [] [] post rfl
  simpa using this

theorem ZETAS_getD_lt (k : Nat) : ZETAS.getD k 0 < KYBER_Q := by
  rcases Nat.lt_or_ge k 128 with h | h
  · rw [List.getD_eq_getElem _ _ (by simp [ZETAS]; omega)]
    simp only [ZETAS, List.getElem_map, List.getElem_range]
    exact Nat.mod_lt _ (by unfold KYBER_Q; omega)
  · rw [List.getD_eq_default _ _ (by simp [ZETAS]; omega)]
    unfold KYBER_Q
    omega

theorem nttBlock_as_stepAt (zeta len : Nat) (f : List Nat) (start : Nat) :
    nttBlock zeta len f start
      = (List.range' start len).foldl
          (stepAt (fun a b => mod_add a (barrett_reduce (zeta * b)))
            (fun a b => mod_sub a (barrett_reduce (zeta * b))) len) f := rfl

theorem inttBlock_as_stepAt (zeta len : Nat) (hlen : 0 < len) (f : List Nat) (start : Nat) :
    inttBlock zeta len f start
      = (List.range' start len).foldl
          (stepAt (fun a b => mod_add a b)
            (fun a b => barrett_reduce (zeta * mod_sub b a)) len) f := by
  unfold inttBlock
  apply List.foldl_ext
  intro g j hj
  simp only
  have h1 : (g.set j (mod_add (g.getD j 0) (g.getD (j + len) 0))).getD (j + len) 0
      = g.getD (j + len) 0 := by
    rw [List.getD_eq_getElem?_getD, List.getElem?_set_ne (by omega),
      ← List.getD_eq_getElem?_getD]
  rw [h1]
  unfold stepAt
  rw [List.set_comm _ _ _ (by omega : j ≠ j + len)]

theorem nttLayer_aux (len : Nat) :
    ∀ (chunks : List (List Nat)), (∀ c ∈ chunks, c.length = 2 * len) →
    ∀ (done : List Nat) (k b0 : Nat), done.length = 2 * len * b0 →
    (List.range' b0 chunks.length 1).foldl
        (fun fk b => (nttBlock (ZETAS.getD fk.2 0) len fk.1 (2 * len * b), fk.2 + 1))
        (done ++ chunks.flatten, k)
      = (done ++ (ctChunkOut k len chunks).flatten, k + chunks.length) := by
  intro chunks
  induction chunks with
  | nil =>
    intro _ done k b0 _
    simp [ctChunkOut]
  | cons c cs ih =>
    intro hc done k b0 hd
    have hclen : c.length = 2 * len := hc c (List.mem_cons_self c cs)
    rw [show List.range' b0 (c :: cs).length 1
      = b0 :: List.range' (b0 + 1) cs.length 1 from by
        rw [List.length_cons, List.range'_succ]]
    rw [List.foldl_cons]
    have hsplit : c = c.take len ++ c.drop len := (List.take_append_drop len c).symm
    have hlo : (c.take len).length = len := by
      rw [List.length_take]
      omega
    have hhi : (c.drop len).length = len := by
      rw [List.length_drop]
      omega
    have hblock : nttBlock (ZETAS.getD k 0) len (done ++ (c :: cs).flatten) (2 * len * b0)
        = done ++ (List.zipWith (fun a b => mod_add a (barrett_reduce (ZETAS.getD k 0 * b)))
            (c.take len) (c.drop len)
          ++ (List.zipWith (fun a b => mod_sub a (barrett_reduce (ZETAS.getD k 0 * b)))
            (c.take len) (c.drop len)
          ++ cs.flatten)) := by
      rw [List.flatten_cons, nttBlock_as_stepAt]
      have hform : done ++ (c ++ cs.flatten)
          = done ++ c.take len ++ c.drop len ++ cs.flatten := by
        conv_lhs => rw [hsplit]
        simp [List.append_assoc]
      rw [hform]
      have hb := block_slices
        (fun a b => mod_add a (barrett_reduce (ZETAS.getD k 0 * b)))
        (fun a b => mod_sub a (barrett_reduce (ZETAS.getD k 0 * b)))
        done (c.take len) (c.drop len) cs.flatten (by omega)
      rw [hlo, hd] at hb
      rw [hb]
      simp [List.append_assoc]
    rw [hblock]
    have harr : done ++ (List.zipWith (fun a b => mod_add a (barrett_reduce (ZETAS.getD k 0 * b)))
            (c.take len) (c.drop len)
          ++ (List.zipWith (fun a b => mod_sub a (barrett_reduce (ZETAS.getD k 0 * b)))
            (c.take len) (c.drop len)
          ++ cs.flatten))
        = (done ++ List.zipWith (fun a b => mod_add a (barrett_reduce (ZETAS.getD k 0 * b)))
            (c.take len) (c.drop len)
          ++ List.zipWith (fun a b => mod_sub a (barrett_reduce (ZETAS.getD k 0 * b)))
            (c.take len) (c.drop len)) ++ cs.flatten := by
      simp [List.append_assoc]
    rw [harr]
    rw [ih (fun c' hc' => hc c' (List.mem_cons_of_mem c hc')) _ (k + 1) (b0 + 1) (by
      simp only [List.length_append, List.length_zipWith, hlo, hhi, Nat.min_self, hd]
      ring)]
    rw [show ctChunkOut k len (c :: cs)
      = List.zipWith (fun a b => mod_add a (barrett_reduce (ZETAS.getD k 0 * b)))
          (c.take len) (c.drop len)
        :: List.zipWith (fun a b => mod_sub a (barrett_reduce (ZETAS.getD k 0 * b)))
          (c.take len) (c.drop len)
        :: ctChunkOut (k + 1) len cs from rfl]
    simp only [List.flatten_cons, List.length_cons, Prod.mk.injEq]
    constructor
    · simp [List.append_assoc]
    · omega

theorem nttLayer_chunks (len : Nat) (chunks : List (List Nat)) (k : Nat)
    (hc : ∀ c ∈ chunks, c.length = 2 * len)
    (hn : chunks.length = KYBER_N / (2 * len)) :
    nttLayer len (chunks.flatten, k)
      = ((ctChunkOut k len chunks).flatten, k + chunks.length) := by
  unfold nttLayer
  rw [List.range_eq_range', ← hn]
  have := nttLayer_aux len chunks hc [] k 0 (by simp)
  simpa using this

theorem inttLayer_aux (len : Nat) (hlen0 : 0 < len) :
    ∀ (chunks : List (List Nat)), chunks.length % 2 = 0 →
    (∀ c ∈ chunks, c.length = len) →
    ∀ (done : List Nat) (k b0 : Nat), done.length = 2 * len * b0 →
    (List.range' b0 (chunks.length / 2) 1).foldl
        (fun fk b => (inttBlock (ZETAS.getD fk.2 0) len fk.1 (2 * len * b), fk.2 - 1))
        (done ++ chunks.flatten, k)
      = (done ++ (gsChunkOut k chunks).flatten, k - chunks.length / 2)
  | [], _, _, done, k, b0, hd => by simp [gsChunkOut]
  | [u], he, _, _, _, _, _ => by simp at he
  | u :: v :: cs, he, hc, done, k, b0, hd => by
      have hu : u.length = len := hc u (by simp)
      have hv : v.length = len := hc v (by simp)
      have hn2 : (u :: v :: cs).length / 2 = cs.length / 2 + 1 := by
        simp only [List.length_cons]
        omega
      rw [hn2]
      rw [List.range'_succ, List.foldl_cons]
      have hblock : inttBlock (ZETAS.getD k 0) len (done ++ (u :: v :: cs).flatten)
          (2 * len * b0)
          = done ++ (List.zipWith (fun a b => mod_add a b) u v
            ++ (List.zipWith (fun a b => barrett_reduce (ZETAS.getD k 0 * mod_sub b a)) u v
            ++ cs.flatten)) := by
        rw [List.flatten_cons, List.flatten_cons, inttBlock_as_stepAt _ _ hlen0]
        have hform : done ++ (u ++ (v ++ cs.flatten)) = done ++ u ++ v ++ cs.flatten := by
          simp [List.append_assoc]
        rw [hform]
        have hb := block_slices (fun a b => mod_add a b)
          (fun a b => barrett_reduce (ZETAS.getD k 0 * mod_sub b a))
          done u v cs.flatten (by omega)
        rw [hu, hd] at hb
        rw [hb]
        simp [List.append_assoc]
      rw [hblock]
      have harr : done ++ (List.zipWith (fun a b => mod_add a b) u v
            ++ (List.zipWith (fun a b => barrett_reduce (ZETAS.getD k 0 * mod_sub b a)) u v
            ++ cs.flatten))
          = (done ++ (List.zipWith (fun a b => mod_add a b) u v
            ++ List.zipWith (fun a b => barrett_reduce (ZETAS.getD k 0 * mod_sub b a)) u v))
            ++ cs.flatten := by
        simp [List.append_assoc]
      rw [harr]
      rw [inttLayer_aux len hlen0 cs (by simp only [List.length_cons] at he; omega)
        (fun c' hc' => hc c' (by simp [hc'])) _ (k - 1) (b0 + 1) (by
          simp only [List.length_append, List.length_zipWith, hu, hv, Nat.min_self, hd]
          ring)]
      rw [show gsChunkOut k (u :: v :: cs)
        = (List.zipWith mod_add u v
            ++ List.zipWith (fun a b => barrett_reduce (ZETAS.getD k 0 * mod_sub b a)) u v)
          :: gsChunkOut (k - 1) cs from rfl]
      simp only [List.flatten_cons, Prod.mk.injEq]
      constructor
      · simp [List.append_assoc]
      · omega

theorem inttLayer_chunks (len : Nat) (hlen0 : 0 < len) (chunks : List (List Nat)) (k : Nat)
    (he : chunks.length % 2 = 0)
    (hc : ∀ c ∈ chunks, c.length = len)
    (hn : chunks.length / 2 = KYBER_N / (2 * len)) :
    inttLayer len (chunks.flatten, k)
      = ((gsChunkOut k chunks).flatten, k - chunks.length / 2) := by
  unfold inttLayer
  rw [List.range_eq_range', ← hn]
  have := inttLayer_aux len hlen0 chunks he hc [] k 0 (by simp)
  simpa using this

theorem zipWith_congr_mem {α β γ : Type} (f g : α → β → γ) :
    ∀ (l1 : List α) (l2 : List β),
    (∀ a ∈ l1, ∀ b ∈ l2, f a b = g a b) →
    List.zipWith f l1 l2 = List.zipWith g l1 l2
  | [], _, _ => by simp
  | _ :: _, [], _ => by simp
  | a :: l1, b :: l2, h => by
      simp only [List.zipWith_cons_cons]
      rw [h a (by simp) b (by simp),
        zipWith_congr_mem f g l1 l2 (fun x hx y hy => h x (by simp [hx]) y (by simp [hy]))]

theorem mem_zipWith {α β γ : Type} (f : α → β → γ) :
    ∀ (l1 : List α) (l2 : List β) (x : γ), x ∈ List.zipWith f l1 l2 →
    ∃ a ∈ l1, ∃ b ∈ l2, f a b = x
  | a :: l1, b :: l2, x, hx => by
      simp only [List.zipWith_cons_cons, List.mem_cons] at hx
      rcases hx with hx | hx
      · exact ⟨a, by simp, b, by simp, hx.symm⟩
      · obtain ⟨a', ha', b', hb', he⟩ := mem_zipWith f l1 l2 x hx
        exact ⟨a', by simp [ha'], b', by simp [hb'], he⟩

theorem ctChunkOut_length (len : Nat) :
    ∀ (k : Nat) (cs : List (List Nat)), (ctChunkOut k len cs).length = 2 * cs.length
  | _, [] => by simp [ctChunkOut]
  | k, c :: cs => by
      simp only [ctChunkOut, List.length_cons, ctChunkOut_length len (k + 1) cs]
      ring

theorem ctChunkOut_mem_length (len : Nat) :
    ∀ (k : Nat) (cs : List (List Nat)), (∀ c ∈ cs, c.length = 2 * len) →
    ∀ c' ∈ ctChunkOut k len cs, c'.length = len
  | _, [], _ => by simp [ctChunkOut]
  | k, c :: cs, hc => by
      intro c' hc'
      have hcl : c.length = 2 * len := hc c (by simp)
      simp only [ctChunkOut, List.mem_cons] at hc'
      rcases hc' with h | h | h
      · subst h
        simp only [List.length_zipWith, List.length_take, List.length_drop, hcl]
        omega
      · subst h
        simp only [List.length_zipWith, List.length_take, List.length_drop, hcl]
        omega
      · exact ctChunkOut_mem_length len (k + 1) cs (fun x hx => hc x (by simp [hx])) c' h

theorem ctChunkOut_mem_lt (len : Nat) :
    ∀ (k : Nat) (cs : List (List Nat)), (∀ c ∈ cs, ∀ x ∈ c, x < KYBER_Q) →
    ∀ c' ∈ ctChunkOut k len cs, ∀ x ∈ c', x < KYBER_Q
  | _, [], _ => by simp [ctChunkOut]
  | k, c :: cs, hc => by
      intro c' hc' x hx
      have hcan : ∀ y ∈ c, y < KYBER_Q := hc c (by simp)
      have hbar : ∀ b ∈ c.drop len, barrett_reduce (ZETAS.getD k 0 * b) < KYBER_Q := by
        intro b hb
        have hbq : b < KYBER_Q := hcan b (List.mem_of_mem_drop hb)
        have hz : ZETAS.getD k 0 < KYBER_Q := ZETAS_getD_lt k
        exact barrett_reduce_lt _ (by unfold KYBER_Q at *; nlinarith)
      simp only [ctChunkOut, List.mem_cons] at hc'
      rcases hc' with h | h | h
      · subst h
        obtain ⟨a, ha, b, hb, he⟩ := mem_zipWith _ _ _ x hx
        rw [← he]
        exact mod_add_lt _ _ (hcan a (List.mem_of_mem_take ha)) (hbar b hb)
      · subst h
        obtain ⟨a, ha, b, hb, he⟩ := mem_zipWith _ _ _ x hx
        rw [← he]
        exact mod_sub_lt _ _ (hcan a (List.mem_of_mem_take ha)) (hbar b hb)
      · exact ctChunkOut_mem_lt len (k + 1) cs
          (fun y hy => hc y (by simp [hy])) c' h x hx

theorem gsChunkOut_length :
    ∀ (k : Nat) (cs : List (List Nat)), (gsChunkOut k cs).length = cs.length / 2
  | _, [] => by simp [gsChunkOut]
  | _, [u] => by simp [gsChunkOut]
  | k, u :: v :: cs => by
      simp only [gsChunkOut, List.length_cons, gsChunkOut_length (k - 1) cs]
      omega

theorem gsChunkOut_mem_length (len : Nat) :
    ∀ (k : Nat) (cs : List (List Nat)), (∀ c ∈ cs, c.length = len) →
    ∀ c' ∈ gsChunkOut k cs, c'.length = 2 * len
  | _, [], _ => by simp [gsChunkOut]
  | _, [u], _ => by simp [gsChunkOut]
  | k, u :: v :: cs, hc => by
      intro c' hc'
      simp only [gsChunkOut, List.mem_cons] at hc'
      rcases hc' with h | h
      · subst h
        simp only [List.length_append, List.length_zipWith,
          hc u (by simp), hc v (by simp)]
        omega
      · exact gsChunkOut_mem_length len (k - 1) cs (fun x hx => hc x (by simp [hx])) c' h

theorem gsChunkOut_mem_lt :
    ∀ (k : Nat) (cs : List (List Nat)), (∀ c ∈ cs, ∀ x ∈ c, x < KYBER_Q) →
    ∀ c' ∈ gsChunkOut k cs, ∀ x ∈ c', x < KYBER_Q
  | _, [], _ => by simp [gsChunkOut]
  | _, [u], _ => by simp [gsChunkOut]
  | k, u :: v :: cs, hc => by
      intro c' hc' x hx
      have hu : ∀ y ∈ u, y < KYBER_Q := hc u (by simp)
      have hv : ∀ y ∈ v, y < KYBER_Q := hc v (by simp)
      simp only [gsChunkOut, List.mem_cons] at hc'
      rcases hc' with h | h
      · subst h
        rcases List.mem_append.1 hx with hx | hx
        · obtain ⟨a, ha, b, hb, he⟩ := mem_zipWith _ _ _ x hx
          rw [← he]
          exact mod_add_lt _ _ (hu a ha) (hv b hb)
        · obtain ⟨a, ha, b, hb, he⟩ := mem_zipWith _ _ _ x hx
          rw [← he]
          have hz : ZETAS.getD k 0 < KYBER_Q := ZETAS_getD_lt k
          have hs : mod_sub b a < KYBER_Q := mod_sub_lt _ _ (hv b hb) (hu a ha)
          exact barrett_reduce_lt _ (by unfold KYBER_Q at *; nlinarith)
      · exact gsChunkOut_mem_lt (k - 1) cs (fun y hy => hc y (by simp [hy])) c' h x hx

theorem chunksOf_flatten :
    ∀ (fuel len : Nat) (l : List Nat), 0 < len → l.length ≤ fuel * len →
    (chunksOf fuel len l).flatten = l
  | 0, _, [], _, _ => by simp [chunksOf]
  | 0, len, x :: xs, _, hl => by simp at hl
  | _ + 1, _, [], _, _ => by simp [chunksOf]
  | fuel + 1, len, x :: xs, h0, hl => by
      simp only [chunksOf, List.flatten_cons]
      rw [chunksOf_flatten fuel len ((x :: xs).drop len) h0 (by
        simp only [List.length_drop, List.length_cons]
        simp only [List.length_cons] at hl
        have hmul : (fuel + 1) * len = fuel * len + len := by ring
        omega)]
      exact List.take_append_drop len (x :: xs)

theorem chunksOf_length :
    ∀ (fuel len : Nat) (l : List Nat), 0 < len → l.length = fuel * len →
    (chunksOf fuel len l).length = fuel
  | 0, _, [], _, _ => by simp [chunksOf]
  | 0, len, x :: xs, _, hl => by simp at hl
  | fuel + 1, len, [], h0, hl => by
      simp only [List.length_nil] at hl
      have hmul : (fuel + 1) * len = fuel * len + len := by ring
      omega
  | fuel + 1, len, x :: xs, h0, hl => by
      simp only [chunksOf, List.length_cons]
      rw [chunksOf_length fuel len ((x :: xs).drop len) h0 (by
        simp only [List.length_drop]
        simp only [List.length_cons] at hl ⊢
        have hmul : (fuel + 1) * len = fuel * len + len := by ring
        omega)]

theorem chunksOf_mem_length :
    ∀ (fuel len : Nat) (l : List Nat), 0 < len → l.length = fuel * len →
    ∀ c ∈ chunksOf fuel len l, c.length = len
  | 0, _, [], _, _ => by simp [chunksOf]
  | 0, len, x :: xs, _, hl => by simp at hl
  | fuel + 1, len, [], h0, hl => by simp [chunksOf]
  | fuel + 1, len, x :: xs, h0, hl => by
      intro c hc
      simp only [chunksOf, List.mem_cons] at hc
      rcases hc with h | h
      · subst h
        simp only [List.length_take, List.length_cons]
        simp only [List.length_cons] at hl
        have hmul : (fuel + 1) * len = fuel * len + len := by ring
        omega
      · exact chunksOf_mem_length fuel len ((x :: xs).drop len) h0 (by
          simp only [List.length_drop]
          simp only [List.length_cons] at hl ⊢
          have hmul : (fuel + 1) * len = fuel * len + len := by ring
          omega) c h

theorem chunksOf_mem_subset :
    ∀ (fuel len : Nat) (l : List Nat), ∀ c ∈ chunksOf fuel len l, ∀ x ∈ c, x ∈ l
  | 0, _, _ => by simp [chunksOf]
  | _ + 1, _, [] => by simp [chunksOf]
  | fuel + 1, len, y :: xs => by
      intro c hc x hx
      simp only [chunksOf, List.mem_cons] at hc
      rcases hc with h | h
      · subst h
        exact List.mem_of_mem_take hx
      · exact List.mem_of_mem_drop
          (chunksOf_mem_subset fuel len ((y :: xs).drop len) c h x hx)

theorem ntt_forward_chunks (p : List Nat) (hp : p.length = 256) :
    ntt_forward p
      = (ctChunkOut 64 2 (ctChunkOut 32 4 (ctChunkOut 16 8 (ctChunkOut 8 16
          (ctChunkOut 4 32 (ctChunkOut 2 64
            (ctChunkOut 1 128 [p.map (· % KYBER_Q)]))))))).flatten := by
  unfold ntt_forward
  simp only [List.foldl_cons, List.foldl_nil]
  generalize hq : p.map (fun x => x % KYBER_Q) = pc
  have hpc : pc.length = 256 := by rw [← hq]; simp [hp]
  have hm0 : ∀ c ∈ [pc], c.length = 2 * 128 := by
    intro c hc
    simp only [List.mem_singleton] at hc
    subst hc
    omega
  have hm1 : ∀ c ∈ ctChunkOut 1 128 [pc], c.length = 2 * 64 := by
    intro c hc
    have := ctChunkOut_mem_length 128 1 [pc] hm0 c hc
    omega
  have hm2 : ∀ c ∈ ctChunkOut 2 64 (ctChunkOut 1 128 [pc]), c.length = 2 * 32 := by
    intro c hc
    have := ctChunkOut_mem_length 64 2 _ hm1 c hc
    omega
  have hm3 : ∀ c ∈ ctChunkOut 4 32 (ctChunkOut 2 64 (ctChunkOut 1 128 [pc])),
      c.length = 2 * 16 := by
    intro c hc
    have := ctChunkOut_mem_length 32 4 _ hm2 c hc
    omega
  have hm4 : ∀ c ∈ ctChunkOut 8 16 (ctChunkOut 4 32 (ctChunkOut 2 64
      (ctChunkOut 1 128 [pc]))), c.length = 2 * 8 := by
    intro c hc
    have := ctChunkOut_mem_length 16 8 _ hm3 c hc
    omega
  have hm5 : ∀ c ∈ ctChunkOut 16 8 (ctChunkOut 8 16 (ctChunkOut 4 32 (ctChunkOut 2 64
      (ctChunkOut 1 128 [pc])))), c.length = 2 * 4 := by
    intro c hc
    have := ctChunkOut_mem_length 8 16 _ hm4 c hc
    omega
  have hm6 : ∀ c ∈ ctChunkOut 32 4 (ctChunkOut 16 8 (ctChunkOut 8 16 (ctChunkOut 4 32
      (ctChunkOut 2 64 (ctChunkOut 1 128 [pc]))))), c.length = 2 * 2 := by
    intro c hc
    have := ctChunkOut_mem_length 4 32 _ hm5 c hc
    omega
  have e1 : nttLayer 128 (pc, 1) = ((ctChunkOut 1 128 [pc]).flatten, 2) := by
    have := nttLayer_chunks 128 [pc] 1 hm0 (by simp [KYBER_N])
    simpa using this
  have e2 : nttLayer 64 ((ctChunkOut 1 128 [pc]).flatten, 2)
      = ((ctChunkOut 2 64 (ctChunkOut 1 128 [pc])).flatten, 4) := by
    have := nttLayer_chunks 64 _ 2 hm1 (by simp [ctChunkOut_length, KYBER_N])
    simpa [ctChunkOut_length] using this
  have e3 : nttLayer 32 ((ctChunkOut 2 64 (ctChunkOut 1 128 [pc])).flatten, 4)
      = ((ctChunkOut 4 32 (ctChunkOut 2 64 (ctChunkOut 1 128 [pc]))).flatten, 8) := by
    have := nttLayer_chunks 32 _ 4 hm2 (by simp [ctChunkOut_length, KYBER_N])
    simpa [ctChunkOut_length] using this
  have e4 : nttLayer 16
        ((ctChunkOut 4 32 (ctChunkOut 2 64 (ctChunkOut 1 128 [pc]))).flatten, 8)
      = ((ctChunkOut 8 16 (ctChunkOut 4 32 (ctChunkOut 2 64
          (ctChunkOut 1 128 [pc])))).flatten, 16) := by
    have := nttLayer_chunks 16 _ 8 hm3 (by simp [ctChunkOut_length, KYBER_N])
    simpa [ctChunkOut_length] using this
  have e5 : nttLayer 8 ((ctChunkOut 8 16 (ctChunkOut 4 32 (ctChunkOut 2 64
        (ctChunkOut 1 128 [pc])))).flatten, 16)
      = ((ctChunkOut 16 8 (ctChunkOut 8 16 (ctChunkOut 4 32 (ctChunkOut 2 64
          (ctChunkOut 1 128 [pc]))))).flatten, 32) := by
    have := nttLayer_chunks 8 _ 16 hm4 (by simp [ctChunkOut_length, KYBER_N])
    simpa [ctChunkOut_length] using this
  have e6 : nttLayer 4 ((ctChunkOut 16 8 (ctChunkOut 8 16 (ctChunkOut 4 32
        (ctChunkOut 2 64 (ctChunkOut 1 128 [pc]))))).flatten, 32)
      = ((ctChunkOut 32 4 (ctChunkOut 16 8 (ctChunkOut 8 16 (ctChunkOut 4 32
          (ctChunkOut 2 64 (ctChunkOut 1 128 [pc])))))).flatten, 64) := by
    have := nttLayer_chunks 4 _ 32 hm5 (by simp [ctChunkOut_length, KYBER_N])
    simpa [ctChunkOut_length] using this
  have e7 : nttLayer 2 ((ctChunkOut 32 4 (ctChunkOut 16 8 (ctChunkOut 8 16
        (ctChunkOut 4 32 (ctChunkOut 2 64 (ctChunkOut 1 128 [pc])))))).flatten, 64)
      = ((ctChunkOut 64 2 (ctChunkOut 32 4 (ctChunkOut 16 8 (ctChunkOut 8 16
          (ctChunkOut 4 32 (ctChunkOut 2 64 (ctChunkOut 1 128 [pc]))))))).flatten,
          128) := by
    have := nttLayer_chunks 2 _ 64 hm6 (by simp [ctChunkOut_length, KYBER_N])
    simpa [ctChunkOut_length] using this
  rw [e1, e2, e3, e4, e5, e6, e7]

theorem ntt_inverse_chunks (p : List Nat) (hp : p.length = 256) :
    ntt_inverse p
      = ((gsChunkOut 1 (gsChunkOut 3 (gsChunkOut 7 (gsChunkOut 15 (gsChunkOut 31
          (gsChunkOut 63 (gsChunkOut 127
            (chunksOf 128 2 (p.map (· % KYBER_Q)))))))))).flatten).map
          (fun x => barrett_reduce (x * KYBER_N_INV)) := by
  simp only [ntt_inverse]
  simp only [List.foldl_cons, List.foldl_nil]
  generalize hq : p.map (fun x => x % KYBER_Q) = pc
  have hpc : pc.length = 256 := by rw [← hq]; simp [hp]
  have hflat : (chunksOf 128 2 pc).flatten = pc := chunksOf_flatten 128 2 pc (by omega)
    (by omega)
  have hc0 : (chunksOf 128 2 pc).length = 128 := chunksOf_length 128 2 pc (by omega)
    (by omega)
  have hm0 : ∀ c ∈ chunksOf 128 2 pc, c.length = 2 := chunksOf_mem_length 128 2 pc
    (by omega) (by omega)
  have hl1 : (gsChunkOut 127 (chunksOf 128 2 pc)).length = 64 := by
    rw [gsChunkOut_length, hc0]
  have hm1 : ∀ c ∈ gsChunkOut 127 (chunksOf 128 2 pc), c.length = 4 := by
    intro c hc
    have := gsChunkOut_mem_length 2 127 _ hm0 c hc
    omega
  have hl2 : (gsChunkOut 63 (gsChunkOut 127 (chunksOf 128 2 pc))).length = 32 := by
    rw [gsChunkOut_length, hl1]
  have hm2 : ∀ c ∈ gsChunkOut 63 (gsChunkOut 127 (chunksOf 128 2 pc)),
      c.length = 8 := by
    intro c hc
    have := gsChunkOut_mem_length 4 63 _ hm1 c hc
    omega
  have hl3 : (gsChunkOut 31 (gsChunkOut 63 (gsChunkOut 127
      (chunksOf 128 2 pc)))).length = 16 := by
    rw [gsChunkOut_length, hl2]
  have hm3 : ∀ c ∈ gsChunkOut 31 (gsChunkOut 63 (gsChunkOut 127 (chunksOf 128 2 pc))),
      c.length = 16 := by
    intro c hc
    have := gsChunkOut_mem_length 8 31 _ hm2 c hc
    omega
  have hl4 : (gsChunkOut 15 (gsChunkOut 31 (gsChunkOut 63 (gsChunkOut 127
      (chunksOf 128 2 pc))))).length = 8 := by
    rw [gsChunkOut_length, hl3]
  have hm4 : ∀ c ∈ gsChunkOut 15 (gsChunkOut 31 (gsChunkOut 63 (gsChunkOut 127
      (chunksOf 128 2 pc)))), c.length = 32 := by
    intro c hc
    have := gsChunkOut_mem_length 16 15 _ hm3 c hc
    omega
  have hl5 : (gsChunkOut 7 (gsChunkOut 15 (gsChunkOut 31 (gsChunkOut 63 (gsChunkOut 127
      (chunksOf 128 2 pc)))))).length = 4 := by
    rw [gsChunkOut_length, hl4]
  have hm5 : ∀ c ∈ gsChunkOut 7 (gsChunkOut 15 (gsChunkOut 31 (gsChunkOut 63
      (gsChunkOut 127 (chunksOf 128 2 pc))))), c.length = 64 := by
    intro c hc
    have := gsChunkOut_mem_length 32 7 _ hm4 c hc
    omega
  have hl6 : (gsChunkOut 3 (gsChunkOut 7 (gsChunkOut 15 (gsChunkOut 31 (gsChunkOut 63
      (gsChunkOut 127 (chunksOf 128 2 pc))))))).length = 2 := by
    rw [gsChunkOut_length, hl5]
  have hm6 : ∀ c ∈ gsChunkOut 3 (gsChunkOut 7 (gsChunkOut 15 (gsChunkOut 31
      (gsChunkOut 63 (gsChunkOut 127 (chunksOf 128 2 pc)))))), c.length = 128 := by
    intro c hc
    have := gsChunkOut_mem_length 64 3 _ hm5 c hc
    omega
  have e1 : inttLayer 2 (pc, 127)
      = ((gsChunkOut 127 (chunksOf 128 2 pc)).flatten, 63) := by
    have h := inttLayer_chunks 2 (by omega) (chunksOf 128 2 pc) 127
      (by rw [hc0]) hm0 (by rw [hc0]; simp [KYBER_N])
    rw [hflat] at h
    rw [hc0] at h
    simpa using h
  have e2 : inttLayer 4 ((gsChunkOut 127 (chunksOf 128 2 pc)).flatten, 63)
      = ((gsChunkOut 63 (gsChunkOut 127 (chunksOf 128 2 pc))).flatten, 31) := by
    have h := inttLayer_chunks 4 (by omega) _ 63 (by rw [hl1]) hm1 (by rw [hl1]; simp [KYBER_N])
    rw [hl1] at h
    simpa using h
  have e3 : inttLayer 8 ((gsChunkOut 63 (gsChunkOut 127 (chunksOf 128 2 pc))).flatten,
        31)
      = ((gsChunkOut 31 (gsChunkOut 63 (gsChunkOut 127
          (chunksOf 128 2 pc)))).flatten, 15) := by
    have h := inttLayer_chunks 8 (by omega) _ 31 (by rw [hl2]) hm2 (by rw [hl2]; simp [KYBER_N])
    rw [hl2] at h
    simpa using h
  have e4 : inttLayer 16 ((gsChunkOut 31 (gsChunkOut 63 (gsChunkOut 127
        (chunksOf 128 2 pc)))).flatten, 15)
      = ((gsChunkOut 15 (gsChunkOut 31 (gsChunkOut 63 (gsChunkOut 127
          (chunksOf 128 2 pc))))).flatten, 7) := by
    have h := inttLayer_chunks 16 (by omega) _ 15 (by rw [hl3]) hm3 (by rw [hl3]; simp [KYBER_N])
    rw [hl3] at h
    simpa using h
  have e5 : inttLayer 32 ((gsChunkOut 15 (gsChunkOut 31 (gsChunkOut 63 (gsChunkOut 127
        (chunksOf 128 2 pc))))).flatten, 7)
      = ((gsChunkOut 7 (gsChunkOut 15 (gsChunkOut 31 (gsChunkOut 63 (gsChunkOut 127
          (chunksOf 128 2 pc)))))).flatten, 3) := by
    have h := inttLayer_chunks 32 (by omega) _ 7 (by rw [hl4]) hm4 (by rw [hl4]; simp [KYBER_N])
    rw [hl4] at h
    simpa using h
  have e6 : inttLayer 64 ((gsChunkOut 7 (gsChunkOut 15 (gsChunkOut 31 (gsChunkOut 63
        (gsChunkOut 127 (chunksOf 128 2 pc)))))).flatten, 3)
      = ((gsChunkOut 3 (gsChunkOut 7 (gsChunkOut 15 (gsChunkOut 31 (gsChunkOut 63
          (gsChunkOut 127 (chunksOf 128 2 pc))))))).flatten, 1) := by
    have h := inttLayer_chunks 64 (by omega) _ 3 (by rw [hl5]) hm5 (by rw [hl5]; simp [KYBER_N])
    rw [hl5] at h
    simpa using h
  have e7 : inttLayer 128 ((gsChunkOut 3 (gsChunkOut 7 (gsChunkOut 15 (gsChunkOut 31
        (gsChunkOut 63 (gsChunkOut 127 (chunksOf 128 2 pc))))))).flatten, 1)
      = ((gsChunkOut 1 (gsChunkOut 3 (gsChunkOut 7 (gsChunkOut 15 (gsChunkOut 31
          (gsChunkOut 63 (gsChunkOut 127 (chunksOf 128 2 pc)))))))).flatten, 0) := by
    have h := inttLayer_chunks 128 (by omega) _ 1 (by rw [hl6]) hm6 (by rw [hl6]; simp [KYBER_N])
    rw [hl6] at h
    simpa using h
  rw [e1, e2, e3, e4, e5, e6, e7]

theorem cast_mod (a : Nat) : ((a % KYBER_Q : Nat) : Zq) = (a : Zq) := by
  unfold KYBER_Q
  exact ZMod.natCast_mod a 3329

theorem cast_q_zero : ((KYBER_Q : Nat) : Zq) = 0 := by
  unfold KYBER_Q
  exact ZMod.natCast_self 3329

theorem cast_mod_add (a b : Nat) (ha : a < KYBER_Q) (hb : b < KYBER_Q) :
    ((mod_add a b : Nat) : Zq) = (a : Zq) + (b : Zq) := by
  rw [mod_add_eq a b ha hb, cast_mod]
  push_cast
  ring

theorem cast_mod_sub (a b : Nat) (ha : a < KYBER_Q) (hb : b < KYBER_Q) :
    ((mod_sub a b : Nat) : Zq) = (a : Zq) - (b : Zq) := by
  rw [mod_sub_eq a b ha hb, cast_mod, Nat.cast_add, Nat.cast_sub (by omega), cast_q_zero]
  ring

theorem cast_barrett (a : Nat) (h : a < 77517490) :
    ((barrett_reduce a : Nat) : Zq) = (a : Zq) := by
  rw [barrett_reduce_eq_mod a h, cast_mod]

theorem castP_take (l : List Nat) (n : Nat) : (castP l).take n = castP (l.take n) := by
  unfold castP
  rw [List.map_take]

theorem castP_drop (l : List Nat) (n : Nat) : (castP l).drop n = castP (l.drop n) := by
  unfold castP
  rw [List.map_drop]

theorem castP_flatten : ∀ (cs : List (List Nat)), (castPP cs).flatten = castP cs.flatten
  | [] => rfl
  | c :: cs => by
      simp only [castPP, List.map_cons, List.flatten_cons]
      have ih := castP_flatten cs
      simp only [castPP] at ih
      rw [ih]
      simp [castP]

theorem zeta_mul_lt (k b : Nat) (hb : b < KYBER_Q) : ZETAS.getD k 0 * b < 77517490 := by
  have hz := ZETAS_getD_lt k
  unfold KYBER_Q at *
  nlinarith

theorem castPP_ctChunkOut (len : Nat) :
    ∀ (k : Nat) (cs : List (List Nat)), (∀ c ∈ cs, ∀ x ∈ c, x < KYBER_Q) →
    castPP (ctChunkOut k len cs) = ctChunkZ k len (castPP cs)
  | _, [], _ => by simp [ctChunkOut, castPP, ctChunkZ]
  | k, c :: cs, hc => by
      have hcan : ∀ y ∈ c, y < KYBER_Q := hc c (by simp)
      have ih := castPP_ctChunkOut len (k + 1) cs (fun y hy => hc y (by simp [hy]))
      simp only [castPP] at ih
      simp only [ctChunkOut, castPP, List.map_cons, ctChunkZ]
      congr 1
      · rw [castP_take, castP_drop]
        unfold castP
        rw [List.map_zipWith, List.zipWith_map]
        apply zipWith_congr_mem
        intro a ha b hb
        have haq : a < KYBER_Q := hcan a (List.mem_of_mem_take ha)
        have hbq : b < KYBER_Q := hcan b (List.mem_of_mem_drop hb)
        rw [cast_mod_add a _ haq (barrett_reduce_lt _ (zeta_mul_lt k b hbq)),
          cast_barrett _ (zeta_mul_lt k b hbq)]
        push_cast
        rfl
      congr 1
      · rw [castP_take, castP_drop]
        unfold castP
        rw [List.map_zipWith, List.zipWith_map]
        apply zipWith_congr_mem
        intro a ha b hb
        have haq : a < KYBER_Q := hcan a (List.mem_of_mem_take ha)
        have hbq : b < KYBER_Q := hcan b (List.mem_of_mem_drop hb)
        rw [cast_mod_sub a _ haq (barrett_reduce_lt _ (zeta_mul_lt k b hbq)),
          cast_barrett _ (zeta_mul_lt k b hbq)]
        push_cast
        rfl

theorem castPP_gsChunkOut :
    ∀ (k : Nat) (cs : List (List Nat)), (∀ c ∈ cs, ∀ x ∈ c, x < KYBER_Q) →
    castPP (gsChunkOut k cs) = gsChunkZ k (castPP cs)
  | _, [], _ => by simp [gsChunkOut, castPP, gsChunkZ]
  | _, [u], _ => by simp [gsChunkOut, castPP, gsChunkZ]
  | k, u :: v :: cs, hc => by
      have hu : ∀ y ∈ u, y < KYBER_Q := hc u (by simp)
      have hv : ∀ y ∈ v, y < KYBER_Q := hc v (by simp)
      have ih := castPP_gsChunkOut (k - 1) cs (fun y hy => hc y (by simp [hy]))
      simp only [castPP] at ih
      simp only [gsChunkOut, castPP, List.map_cons, gsChunkZ]
      congr 1
      · unfold castP
        rw [List.map_append, List.map_zipWith, List.map_zipWith, List.zipWith_map,
          List.zipWith_map]
        congr 1
        · apply zipWith_congr_mem
          intro a ha b hb
          exact cast_mod_add a b (hu a ha) (hv b hb)
        · apply zipWith_congr_mem
          intro a ha b hb
          have hs : mod_sub b a < KYBER_Q := mod_sub_lt b a (hv b hb) (hu a ha)
          rw [cast_barrett _ (zeta_mul_lt k _ hs)]
          push_cast
          rw [cast_mod_sub b a (hv b hb) (hu a ha)]
          rfl

theorem ctChunkZ_length (len : Nat) :
    ∀ (k : Nat) (cs : List (List Zq)), (ctChunkZ k len cs).length = 2 * cs.length
  | _, [] => by simp [ctChunkZ]
  | k, c :: cs => by
      simp only [ctChunkZ, List.length_cons, ctChunkZ_length len (k + 1) cs]
      ring

theorem ctChunkZ_mem_length (len : Nat) :
    ∀ (k : Nat) (cs : List (List Zq)), (∀ c ∈ cs, c.length = 2 * len) →
    ∀ c' ∈ ctChunkZ k len cs, c'.length = len
  | _, [], _ => by simp [ctChunkZ]
  | k, c :: cs, hc => by
      intro c' hc'
      have hcl : c.length = 2 * len := hc c (by simp)
      simp only [ctChunkZ, List.mem_cons] at hc'
      rcases hc' with h | h | h
      · subst h
        simp only [List.length_zipWith, List.length_take, List.length_drop, hcl]
        omega
      · subst h
        simp only [List.length_zipWith, List.length_take, List.length_drop, hcl]
        omega
      · exact ctChunkZ_mem_length len (k + 1) cs (fun x hx => hc x (by simp [hx])) c' h

theorem gsChunkZ_length :
    ∀ (k : Nat) (cs : List (List Zq)), (gsChunkZ k cs).length = cs.length / 2
  | _, [] => by simp [gsChunkZ]
  | _, [u] => by simp [gsChunkZ]
  | k, u :: v :: cs => by
      simp only [gsChunkZ, List.length_cons, gsChunkZ_length (k - 1) cs]
      omega

theorem gsChunkZ_mem_length (len : Nat) :
    ∀ (k : Nat) (cs : List (List Zq)), (∀ c ∈ cs, c.length = len) →
    ∀ c' ∈ gsChunkZ k cs, c'.length = 2 * len
  | _, [], _ => by simp [gsChunkZ]
  | _, [u], _ => by simp [gsChunkZ]
  | k, u :: v :: cs, hc => by
      intro c' hc'
      simp only [gsChunkZ, List.mem_cons] at hc'
      rcases hc' with h | h
      · subst h
        simp only [List.length_append, List.length_zipWith,
          hc u (by simp), hc v (by simp)]
        omega
      · exact gsChunkZ_mem_length len (k - 1) cs (fun x hx => hc x (by simp [hx])) c' h

theorem zipWith_zipWith {α β γ δ : Type} (f g : α → β → γ) (h : γ → γ → δ) :
    ∀ (l1 : List α) (l2 : List β),
    List.zipWith h (List.zipWith f l1 l2) (List.zipWith g l1 l2)
      = List.zipWith (fun a b => h (f a b) (g a b)) l1 l2
  | [], _ => by simp
  | _ :: _, [] => by simp
  | a :: l1, b :: l2 => by
      simp only [List.zipWith_cons_cons]
      rw [zipWith_zipWith f g h l1 l2]

theorem zipWith_left {α β γ : Type} (f : α → γ) :
    ∀ (l1 : List α) (l2 : List β), l1.length = l2.length →
    List.zipWith (fun a _ => f a) l1 l2 = l1.map f
  | [], _, _ => by simp
  | a :: l1, [], h => by simp at h
  | a :: l1, b :: l2, h => by
      simp only [List.zipWith_cons_cons, List.map_cons]
      rw [zipWith_left f l1 l2 (by simpa using h)]

theorem zipWith_right {α β γ : Type} (f : β → γ) :
    ∀ (l1 : List α) (l2 : List β), l1.length = l2.length →
    List.zipWith (fun _ b => f b) l1 l2 = l2.map f
  | [], [], _ => by simp
  | [], b :: l2, h => by simp at h
  | a :: l1, [], h => by simp at h
  | a :: l1, b :: l2, h => by
      simp only [List.zipWith_cons_cons, List.map_cons]
      rw [zipWith_right f l1 l2 (by simpa using h)]

theorem ctChunkZ_map_smul (s : Zq) (len : Nat) :
    ∀ (k : Nat) (cs : List (List Zq)),
    ctChunkZ k len (cs.map (List.map (fun x => s * x)))
      = (ctChunkZ k len cs).map (List.map (fun x => s * x))
  | _, [] => by simp [ctChunkZ]
  | k, c :: cs => by
      have ih := ctChunkZ_map_smul s len (k + 1) cs
      simp only [List.map_cons, ctChunkZ, ih]
      congr 1
      · rw [← List.map_take, ← List.map_drop]
        rw [List.zipWith_map, List.map_zipWith]
        apply zipWith_congr_mem
        intro a _ b _
        ring
      congr 1
      · rw [← List.map_take, ← List.map_drop]
        rw [List.zipWith_map, List.map_zipWith]
        apply zipWith_congr_mem
        intro a _ b _
        ring

theorem gsChunkZ_map_smul (s : Zq) :
    ∀ (k : Nat) (cs : List (List Zq)),
    gsChunkZ k (cs.map (List.map (fun x => s * x)))
      = (gsChunkZ k cs).map (List.map (fun x => s * x))
  | _, [] => by simp [gsChunkZ]
  | _, [u] => by simp [gsChunkZ]
  | k, u :: v :: cs => by
      have ih := gsChunkZ_map_smul s (k - 1) cs
      simp only [List.map_cons, gsChunkZ, ih]
      congr 1
      rw [List.map_append, List.zipWith_map, List.zipWith_map, List.map_zipWith,
        List.map_zipWith]
      congr 1
      · apply zipWith_congr_mem
        intro a _ b _
        ring
      · apply zipWith_congr_mem
        intro a _ b _
        ring

theorem zetaZ_pair_of_fact (a b : Nat)
    (h : (ZETAS.getD a 0 * ZETAS.getD b 0) % 3329 = 3328) :
    zetaZ a * zetaZ b = -1 := by
  unfold zetaZ
  have hc : ((ZETAS.getD a 0 * ZETAS.getD b 0 : Nat) : Zq) = ((3328 : Nat) : Zq) := by
    rw [← ZMod.natCast_mod, h]
  push_cast at hc
  rw [hc]
  decide

theorem zeta_fact_64 : ∀ i, i < 64 →
    (ZETAS.getD (64 + i) 0 * ZETAS.getD (127 - i) 0) % 3329 = 3328 := by decide

theorem zeta_fact_32 : ∀ i, i < 32 →
    (ZETAS.getD (32 + i) 0 * ZETAS.getD (63 - i) 0) % 3329 = 3328 := by decide

theorem zeta_fact_16 : ∀ i, i < 16 →
    (ZETAS.getD (16 + i) 0 * ZETAS.getD (31 - i) 0) % 3329 = 3328 := by decide

theorem zeta_fact_8 : ∀ i, i < 8 →
    (ZETAS.getD (8 + i) 0 * ZETAS.getD (15 - i) 0) % 3329 = 3328 := by decide

theorem zeta_fact_4 : ∀ i, i < 4 →
    (ZETAS.getD (4 + i) 0 * ZETAS.getD (7 - i) 0) % 3329 = 3328 := by decide

theorem zeta_fact_2 : ∀ i, i < 2 →
    (ZETAS.getD (2 + i) 0 * ZETAS.getD (3 - i) 0) % 3329 = 3328 := by decide

theorem zeta_fact_1 : ∀ i, i < 1 →
    (ZETAS.getD (1 + i) 0 * ZETAS.getD (1 - i) 0) % 3329 = 3328 := by decide

theorem gs_ct_cancel (len : Nat) :
    ∀ (m k' : Nat) (cs : List (List Zq)),
    (∀ c ∈ cs, c.length = 2 * len) →
    cs.length ≤ k' →
    (∀ i, i < cs.length → zetaZ (m + i) * zetaZ (k' - i) = -1) →
    gsChunkZ k' (ctChunkZ m len cs) = cs.map (List.map (fun x => 2 * x))
  | _, _, [], _, _, _ => by simp [ctChunkZ, gsChunkZ]
  | m, k', c :: cs, hlen, hk, hz => by
      have hcl : c.length = 2 * len := hlen c (by simp)
      have htl : (c.take len).length = len := by simp [hcl]; omega
      have hdl : (c.drop len).length = len := by simp [hcl]; omega
      have hz0 : zetaZ m * zetaZ k' = -1 := by
        have := hz 0 (by simp)
        simpa using this
      simp only [ctChunkZ, gsChunkZ, List.map_cons]
      congr 1
      · rw [zipWith_zipWith, zipWith_zipWith]
        rw [show List.zipWith
              (fun a b => (fun e o => e + zetaZ m * o) a b
                + (fun e o => e - zetaZ m * o) a b) (c.take len) (c.drop len)
            = List.zipWith (fun a b => (fun e o => (2 : Zq) * e) a b)
              (c.take len) (c.drop len) from
          zipWith_congr_mem _ _ _ _ (fun a _ b _ => by ring)]
        rw [show List.zipWith
              (fun a b => zetaZ k' * ((fun e o => e - zetaZ m * o) a b
                - (fun e o => e + zetaZ m * o) a b)) (c.take len) (c.drop len)
            = List.zipWith (fun a b => (fun e o => (2 : Zq) * o) a b)
              (c.take len) (c.drop len) from
          zipWith_congr_mem _ _ _ _ (fun a _ b _ => by
            show zetaZ k' * ((a - zetaZ m * b) - (a + zetaZ m * b)) = 2 * b
            linear_combination (-2 * b) * hz0)]
        rw [zipWith_left _ _ _ (by rw [htl, hdl]), zipWith_right _ _ _ (by rw [htl, hdl])]
        rw [← List.map_append, List.take_append_drop]
      · rw [gs_ct_cancel len (m + 1) (k' - 1) cs
          (fun x hx => hlen x (by simp [hx]))
          (by simp only [List.length_cons] at hk; omega)
          (fun i hi => by
            have := hz (i + 1) (by simp only [List.length_cons]; omega)
            have harith : k' - 1 - i = k' - (i + 1) := by
              simp only [List.length_cons] at hk
              omega
            rw [harith]
            rw [show m + 1 + i = m + (i + 1) from by omega]
            exact this)]

theorem ct_gs_cancel (len : Nat) :
    ∀ (m k' : Nat) (cs : List (List Zq)),
    cs.length % 2 = 0 →
    (∀ c ∈ cs, c.length = len) →
    cs.length / 2 ≤ k' →
    (∀ i, i < cs.length / 2 → zetaZ (m + i) * zetaZ (k' - i) = -1) →
    ctChunkZ m len (gsChunkZ k' cs) = cs.map (List.map (fun x => 2 * x))
  | _, _, [], _, _, _, _ => by simp [ctChunkZ, gsChunkZ]
  | _, _, [u], he, _, _, _ => by simp at he
  | m, k', u :: v :: cs, he, hlen, hk, hz => by
      have hul : u.length = len := hlen u (by simp)
      have hvl : v.length = len := hlen v (by simp)
      have hz0 : zetaZ m * zetaZ k' = -1 := by
        have := hz 0 (by simp only [List.length_cons]; omega)
        simpa using this
      have hzl : (List.zipWith (· + ·) u v).length = len := by
        simp [hul, hvl]
      simp only [gsChunkZ, ctChunkZ, List.map_cons]
      have htake : (List.zipWith (· + ·) u v
            ++ List.zipWith (fun a b => zetaZ k' * (b - a)) u v).take len
          = List.zipWith (· + ·) u v := by
        rw [← hzl, List.take_left]
      have hdrop : (List.zipWith (· + ·) u v
            ++ List.zipWith (fun a b => zetaZ k' * (b - a)) u v).drop len
          = List.zipWith (fun a b => zetaZ k' * (b - a)) u v := by
        rw [← hzl, List.drop_left]
      rw [htake, hdrop]
      congr 1
      · rw [zipWith_zipWith]
        rw [show List.zipWith
              (fun a b => (fun e o => e + zetaZ m * o) ((· + ·) a b)
                ((fun x y => zetaZ k' * (y - x)) a b)) u v
            = List.zipWith (fun a b => (fun x y => (2 : Zq) * x) a b) u v from
          zipWith_congr_mem _ _ _ _ (fun a _ b _ => by
            show (a + b) + zetaZ m * (zetaZ k' * (b - a)) = 2 * a
            linear_combination (b - a) * hz0)]
        rw [zipWith_left _ _ _ (by rw [hul, hvl])]
      congr 1
      · rw [zipWith_zipWith]
        rw [show List.zipWith
              (fun a b => (fun e o => e - zetaZ m * o) ((· + ·) a b)
                ((fun x y => zetaZ k' * (y - x)) a b)) u v
            = List.zipWith (fun a b => (fun x y => (2 : Zq) * y) a b) u v from
          zipWith_congr_mem _ _ _ _ (fun a _ b _ => by
            show (a + b) - zetaZ m * (zetaZ k' * (b - a)) = 2 * b
            linear_combination (a - b) * hz0)]
        rw [zipWith_right _ _ _ (by rw [hul, hvl])]
      · rw [ct_gs_cancel len (m + 1) (k' - 1) cs
          (by simp only [List.length_cons] at he; omega)
          (fun x hx => hlen x (by simp [hx]))
          (by simp only [List.length_cons] at hk ⊢; omega)
          (fun i hi => by
            have := hz (i + 1) (by simp only [List.length_cons] at hk ⊢; omega)
            have harith : k' - 1 - i = k' - (i + 1) := by
              simp only [List.length_cons] at hk
              omega
            rw [harith]
            rw [show m + 1 + i = m + (i + 1) from by omega]
            exact this)]

theorem zetaZ_pair_64 : ∀ i, i < 64 → zetaZ (64 + i) * zetaZ (127 - i) = -1 :=
  fun i hi => zetaZ_pair_of_fact _ _ (zeta_fact_64 i hi)

theorem zetaZ_pair_32 : ∀ i, i < 32 → zetaZ (32 + i) * zetaZ (63 - i) = -1 :=
  fun i hi => zetaZ_pair_of_fact _ _ (zeta_fact_32 i hi)

theorem zetaZ_pair_16 : ∀ i, i < 16 → zetaZ (16 + i) * zetaZ (31 - i) = -1 :=
  fun i hi => zetaZ_pair_of_fact _ _ (zeta_fact_16 i hi)

theorem zetaZ_pair_8 : ∀ i, i < 8 → zetaZ (8 + i) * zetaZ (15 - i) = -1 :=
  fun i hi => zetaZ_pair_of_fact _ _ (zeta_fact_8 i hi)

theorem zetaZ_pair_4 : ∀ i, i < 4 → zetaZ (4 + i) * zetaZ (7 - i) = -1 :=
  fun i hi => zetaZ_pair_of_fact _ _ (zeta_fact_4 i hi)

theorem zetaZ_pair_2 : ∀ i, i < 2 → zetaZ (2 + i) * zetaZ (3 - i) = -1 :=
  fun i hi => zetaZ_pair_of_fact _ _ (zeta_fact_2 i hi)

theorem zetaZ_pair_1 : ∀ i, i < 1 → zetaZ (1 + i) * zetaZ (1 - i) = -1 :=
  fun i hi => zetaZ_pair_of_fact _ _ (zeta_fact_1 i hi)

theorem inttZ_nttZ_stack (x : List Zq) (hx : x.length = 256) :
    gsChunkZ 1 (gsChunkZ 3 (gsChunkZ 7 (gsChunkZ 15 (gsChunkZ 31 (gsChunkZ 63
      (gsChunkZ 127 (ctChunkZ 64 2 (ctChunkZ 32 4 (ctChunkZ 16 8 (ctChunkZ 8 16
        (ctChunkZ 4 32 (ctChunkZ 2 64 (ctChunkZ 1 128 [x])))))))))))))
      = [x.map (fun v => (128 : Zq) * v)] := by
  have hs0 : ∀ c ∈ [x], c.length = 2 * 128 := by
    intro c hc
    simp only [List.mem_singleton] at hc
    subst hc
    omega
  have hs1 : ∀ c ∈ ctChunkZ 1 128 [x], c.length = 2 * 64 := by
    intro c hc
    have := ctChunkZ_mem_length 128 1 [x] hs0 c hc
    omega
  have hs2 : ∀ c ∈ ctChunkZ 2 64 (ctChunkZ 1 128 [x]), c.length = 2 * 32 := by
    intro c hc
    have := ctChunkZ_mem_length 64 2 _ hs1 c hc
    omega
  have hs3 : ∀ c ∈ ctChunkZ 4 32 (ctChunkZ 2 64 (ctChunkZ 1 128 [x])),
      c.length = 2 * 16 := by
    intro c hc
    have := ctChunkZ_mem_length 32 4 _ hs2 c hc
    omega
  have hs4 : ∀ c ∈ ctChunkZ 8 16 (ctChunkZ 4 32 (ctChunkZ 2 64 (ctChunkZ 1 128 [x]))),
      c.length = 2 * 8 := by
    intro c hc
    have := ctChunkZ_mem_length 16 8 _ hs3 c hc
    omega
  have hs5 : ∀ c ∈ ctChunkZ 16 8 (ctChunkZ 8 16 (ctChunkZ 4 32 (ctChunkZ 2 64
      (ctChunkZ 1 128 [x])))), c.length = 2 * 4 := by
    intro c hc
    have := ctChunkZ_mem_length 8 16 _ hs4 c hc
    omega
  have hs6 : ∀ c ∈ ctChunkZ 32 4 (ctChunkZ 16 8 (ctChunkZ 8 16 (ctChunkZ 4 32
      (ctChunkZ 2 64 (ctChunkZ 1 128 [x]))))), c.length = 2 * 2 := by
    intro c hc
    have := ctChunkZ_mem_length 4 32 _ hs5 c hc
    omega
  have c1 := gs_ct_cancel 2 64 127 _ hs6 (by simp [ctChunkZ_length])
    (fun i hi => zetaZ_pair_64 i (by simpa [ctChunkZ_length] using hi))
  have c2 := gs_ct_cancel 4 32 63 _ hs5 (by simp [ctChunkZ_length])
    (fun i hi => zetaZ_pair_32 i (by simpa [ctChunkZ_length] using hi))
  have c3 := gs_ct_cancel 8 16 31 _ hs4 (by simp [ctChunkZ_length])
    (fun i hi => zetaZ_pair_16 i (by simpa [ctChunkZ_length] using hi))
  have c4 := gs_ct_cancel 16 8 15 _ hs3 (by simp [ctChunkZ_length])
    (fun i hi => zetaZ_pair_8 i (by simpa [ctChunkZ_length] using hi))
  have c5 := gs_ct_cancel 32 4 7 _ hs2 (by simp [ctChunkZ_length])
    (fun i hi => zetaZ_pair_4 i (by simpa [ctChunkZ_length] using hi))
  have c6 := gs_ct_cancel 64 2 3 _ hs1 (by simp [ctChunkZ_length])
    (fun i hi => zetaZ_pair_2 i (by simpa [ctChunkZ_length] using hi))
  have c7 := gs_ct_cancel 128 1 1 _ hs0 (by simp)
    (fun i hi => zetaZ_pair_1 i (by simpa using hi))
  rw [c1]
  simp only [gsChunkZ_map_smul]
  rw [c2]
  simp only [gsChunkZ_map_smul]
  rw [c3]
  simp only [gsChunkZ_map_smul]
  rw [c4]
  simp only [gsChunkZ_map_smul]
  rw [c5]
  simp only [gsChunkZ_map_smul]
  rw [c6]
  simp only [gsChunkZ_map_smul]
  rw [c7]
  simp only [List.map_cons, List.map_nil, List.map_map]
  rw [List.cons.injEq]
  refine ⟨?_, rfl⟩
  apply List.map_congr_left
  intro a _
  show (2 : Zq) * (2 * (2 * (2 * (2 * (2 * (2 * a)))))) = 128 * a
  ring

theorem nttZ_inttZ_stack (cs : List (List Zq)) (hlen : ∀ c ∈ cs, c.length = 2)
    (hn : cs.length = 128) :
    ctChunkZ 64 2 (ctChunkZ 32 4 (ctChunkZ 16 8 (ctChunkZ 8 16 (ctChunkZ 4 32
      (ctChunkZ 2 64 (ctChunkZ 1 128 (gsChunkZ 1 (gsChunkZ 3 (gsChunkZ 7 (gsChunkZ 15
        (gsChunkZ 31 (gsChunkZ 63 (gsChunkZ 127 cs)))))))))))))
      = cs.map (List.map (fun v => (128 : Zq) * v)) := by
  have hg0 : ∀ c ∈ cs, c.length = 2 := hlen
  have hgn0 : cs.length = 128 := hn
  have hg1 : ∀ c ∈ gsChunkZ 127 cs, c.length = 4 := by
    intro c hc
    have := gsChunkZ_mem_length 2 127 cs hg0 c hc
    omega
  have hgn1 : (gsChunkZ 127 cs).length = 64 := by
    rw [gsChunkZ_length, hgn0]
  have hg2 : ∀ c ∈ gsChunkZ 63 (gsChunkZ 127 cs), c.length = 8 := by
    intro c hc
    have := gsChunkZ_mem_length 4 63 _ hg1 c hc
    omega
  have hgn2 : (gsChunkZ 63 (gsChunkZ 127 cs)).length = 32 := by
    rw [gsChunkZ_length, hgn1]
  have hg3 : ∀ c ∈ gsChunkZ 31 (gsChunkZ 63 (gsChunkZ 127 cs)), c.length = 16 := by
    intro c hc
    have := gsChunkZ_mem_length 8 31 _ hg2 c hc
    omega
  have hgn3 : (gsChunkZ 31 (gsChunkZ 63 (gsChunkZ 127 cs))).length = 16 := by
    rw [gsChunkZ_length, hgn2]
  have hg4 : ∀ c ∈ gsChunkZ 15 (gsChunkZ 31 (gsChunkZ 63 (gsChunkZ 127 cs))),
      c.length = 32 := by
    intro c hc
    have := gsChunkZ_mem_length 16 15 _ hg3 c hc
    omega
  have hgn4 : (gsChunkZ 15 (gsChunkZ 31 (gsChunkZ 63 (gsChunkZ 127 cs)))).length = 8 := by
    rw [gsChunkZ_length, hgn3]
  have hg5 : ∀ c ∈ gsChunkZ 7 (gsChunkZ 15 (gsChunkZ 31 (gsChunkZ 63 (gsChunkZ 127 cs)))),
      c.length = 64 := by
    intro c hc
    have := gsChunkZ_mem_length 32 7 _ hg4 c hc
    omega
  have hgn5 : (gsChunkZ 7 (gsChunkZ 15 (gsChunkZ 31 (gsChunkZ 63
      (gsChunkZ 127 cs))))).length = 4 := by
    rw [gsChunkZ_length, hgn4]
  have hg6 : ∀ c ∈ gsChunkZ 3 (gsChunkZ 7 (gsChunkZ 15 (gsChunkZ 31 (gsChunkZ 63
      (gsChunkZ 127 cs))))), c.length = 128 := by
    intro c hc
    have := gsChunkZ_mem_length 64 3 _ hg5 c hc
    omega
  have hgn6 : (gsChunkZ 3 (gsChunkZ 7 (gsChunkZ 15 (gsChunkZ 31 (gsChunkZ 63
      (gsChunkZ 127 cs)))))).length = 2 := by
    rw [gsChunkZ_length, hgn5]
  have d7 := ct_gs_cancel 128 1 1 _ (by rw [hgn6]) hg6 (by rw [hgn6])
    (fun i hi => zetaZ_pair_1 i (by rw [hgn6] at hi; omega))
  have d6 := ct_gs_cancel 64 2 3 _ (by rw [hgn5]) hg5 (by rw [hgn5]; omega)
    (fun i hi => zetaZ_pair_2 i (by rw [hgn5] at hi; omega))
  have d5 := ct_gs_cancel 32 4 7 _ (by rw [hgn4]) hg4 (by rw [hgn4]; omega)
    (fun i hi => zetaZ_pair_4 i (by rw [hgn4] at hi; omega))
  have d4 := ct_gs_cancel 16 8 15 _ (by rw [hgn3]) hg3 (by rw [hgn3]; omega)
    (fun i hi => zetaZ_pair_8 i (by rw [hgn3] at hi; omega))
  have d3 := ct_gs_cancel 8 16 31 _ (by rw [hgn2]) hg2 (by rw [hgn2]; omega)
    (fun i hi => zetaZ_pair_16 i (by rw [hgn2] at hi; omega))
  have d2 := ct_gs_cancel 4 32 63 _ (by rw [hgn1]) hg1 (by rw [hgn1]; omega)
    (fun i hi => zetaZ_pair_32 i (by rw [hgn1] at hi; omega))
  have d1 := ct_gs_cancel 2 64 127 cs (by rw [hgn0]) hg0 (by rw [hgn0]; omega)
    (fun i hi => zetaZ_pair_64 i (by rw [hgn0] at hi; omega))
  rw [d7]
  simp only [ctChunkZ_map_smul]
  rw [d6]
  simp only [ctChunkZ_map_smul]
  rw [d5]
  simp only [ctChunkZ_map_smul]
  rw [d4]
  simp only [ctChunkZ_map_smul]
  rw [d3]
  simp only [ctChunkZ_map_smul]
  rw [d2]
  simp only [ctChunkZ_map_smul]
  rw [d1]
  simp only [List.map_map]
  apply List.map_congr_left
  intro c _
  simp only [Function.comp_apply, List.map_map]
  apply List.map_congr_left
  intro a _
  show (2 : Zq) * (2 * (2 * (2 * (2 * (2 * (2 * a)))))) = 128 * a
  ring

theorem map_mod_id (l : List Nat) (h : ∀ x ∈ l, x < KYBER_Q) :
    l.map (· % KYBER_Q) = l := by
  have : l.map (· % KYBER_Q) = l.map id := by
    apply List.map_congr_left
    intro a ha
    exact Nat.mod_eq_of_lt (h a ha)
  rw [this, List.map_id]

theorem flatten_lt (cs : List (List Nat)) (h : ∀ c ∈ cs, ∀ x ∈ c, x < KYBER_Q) :
    ∀ x ∈ cs.flatten, x < KYBER_Q := by
  intro x hx
  obtain ⟨c, hc, hxc⟩ := List.mem_flatten.1 hx
  exact h c hc x hxc

theorem flatten_length_uniform (len : Nat) :
    ∀ (cs : List (List Nat)), (∀ c ∈ cs, c.length = len) →
    cs.flatten.length = cs.length * len
  | [], _ => by simp
  | c :: cs, h => by
      simp only [List.flatten_cons, List.length_append, List.length_cons,
        flatten_length_uniform len cs (fun x hx => h x (by simp [hx])), h c (by simp)]
      ring

theorem chunksOf_succ (fuel len : Nat) (l : List Nat) (hl : l ≠ []) :
    chunksOf (fuel + 1) len l = l.take len :: chunksOf fuel len (l.drop len) := by
  cases l with
  | nil => exact absurd rfl hl
  | cons x xs => rfl

theorem chunksOf_id :
    ∀ (fuel len : Nat), 0 < len → ∀ (cs : List (List Nat)),
    (∀ c ∈ cs, c.length = len) → cs.length = fuel →
    chunksOf fuel len cs.flatten = cs
  | 0, len, h0, [], _, _ => by simp [chunksOf]
  | 0, len, h0, c :: cs, _, hn => by simp at hn
  | fuel + 1, len, h0, [], _, hn => by simp at hn
  | fuel + 1, len, h0, c :: cs, hc, hn => by
      have hcl : c.length = len := hc c (by simp)
      have hne : c ++ cs.flatten ≠ [] := by
        intro hcontra
        rcases List.append_eq_nil.1 hcontra with ⟨h1, _⟩
        rw [h1] at hcl
        simp at hcl
        omega
      rw [List.flatten_cons, chunksOf_succ fuel len _ hne,
        show (c ++ cs.flatten).take len = c from by
          rw [← hcl]; exact List.take_left c cs.flatten,
        show (c ++ cs.flatten).drop len = cs.flatten from by
          rw [← hcl]; exact List.drop_left c cs.flatten]
      rw [chunksOf_id fuel len h0 cs (fun x hx => hc x (by simp [hx]))
        (by simpa using hn)]

theorem cast_map_scale (l : List Nat) (h : ∀ x ∈ l, x < KYBER_Q) :
    castP (l.map (fun x => barrett_reduce (x * KYBER_N_INV)))
      = (castP l).map (fun z => (3303 : Zq) * z) := by
  unfold castP
  rw [List.map_map, List.map_map]
  apply List.map_congr_left
  intro a ha
  simp only [Function.comp_apply]
  have haq := h a ha
  have hb : a * KYBER_N_INV < 77517490 := by
    unfold KYBER_Q at haq
    unfold KYBER_N_INV
    omega
  rw [cast_barrett _ hb]
  push_cast
  rw [show ((KYBER_N_INV : Nat) : Zq) = 3303 from by norm_num [KYBER_N_INV]]
  ring

theorem barrett_scale_lt (l : List Nat) (h : ∀ x ∈ l, x < KYBER_Q) :
    ∀ y ∈ l.map (fun x => barrett_reduce (x * KYBER_N_INV)), y < KYBER_Q := by
  intro y hy
  obtain ⟨a, ha, rfl⟩ := List.mem_map.1 hy
  apply barrett_reduce_lt
  have haq := h a ha
  unfold KYBER_Q at haq
  unfold KYBER_N_INV
  omega

theorem castP_inj :
    ∀ (l1 l2 : List Nat), (∀ x ∈ l1, x < KYBER_Q) → (∀ x ∈ l2, x < KYBER_Q) →
    castP l1 = castP l2 → l1 = l2
  | [], [], _, _, _ => rfl
  | [], b :: l2, _, _, h => by simp [castP] at h
  | a :: l1, [], _, _, h => by simp [castP] at h
  | a :: l1, b :: l2, h1, h2, h => by
      simp only [castP, List.map_cons, List.cons.injEq] at h
      obtain ⟨hab, ht⟩ := h
      have ha : a < 3329 := by
        have := h1 a (by simp)
        unfold KYBER_Q at this
        omega
      have hb : b < 3329 := by
        have := h2 b (by simp)
        unfold KYBER_Q at this
        omega
      have hv := congrArg ZMod.val hab
      rw [ZMod.val_cast_of_lt ha, ZMod.val_cast_of_lt hb] at hv
      rw [hv, castP_inj l1 l2 (fun x hx => h1 x (by simp [hx]))
        (fun x hx => h2 x (by simp [hx])) ht]

theorem ntt_roundtrip_inv_fwd (p : List Nat) (hp : p.length = 256)
    (hcan : ∀ x ∈ p, x < KYBER_Q) :
    ntt_inverse (ntt_forward p) = p := by
  have hpmod : p.map (· % KYBER_Q) = p := map_mod_id p hcan
  have hF0 := ntt_forward_chunks p hp
  rw [hpmod] at hF0
  have hq0 : ∀ c ∈ [p], ∀ x ∈ c, x < KYBER_Q := by
    intro c hc
    simp only [List.mem_singleton] at hc
    subst hc
    exact hcan
  have hq1 : ∀ c ∈ ctChunkOut 1 128 [p], ∀ x ∈ c, x < KYBER_Q :=
    ctChunkOut_mem_lt 128 1 _ hq0
  have hq2 : ∀ c ∈ ctChunkOut 2 64 (ctChunkOut 1 128 [p]), ∀ x ∈ c, x < KYBER_Q :=
    ctChunkOut_mem_lt 64 2 _ hq1
  have hq3 : ∀ c ∈ ctChunkOut 4 32 (ctChunkOut 2 64 (ctChunkOut 1 128 [p])), ∀ x ∈ c, x < KYBER_Q :=
    ctChunkOut_mem_lt 32 4 _ hq2
  have hq4 : ∀ c ∈ ctChunkOut 8 16 (ctChunkOut 4 32 (ctChunkOut 2 64 (ctChunkOut 1 128 [p]))), ∀ x ∈ c, x < KYBER_Q :=
    ctChunkOut_mem_lt 16 8 _ hq3
  have hq5 : ∀ c ∈ ctChunkOut 16 8 (ctChunkOut 8 16 (ctChunkOut 4 32 (ctChunkOut 2 64 (ctChunkOut 1 128 [p])))), ∀ x ∈ c, x < KYBER_Q :=
    ctChunkOut_mem_lt 8 16 _ hq4
  have hq6 : ∀ c ∈ ctChunkOut 32 4 (ctChunkOut 16 8 (ctChunkOut 8 16 (ctChunkOut 4 32 (ctChunkOut 2 64 (ctChunkOut 1 128 [p]))))), ∀ x ∈ c, x < KYBER_Q :=
    ctChunkOut_mem_lt 4 32 _ hq5
  have hq7 : ∀ c ∈ ctChunkOut 64 2 (ctChunkOut 32 4 (ctChunkOut 16 8 (ctChunkOut 8 16 (ctChunkOut 4 32 (ctChunkOut 2 64 (ctChunkOut 1 128 [p])))))), ∀ x ∈ c, x < KYBER_Q :=
    ctChunkOut_mem_lt 2 64 _ hq6
  have hw0 : ∀ c ∈ [p], c.length = 2 * 128 := by
    intro c hc
    simp only [List.mem_singleton] at hc
    subst hc
    omega
  have hw1 : ∀ c ∈ ctChunkOut 1 128 [p], c.length = 2 * 64 := by
    intro c hc
    have := ctChunkOut_mem_length 128 1 _ hw0 c hc
    omega
  have hw2 : ∀ c ∈ ctChunkOut 2 64 (ctChunkOut 1 128 [p]), c.length = 2 * 32 := by
    intro c hc
    have := ctChunkOut_mem_length 64 2 _ hw1 c hc
    omega
  have hw3 : ∀ c ∈ ctChunkOut 4 32 (ctChunkOut 2 64 (ctChunkOut 1 128 [p])), c.length = 2 * 16 := by
    intro c hc
    have := ctChunkOut_mem_length 32 4 _ hw2 c hc
    omega
  have hw4 : ∀ c ∈ ctChunkOut 8 16 (ctChunkOut 4 32 (ctChunkOut 2 64 (ctChunkOut 1 128 [p]))), c.length = 2 * 8 := by
    intro c hc
    have := ctChunkOut_mem_length 16 8 _ hw3 c hc
    omega
  have hw5 : ∀ c ∈ ctChunkOut 16 8 (ctChunkOut 8 16 (ctChunkOut 4 32 (ctChunkOut 2 64 (ctChunkOut 1 128 [p])))), c.length = 2 * 4 := by
    intro c hc
    have := ctChunkOut_mem_length 8 16 _ hw4 c hc
    omega
  have hw6 : ∀ c ∈ ctChunkOut 32 4 (ctChunkOut 16 8 (ctChunkOut 8 16 (ctChunkOut 4 32 (ctChunkOut 2 64 (ctChunkOut 1 128 [p]))))), c.length = 2 * 2 := by
    intro c hc
    have := ctChunkOut_mem_length 4 32 _ hw5 c hc
    omega
  have hw7 : ∀ c ∈ ctChunkOut 64 2 (ctChunkOut 32 4 (ctChunkOut 16 8 (ctChunkOut 8 16 (ctChunkOut 4 32 (ctChunkOut 2 64 (ctChunkOut 1 128 [p])))))), c.length = 2 :=
    ctChunkOut_mem_length 2 64 _ hw6
  have hcnt7 : (ctChunkOut 64 2 (ctChunkOut 32 4 (ctChunkOut 16 8 (ctChunkOut 8 16 (ctChunkOut 4 32 (ctChunkOut 2 64 (ctChunkOut 1 128 [p]))))))).length = 128 := by
    simp [ctChunkOut_length]
  have hlenF : (ntt_forward p).length = 256 := by
    rw [hF0, flatten_length_uniform 2 _ hw7, hcnt7]
  have hcanF : ∀ x ∈ ntt_forward p, x < KYBER_Q := by
    rw [hF0]
    exact flatten_lt _ hq7
  have hI := ntt_inverse_chunks (ntt_forward p) hlenF
  rw [map_mod_id _ hcanF] at hI
  rw [show chunksOf 128 2 (ntt_forward p) = ctChunkOut 64 2 (ctChunkOut 32 4 (ctChunkOut 16 8 (ctChunkOut 8 16 (ctChunkOut 4 32 (ctChunkOut 2 64 (ctChunkOut 1 128 [p])))))) from by
    rw [hF0]
    exact chunksOf_id 128 2 (by omega) _ hw7 hcnt7] at hI
  have hqg1 : ∀ c ∈ gsChunkOut 127 (ctChunkOut 64 2 (ctChunkOut 32 4 (ctChunkOut 16 8 (ctChunkOut 8 16 (ctChunkOut 4 32 (ctChunkOut 2 64 (ctChunkOut 1 128 [p]))))))), ∀ x ∈ c, x < KYBER_Q :=
    gsChunkOut_mem_lt 127 _ hq7
  have hqg2 : ∀ c ∈ gsChunkOut 63 (gsChunkOut 127 (ctChunkOut 64 2 (ctChunkOut 32 4 (ctChunkOut 16 8 (ctChunkOut 8 16 (ctChunkOut 4 32 (ctChunkOut 2 64 (ctChunkOut 1 128 [p])))))))), ∀ x ∈ c, x < KYBER_Q :=
    gsChunkOut_mem_lt 63 _ hqg1
  have hqg3 : ∀ c ∈ gsChunkOut 31 (gsChunkOut 63 (gsChunkOut 127 (ctChunkOut 64 2 (ctChunkOut 32 4 (ctChunkOut 16 8 (ctChunkOut 8 16 (ctChunkOut 4 32 (ctChunkOut 2 64 (ctChunkOut 1 128 [p]))))))))), ∀ x ∈ c, x < KYBER_Q :=
    gsChunkOut_mem_lt 31 _ hqg2
  have hqg4 : ∀ c ∈ gsChunkOut 15 (gsChunkOut 31 (gsChunkOut 63 (gsChunkOut 127 (ctChunkOut 64 2 (ctChunkOut 32 4 (ctChunkOut 16 8 (ctChunkOut 8 16 (ctChunkOut 4 32 (ctChunkOut 2 64 (ctChunkOut 1 128 [p])))))))))), ∀ x ∈ c, x < KYBER_Q :=
    gsChunkOut_mem_lt 15 _ hqg3
  have hqg5 : ∀ c ∈ gsChunkOut 7 (gsChunkOut 15 (gsChunkOut 31 (gsChunkOut 63 (gsChunkOut 127 (ctChunkOut 64 2 (ctChunkOut 32 4 (ctChunkOut 16 8 (ctChunkOut 8 16 (ctChunkOut 4 32 (ctChunkOut 2 64 (ctChunkOut 1 128 [p]))))))))))), ∀ x ∈ c, x < KYBER_Q :=
    gsChunkOut_mem_lt 7 _ hqg4
  have hqg6 : ∀ c ∈ gsChunkOut 3 (gsChunkOut 7 (gsChunkOut 15 (gsChunkOut 31 (gsChunkOut 63 (gsChunkOut 127 (ctChunkOut 64 2 (ctChunkOut 32 4 (ctChunkOut 16 8 (ctChunkOut 8 16 (ctChunkOut 4 32 (ctChunkOut 2 64 (ctChunkOut 1 128 [p])))))))))))), ∀ x ∈ c, x < KYBER_Q :=
    gsChunkOut_mem_lt 3 _ hqg5
  have hqg7 : ∀ c ∈ gsChunkOut 1 (gsChunkOut 3 (gsChunkOut 7 (gsChunkOut 15 (gsChunkOut 31 (gsChunkOut 63 (gsChunkOut 127 (ctChunkOut 64 2 (ctChunkOut 32 4 (ctChunkOut 16 8 (ctChunkOut 8 16 (ctChunkOut 4 32 (ctChunkOut 2 64 (ctChunkOut 1 128 [p]))))))))))))), ∀ x ∈ c, x < KYBER_Q :=
    gsChunkOut_mem_lt 1 _ hqg6
  have t1 : castPP (ctChunkOut 1 128 [p]) = ctChunkZ 1 128 [castP p] := by
    rw [castPP_ctChunkOut 128 1 _ hq0]
    simp [castPP]
  have t2 : castPP (ctChunkOut 2 64 (ctChunkOut 1 128 [p])) = ctChunkZ 2 64 (ctChunkZ 1 128 [castP p]) := by
    rw [castPP_ctChunkOut 64 2 _ hq1, t1]
  have t3 : castPP (ctChunkOut 4 32 (ctChunkOut 2 64 (ctChunkOut 1 128 [p]))) = ctChunkZ 4 32 (ctChunkZ 2 64 (ctChunkZ 1 128 [castP p])) := by
    rw [castPP_ctChunkOut 32 4 _ hq2, t2]
  have t4 : castPP (ctChunkOut 8 16 (ctChunkOut 4 32 (ctChunkOut 2 64 (ctChunkOut 1 128 [p])))) = ctChunkZ 8 16 (ctChunkZ 4 32 (ctChunkZ 2 64 (ctChunkZ 1 128 [castP p]))) := by
    rw [castPP_ctChunkOut 16 8 _ hq3, t3]
  have t5 : castPP (ctChunkOut 16 8 (ctChunkOut 8 16 (ctChunkOut 4 32 (ctChunkOut 2 64 (ctChunkOut 1 128 [p]))))) = ctChunkZ 16 8 (ctChunkZ 8 16 (ctChunkZ 4 32 (ctChunkZ 2 64 (ctChunkZ 1 128 [castP p])))) := by
    rw [castPP_ctChunkOut 8 16 _ hq4, t4]
  have t6 : castPP (ctChunkOut 32 4 (ctChunkOut 16 8 (ctChunkOut 8 16 (ctChunkOut 4 32 (ctChunkOut 2 64 (ctChunkOut 1 128 [p])))))) = ctChunkZ 32 4 (ctChunkZ 16 8 (ctChunkZ 8 16 (ctChunkZ 4 32 (ctChunkZ 2 64 (ctChunkZ 1 128 [castP p]))))) := by
    rw [castPP_ctChunkOut 4 32 _ hq5, t5]
  have t7 : castPP (ctChunkOut 64 2 (ctChunkOut 32 4 (ctChunkOut 16 8 (ctChunkOut 8 16 (ctChunkOut 4 32 (ctChunkOut 2 64 (ctChunkOut 1 128 [p]))))))) = ctChunkZ 64 2 (ctChunkZ 32 4 (ctChunkZ 16 8 (ctChunkZ 8 16 (ctChunkZ 4 32 (ctChunkZ 2 64 (ctChunkZ 1 128 [castP p])))))) := by
    rw [castPP_ctChunkOut 2 64 _ hq6, t6]
  have u1 : castPP (gsChunkOut 127 (ctChunkOut 64 2 (ctChunkOut 32 4 (ctChunkOut 16 8 (ctChunkOut 8 16 (ctChunkOut 4 32 (ctChunkOut 2 64 (ctChunkOut 1 128 [p])))))))) = gsChunkZ 127 (ctChunkZ 64 2 (ctChunkZ 32 4 (ctChunkZ 16 8 (ctChunkZ 8 16 (ctChunkZ 4 32 (ctChunkZ 2 64 (ctChunkZ 1 128 [castP p]))))))) := by
    rw [castPP_gsChunkOut 127 _ hq7, t7]
  have u2 : castPP (gsChunkOut 63 (gsChunkOut 127 (ctChunkOut 64 2 (ctChunkOut 32 4 (ctChunkOut 16 8 (ctChunkOut 8 16 (ctChunkOut 4 32 (ctChunkOut 2 64 (ctChunkOut 1 128 [p]))))))))) = gsChunkZ 63 (gsChunkZ 127 (ctChunkZ 64 2 (ctChunkZ 32 4 (ctChunkZ 16 8 (ctChunkZ 8 16 (ctChunkZ 4 32 (ctChunkZ 2 64 (ctChunkZ 1 128 [castP p])))))))) := by
    rw [castPP_gsChunkOut 63 _ hqg1, u1]
  have u3 : castPP (gsChunkOut 31 (gsChunkOut 63 (gsChunkOut 127 (ctChunkOut 64 2 (ctChunkOut 32 4 (ctChunkOut 16 8 (ctChunkOut 8 16 (ctChunkOut 4 32 (ctChunkOut 2 64 (ctChunkOut 1 128 [p])))))))))) = gsChunkZ 31 (gsChunkZ 63 (gsChunkZ 127 (ctChunkZ 64 2 (ctChunkZ 32 4 (ctChunkZ 16 8 (ctChunkZ 8 16 (ctChunkZ 4 32 (ctChunkZ 2 64 (ctChunkZ 1 128 [castP p]))))))))) := by
    rw [castPP_gsChunkOut 31 _ hqg2, u2]
  have u4 : castPP (gsChunkOut 15 (gsChunkOut 31 (gsChunkOut 63 (gsChunkOut 127 (ctChunkOut 64 2 (ctChunkOut 32 4 (ctChunkOut 16 8 (ctChunkOut 8 16 (ctChunkOut 4 32 (ctChunkOut 2 64 (ctChunkOut 1 128 [p]))))))))))) = gsChunkZ 15 (gsChunkZ 31 (gsChunkZ 63 (gsChunkZ 127 (ctChunkZ 64 2 (ctChunkZ 32 4 (ctChunkZ 16 8 (ctChunkZ 8 16 (ctChunkZ 4 32 (ctChunkZ 2 64 (ctChunkZ 1 128 [castP p])))))))))) := by
    rw [castPP_gsChunkOut 15 _ hqg3, u3]
  have u5 : castPP (gsChunkOut 7 (gsChunkOut 15 (gsChunkOut 31 (gsChunkOut 63 (gsChunkOut 127 (ctChunkOut 64 2 (ctChunkOut 32 4 (ctChunkOut 16 8 (ctChunkOut 8 16 (ctChunkOut 4 32 (ctChunkOut 2 64 (ctChunkOut 1 128 [p])))))))))))) = gsChunkZ 7 (gsChunkZ 15 (gsChunkZ 31 (gsChunkZ 63 (gsChunkZ 127 (ctChunkZ 64 2 (ctChunkZ 32 4 (ctChunkZ 16 8 (ctChunkZ 8 16 (ctChunkZ 4 32 (ctChunkZ 2 64 (ctChunkZ 1 128 [castP p]))))))))))) := by
    rw [castPP_gsChunkOut 7 _ hqg4, u4]
  have u6 : castPP (gsChunkOut 3 (gsChunkOut 7 (gsChunkOut 15 (gsChunkOut 31 (gsChunkOut 63 (gsChunkOut 127 (ctChunkOut 64 2 (ctChunkOut 32 4 (ctChunkOut 16 8 (ctChunkOut 8 16 (ctChunkOut 4 32 (ctChunkOut 2 64 (ctChunkOut 1 128 [p]))))))))))))) = gsChunkZ 3 (gsChunkZ 7 (gsChunkZ 15 (gsChunkZ 31 (gsChunkZ 63 (gsChunkZ 127 (ctChunkZ 64 2 (ctChunkZ 32 4 (ctChunkZ 16 8 (ctChunkZ 8 16 (ctChunkZ 4 32 (ctChunkZ 2 64 (ctChunkZ 1 128 [castP p])))))))))))) := by
    rw [castPP_gsChunkOut 3 _ hqg5, u5]
  have u7 : castPP (gsChunkOut 1 (gsChunkOut 3 (gsChunkOut 7 (gsChunkOut 15 (gsChunkOut 31 (gsChunkOut 63 (gsChunkOut 127 (ctChunkOut 64 2 (ctChunkOut 32 4 (ctChunkOut 16 8 (ctChunkOut 8 16 (ctChunkOut 4 32 (ctChunkOut 2 64 (ctChunkOut 1 128 [p])))))))))))))) = gsChunkZ 1 (gsChunkZ 3 (gsChunkZ 7 (gsChunkZ 15 (gsChunkZ 31 (gsChunkZ 63 (gsChunkZ 127 (ctChunkZ 64 2 (ctChunkZ 32 4 (ctChunkZ 16 8 (ctChunkZ 8 16 (ctChunkZ 4 32 (ctChunkZ 2 64 (ctChunkZ 1 128 [castP p]))))))))))))) := by
    rw [castPP_gsChunkOut 1 _ hqg6, u6]
  apply castP_inj _ _ (by
    rw [hI]
    exact barrett_scale_lt _ (flatten_lt _ hqg7)) hcan
  rw [hI, cast_map_scale _ (flatten_lt _ hqg7), ← castP_flatten, u7,
    inttZ_nttZ_stack (castP p) (by simp [castP, hp])]
  simp only [List.flatten_cons, List.flatten_nil, List.append_nil, List.map_map]
  conv_rhs => rw [← List.map_id (castP p)]
  apply List.map_congr_left
  intro a _
  simp only [Function.comp_apply, id]
  rw [← mul_assoc, show (3303 : Zq) * 128 = 1 from by decide, one_mul]

theorem flatten_map_map {α β : Type} (f : α → β) :
    ∀ (cs : List (List α)), (cs.map (List.map f)).flatten = cs.flatten.map f
  | [] => by simp
  | c :: cs => by
      simp only [List.map_cons, List.flatten_cons, List.map_append,
        flatten_map_map f cs]

theorem ntt_roundtrip_fwd_inv (p : List Nat) (hp : p.length = 256)
    (hcan : ∀ x ∈ p, x < KYBER_Q) :
    ntt_forward (ntt_inverse p) = p := by
  have hpmod : p.map (· % KYBER_Q) = p := map_mod_id p hcan
  have hI0 := ntt_inverse_chunks p hp
  rw [hpmod] at hI0
  have hflatC : (chunksOf 128 2 p).flatten = p :=
    chunksOf_flatten 128 2 p (by omega) (by omega)
  have hm0 : ∀ c ∈ chunksOf 128 2 p, c.length = 2 :=
    chunksOf_mem_length 128 2 p (by omega) (by omega)
  have hcnt0 : (chunksOf 128 2 p).length = 128 :=
    chunksOf_length 128 2 p (by omega) (by omega)
  have hq0 : ∀ c ∈ chunksOf 128 2 p, ∀ x ∈ c, x < KYBER_Q := by
    intro c hc x hx
    exact hcan x (chunksOf_mem_subset 128 2 p c hc x hx)
  have hq1 : ∀ c ∈ gsChunkOut 127 (chunksOf 128 2 p), ∀ x ∈ c, x < KYBER_Q :=
    gsChunkOut_mem_lt 127 _ hq0
  have hw1 : ∀ c ∈ gsChunkOut 127 (chunksOf 128 2 p), c.length = 4 := by
    intro c hc
    have := gsChunkOut_mem_length 2 127 _ hm0 c hc
    omega
  have hcnt1 : (gsChunkOut 127 (chunksOf 128 2 p)).length = 64 := by
    rw [gsChunkOut_length, hcnt0]
  have hq2 : ∀ c ∈ gsChunkOut 63 (gsChunkOut 127 (chunksOf 128 2 p)), ∀ x ∈ c, x < KYBER_Q :=
    gsChunkOut_mem_lt 63 _ hq1
  have hw2 : ∀ c ∈ gsChunkOut 63 (gsChunkOut 127 (chunksOf 128 2 p)), c.length = 8 := by
    intro c hc
    have := gsChunkOut_mem_length 4 63 _ hw1 c hc
    omega
  have hcnt2 : (gsChunkOut 63 (gsChunkOut 127 (chunksOf 128 2 p))).length = 32 := by
    rw [gsChunkOut_length, hcnt1]
  have hq3 : ∀ c ∈ gsChunkOut 31 (gsChunkOut 63 (gsChunkOut 127 (chunksOf 128 2 p))), ∀ x ∈ c, x < KYBER_Q :=
    gsChunkOut_mem_lt 31 _ hq2
  have hw3 : ∀ c ∈ gsChunkOut 31 (gsChunkOut 63 (gsChunkOut 127 (chunksOf 128 2 p))), c.length = 16 := by
    intro c hc
    have := gsChunkOut_mem_length 8 31 _ hw2 c hc
    omega
  have hcnt3 : (gsChunkOut 31 (gsChunkOut 63 (gsChunkOut 127 (chunksOf 128 2 p)))).length = 16 := by
    rw [gsChunkOut_length, hcnt2]
  have hq4 : ∀ c ∈ gsChunkOut 15 (gsChunkOut 31 (gsChunkOut 63 (gsChunkOut 127 (chunksOf 128 2 p)))), ∀ x ∈ c, x < KYBER_Q :=
    gsChunkOut_mem_lt 15 _ hq3
  have hw4 : ∀ c ∈ gsChunkOut 15 (gsChunkOut 31 (gsChunkOut 63 (gsChunkOut 127 (chunksOf 128 2 p)))), c.length = 32 := by
    intro c hc
    have := gsChunkOut_mem_length 16 15 _ hw3 c hc
    omega
  have hcnt4 : (gsChunkOut 15 (gsChunkOut 31 (gsChunkOut 63 (gsChunkOut 127 (chunksOf 128 2 p))))).length = 8 := by
    rw [gsChunkOut_length, hcnt3]
  have hq5 : ∀ c ∈ gsChunkOut 7 (gsChunkOut 15 (gsChunkOut 31 (gsChunkOut 63 (gsChunkOut 127 (chunksOf 128 2 p))))), ∀ x ∈ c, x < KYBER_Q :=
    gsChunkOut_mem_lt 7 _ hq4
  have hw5 : ∀ c ∈ gsChunkOut 7 (gsChunkOut 15 (gsChunkOut 31 (gsChunkOut 63 (gsChunkOut 127 (chunksOf 128 2 p))))), c.length = 64 := by
    intro c hc
    have := gsChunkOut_mem_length 32 7 _ hw4 c hc
    omega
  have hcnt5 : (gsChunkOut 7 (gsChunkOut 15 (gsChunkOut 31 (gsChunkOut 63 (gsChunkOut 127 (chunksOf 128 2 p)))))).length = 4 := by
    rw [gsChunkOut_length, hcnt4]
  have hq6 : ∀ c ∈ gsChunkOut 3 (gsChunkOut 7 (gsChunkOut 15 (gsChunkOut 31 (gsChunkOut 63 (gsChunkOut 127 (chunksOf 128 2 p)))))), ∀ x ∈ c, x < KYBER_Q :=
    gsChunkOut_mem_lt 3 _ hq5
  have hw6 : ∀ c ∈ gsChunkOut 3 (gsChunkOut 7 (gsChunkOut 15 (gsChunkOut 31 (gsChunkOut 63 (gsChunkOut 127 (chunksOf 128 2 p)))))), c.length = 128 := by
    intro c hc
    have := gsChunkOut_mem_length 64 3 _ hw5 c hc
    omega
  have hcnt6 : (gsChunkOut 3 (gsChunkOut 7 (gsChunkOut 15 (gsChunkOut 31 (gsChunkOut 63 (gsChunkOut 127 (chunksOf 128 2 p))))))).length = 2 := by
    rw [gsChunkOut_length, hcnt5]
  have hq7 : ∀ c ∈ gsChunkOut 1 (gsChunkOut 3 (gsChunkOut 7 (gsChunkOut 15 (gsChunkOut 31 (gsChunkOut 63 (gsChunkOut 127 (chunksOf 128 2 p))))))), ∀ x ∈ c, x < KYBER_Q :=
    gsChunkOut_mem_lt 1 _ hq6
  have hw7 : ∀ c ∈ gsChunkOut 1 (gsChunkOut 3 (gsChunkOut 7 (gsChunkOut 15 (gsChunkOut 31 (gsChunkOut 63 (gsChunkOut 127 (chunksOf 128 2 p))))))), c.length = 256 := by
    intro c hc
    have := gsChunkOut_mem_length 128 1 _ hw6 c hc
    omega
  have hcnt7 : (gsChunkOut 1 (gsChunkOut 3 (gsChunkOut 7 (gsChunkOut 15 (gsChunkOut 31 (gsChunkOut 63 (gsChunkOut 127 (chunksOf 128 2 p)))))))).length = 1 := by
    rw [gsChunkOut_length, hcnt6]
  have hlenI : (ntt_inverse p).length = 256 := by
    rw [hI0, List.length_map, flatten_length_uniform 256 _ hw7, hcnt7]
  have hcanI : ∀ x ∈ ntt_inverse p, x < KYBER_Q := by
    rw [hI0]
    exact barrett_scale_lt _ (flatten_lt _ hq7)
  have hF := ntt_forward_chunks (ntt_inverse p) hlenI
  rw [map_mod_id _ hcanI] at hF
  have hqf0 : ∀ c ∈ [ntt_inverse p], ∀ x ∈ c, x < KYBER_Q := by
    intro c hc x hx
    rw [List.mem_singleton] at hc
    rw [hc] at hx
    exact hcanI x hx
  have hqf1 : ∀ c ∈ ctChunkOut 1 128 [ntt_inverse p], ∀ x ∈ c, x < KYBER_Q :=
    ctChunkOut_mem_lt 128 1 _ hqf0
  have hqf2 : ∀ c ∈ ctChunkOut 2 64 (ctChunkOut 1 128 [ntt_inverse p]), ∀ x ∈ c, x < KYBER_Q :=
    ctChunkOut_mem_lt 64 2 _ hqf1
  have hqf3 : ∀ c ∈ ctChunkOut 4 32 (ctChunkOut 2 64 (ctChunkOut 1 128 [ntt_inverse p])), ∀ x ∈ c, x < KYBER_Q :=
    ctChunkOut_mem_lt 32 4 _ hqf2
  have hqf4 : ∀ c ∈ ctChunkOut 8 16 (ctChunkOut 4 32 (ctChunkOut 2 64 (ctChunkOut 1 128 [ntt_inverse p]))), ∀ x ∈ c, x < KYBER_Q :=
    ctChunkOut_mem_lt 16 8 _ hqf3
  have hqf5 : ∀ c ∈ ctChunkOut 16 8 (ctChunkOut 8 16 (ctChunkOut 4 32 (ctChunkOut 2 64 (ctChunkOut 1 128 [ntt_inverse p])))), ∀ x ∈ c, x < KYBER_Q :=
    ctChunkOut_mem_lt 8 16 _ hqf4
  have hqf6 : ∀ c ∈ ctChunkOut 32 4 (ctChunkOut 16 8 (ctChunkOut 8 16 (ctChunkOut 4 32 (ctChunkOut 2 64 (ctChunkOut 1 128 [ntt_inverse p]))))), ∀ x ∈ c, x < KYBER_Q :=
    ctChunkOut_mem_lt 4 32 _ hqf5
  have hqf7 : ∀ c ∈ ctChunkOut 64 2 (ctChunkOut 32 4 (ctChunkOut 16 8 (ctChunkOut 8 16 (ctChunkOut 4 32 (ctChunkOut 2 64 (ctChunkOut 1 128 [ntt_inverse p])))))), ∀ x ∈ c, x < KYBER_Q :=
    ctChunkOut_mem_lt 2 64 _ hqf6
  have ug1 : castPP (gsChunkOut 127 (chunksOf 128 2 p)) = gsChunkZ 127 (castPP (chunksOf 128 2 p)) := by
    rw [castPP_gsChunkOut 127 _ hq0]
  have ug2 : castPP (gsChunkOut 63 (gsChunkOut 127 (chunksOf 128 2 p))) = gsChunkZ 63 (gsChunkZ 127 (castPP (chunksOf 128 2 p))) := by
    rw [castPP_gsChunkOut 63 _ hq1, ug1]
  have ug3 : castPP (gsChunkOut 31 (gsChunkOut 63 (gsChunkOut 127 (chunksOf 128 2 p)))) = gsChunkZ 31 (gsChunkZ 63 (gsChunkZ 127 (castPP (chunksOf 128 2 p)))) := by
    rw [castPP_gsChunkOut 31 _ hq2, ug2]
  have ug4 : castPP (gsChunkOut 15 (gsChunkOut 31 (gsChunkOut 63 (gsChunkOut 127 (chunksOf 128 2 p))))) = gsChunkZ 15 (gsChunkZ 31 (gsChunkZ 63 (gsChunkZ 127 (castPP (chunksOf 128 2 p))))) := by
    rw [castPP_gsChunkOut 15 _ hq3, ug3]
  have ug5 : castPP (gsChunkOut 7 (gsChunkOut 15 (gsChunkOut 31 (gsChunkOut 63 (gsChunkOut 127 (chunksOf 128 2 p)))))) = gsChunkZ 7 (gsChunkZ 15 (gsChunkZ 31 (gsChunkZ 63 (gsChunkZ 127 (castPP (chunksOf 128 2 p)))))) := by
    rw [castPP_gsChunkOut 7 _ hq4, ug4]
  have ug6 : castPP (gsChunkOut 3 (gsChunkOut 7 (gsChunkOut 15 (gsChunkOut 31 (gsChunkOut 63 (gsChunkOut 127 (chunksOf 128 2 p))))))) = gsChunkZ 3 (gsChunkZ 7 (gsChunkZ 15 (gsChunkZ 31 (gsChunkZ 63 (gsChunkZ 127 (castPP (chunksOf 128 2 p))))))) := by
    rw [castPP_gsChunkOut 3 _ hq5, ug5]
  have ug7 : castPP (gsChunkOut 1 (gsChunkOut 3 (gsChunkOut 7 (gsChunkOut 15 (gsChunkOut 31 (gsChunkOut 63 (gsChunkOut 127 (chunksOf 128 2 p)))))))) = gsChunkZ 1 (gsChunkZ 3 (gsChunkZ 7 (gsChunkZ 15 (gsChunkZ 31 (gsChunkZ 63 (gsChunkZ 127 (castPP (chunksOf 128 2 p)))))))) := by
    rw [castPP_gsChunkOut 1 _ hq6, ug6]
  have hcastI : castP (ntt_inverse p)
      = ((gsChunkZ 1 (gsChunkZ 3 (gsChunkZ 7 (gsChunkZ 15 (gsChunkZ 31 (gsChunkZ 63 (gsChunkZ 127 (castPP (chunksOf 128 2 p))))))))).flatten).map (fun x => (3303 : Zq) * x) := by
    rw [hI0, cast_map_scale _ (flatten_lt _ hq7), ← castP_flatten, ug7]
  have hWcnt : (castPP (chunksOf 128 2 p)).length = 128 := by
    simp [castPP, hcnt0]
  have hWm : ∀ c ∈ castPP (chunksOf 128 2 p), c.length = 2 := by
    intro c hc
    obtain ⟨c0, hc0, rfl⟩ := List.mem_map.1 hc
    simp [castP, hm0 c0 hc0]
  have hXcnt : (gsChunkZ 1 (gsChunkZ 3 (gsChunkZ 7 (gsChunkZ 15 (gsChunkZ 31 (gsChunkZ 63 (gsChunkZ 127 (castPP (chunksOf 128 2 p))))))))).length = 1 := by
    simp [gsChunkZ_length, hWcnt]
  obtain ⟨c0, hc0⟩ := List.length_eq_one.1 hXcnt
  have hsub : ([castP (ntt_inverse p)] : List (List Zq))
      = (gsChunkZ 1 (gsChunkZ 3 (gsChunkZ 7 (gsChunkZ 15 (gsChunkZ 31 (gsChunkZ 63 (gsChunkZ 127 (castPP (chunksOf 128 2 p))))))))).map (List.map (fun x => (3303 : Zq) * x)) := by
    rw [hcastI, hc0]
    simp
  have tf1 : castPP (ctChunkOut 1 128 [ntt_inverse p]) = ctChunkZ 1 128 [castP (ntt_inverse p)] := by
    rw [castPP_ctChunkOut 128 1 _ hqf0]
    simp [castPP]
  have tf2 : castPP (ctChunkOut 2 64 (ctChunkOut 1 128 [ntt_inverse p])) = ctChunkZ 2 64 (ctChunkZ 1 128 [castP (ntt_inverse p)]) := by
    rw [castPP_ctChunkOut 64 2 _ hqf1, tf1]
  have tf3 : castPP (ctChunkOut 4 32 (ctChunkOut 2 64 (ctChunkOut 1 128 [ntt_inverse p]))) = ctChunkZ 4 32 (ctChunkZ 2 64 (ctChunkZ 1 128 [castP (ntt_inverse p)])) := by
    rw [castPP_ctChunkOut 32 4 _ hqf2, tf2]
  have tf4 : castPP (ctChunkOut 8 16 (ctChunkOut 4 32 (ctChunkOut 2 64 (ctChunkOut 1 128 [ntt_inverse p])))) = ctChunkZ 8 16 (ctChunkZ 4 32 (ctChunkZ 2 64 (ctChunkZ 1 128 [castP (ntt_inverse p)]))) := by
    rw [castPP_ctChunkOut 16 8 _ hqf3, tf3]
  have tf5 : castPP (ctChunkOut 16 8 (ctChunkOut 8 16 (ctChunkOut 4 32 (ctChunkOut 2 64 (ctChunkOut 1 128 [ntt_inverse p]))))) = ctChunkZ 16 8 (ctChunkZ 8 16 (ctChunkZ 4 32 (ctChunkZ 2 64 (ctChunkZ 1 128 [castP (ntt_inverse p)])))) := by
    rw [castPP_ctChunkOut 8 16 _ hqf4, tf4]
  have tf6 : castPP (ctChunkOut 32 4 (ctChunkOut 16 8 (ctChunkOut 8 16 (ctChunkOut 4 32 (ctChunkOut 2 64 (ctChunkOut 1 128 [ntt_inverse p])))))) = ctChunkZ 32 4 (ctChunkZ 16 8 (ctChunkZ 8 16 (ctChunkZ 4 32 (ctChunkZ 2 64 (ctChunkZ 1 128 [castP (ntt_inverse p)]))))) := by
    rw [castPP_ctChunkOut 4 32 _ hqf5, tf5]
  have tf7 : castPP (ctChunkOut 64 2 (ctChunkOut 32 4 (ctChunkOut 16 8 (ctChunkOut 8 16 (ctChunkOut 4 32 (ctChunkOut 2 64 (ctChunkOut 1 128 [ntt_inverse p]))))))) = ctChunkZ 64 2 (ctChunkZ 32 4 (ctChunkZ 16 8 (ctChunkZ 8 16 (ctChunkZ 4 32 (ctChunkZ 2 64 (ctChunkZ 1 128 [castP (ntt_inverse p)])))))) := by
    rw [castPP_ctChunkOut 2 64 _ hqf6, tf6]
  apply castP_inj _ _ (by
    rw [hF]
    exact flatten_lt _ hqf7) hcan
  rw [hF, ← castP_flatten, tf7, hsub]
  simp only [ctChunkZ_map_smul]
  rw [nttZ_inttZ_stack _ hWm hWcnt]
  rw [flatten_map_map, flatten_map_map, List.map_map]
  rw [castP_flatten, hflatC]
  conv_rhs => rw [← List.map_id (castP p)]
  apply List.map_congr_left
  intro a _
  simp only [Function.comp_apply, id]
  rw [← mul_assoc, show (3303 : Zq) * 128 = 1 from by decide, one_mul]

/-- C3: for every polynomial of 256 canonical coefficients (each below q = 3329),
ntt_inverse (ntt_forward p) = p and ntt_forward (ntt_inverse p) = p: the
Cooley-Tukey forward NTT and the Gentleman-Sande inverse NTT of the source are
mutual inverses on canonical input. -/
theorem C3_ntt_roundtrip (p : List Nat) (hp : p.length = 256)
    (hcan : ∀ x ∈ p, x < KYBER_Q) :
    ntt_inverse (ntt_forward p) = p ∧ ntt_forward (ntt_inverse p) = p :=
  ⟨ntt_roundtrip_inv_fwd p hp hcan, ntt_roundtrip_fwd_inv p hp hcan⟩

theorem C3_ntt_roundtrip_witness :
    (List.replicate 256 3328).length = 256
      ∧ (∀ x ∈ List.replicate 256 3328, x < KYBER_Q)
      ∧ ntt_inverse (ntt_forward (List.replicate 256 3328)) = List.replicate 256 3328
      ∧ ntt_forward (ntt_inverse (List.replicate 256 3328)) = List.replicate 256 3328 := by
  have h1 : (List.replicate 256 3328).length = 256 := by simp
  have h2 : ∀ x ∈ List.replicate 256 3328, x < KYBER_Q := by
    intro x hx
    rw [List.eq_of_mem_replicate hx]
    decide
  have h := C3_ntt_roundtrip (List.replicate 256 3328) h1 h2
  exact ⟨h1, h2, h.1, h.2⟩

end Kyber
